import Mathlib

/-!
TsetlinKWS host software: result aggregator and bank loader.

A shallow embedding of `src_sw/main_codec.c` (the per-notification body of the
main loop and the loader calls of `main`), `src_sw/spi_config.c`
(`binary_str_to_uint32`, `read_model_data`, `initial_TMA`, `SPIWrite`) and
`src_sw/tf_card.c` (`sd_read_binary`, `sd_read_hex`), followed by the properties
proved about them.

Conventions.
* `u8` variables are naturals, every update is reduced modulo 256.
* C arrays are lists; a read is `List.getD _ _ 0` and a write is `List.set`.
  All theorems are stated where the indices are in bounds. The definitions
  whose name ends in `Checked` are the same code with every read `xs[i]?`
  failing outside the array and the window counters failing outside `0..255`.
* A file is the list of its lines, each with its line end. A reader gets it
  through `f_gets(line_buf, sizeof(line_buf), &fil)`, which returns at most
  `sizeof(line_buf) - 1` characters per call (`fgetsReturns`): a longer line
  reaches the loop in pieces.
* The local `char line_buf[..]` of a reader is a list of characters that
  is threaded through the loop, so that characters left over from an earlier
  line are still there after a shorter line has been read.
* `int` counters are naturals: `window_idx` stays below 40 and `line_count`
  counts accepted lines up from 0; `int` overflow of `line_count * 4` (which
  needs `2 ^ 29` accepted lines) is not modelled.
-/

namespace TsetlinKWS

/-! ## Result aggregator (`main_codec.c`) -/

/-- The macro `WINDOW_SIZE`. -/
abbrev WINDOW_SIZE : Nat := 40
/-- The macro `FILL_SILENCE_MAX_CNT`. -/
abbrev FILL_SILENCE_MAX_CNT : Nat := 40
/-- The macro `DETECTING_CONS_RESULT_CNT`. -/
abbrev DETECTING_CONS_RESULT_CNT : Nat := 20

/-- The table `label[]`. -/
def label : List String :=
  ["yes", "no", "up", "down", "left", "right", "on", "off", "stop", "go", "silence", "unknown"]

/-- The enum `sys_state`. -/
inductive sys_state where
  | detecting
  | fill_silence
  deriving DecidableEq, Repr

/-- The variables of `main` that live across notifications, together with the
globals `current_state`, `print_flag`, `fill_silence_cnt`, `consecutive_time`
and `consecutive_result`. -/
structure Aggregator where
  window_idx : Nat
  result_window : List Nat
  result_count : List Nat
  last_result : Nat
  current_state : sys_state
  print_flag : Nat
  fill_silence_cnt : Nat
  consecutive_time : Nat
  consecutive_result : Nat
  deriving DecidableEq, Repr

/-- What the two `printf` calls of the `detecting` case print: the twelve
occupancy counts and `label[consecutive_result]`. -/
structure Detection where
  counts : List Nat
  word : String
  deriving DecidableEq, Repr

/-- The state built by the initialisation at the top of `main` (lines 77-92)
and by the initialisers of the globals (lines 66-71). -/
def Aggregator.init : Aggregator where
  window_idx := 0
  result_window := List.replicate WINDOW_SIZE 10
  result_count := (List.replicate 12 0).set 10 WINDOW_SIZE
  last_result := 10
  current_state := sys_state.detecting
  print_flag := 0
  fill_silence_cnt := 0
  consecutive_time := 0
  consecutive_result := 0

/-- Lines 174-197: pop the oldest slot, debounced write, cooldown force-write,
count update, index advance. -/
def windowUpdate (s : Aggregator) (result : Nat) : Aggregator :=
  let old := s.result_window.getD s.window_idx 0
  let cnt1 := s.result_count.set old ((s.result_count.getD old 0 + 255) % 256)
  let w1 := s.result_window.set s.window_idx (if result = s.last_result then result else 10)
  let w2 := if s.current_state = sys_state.fill_silence then w1.set s.window_idx 10 else w1
  let new := w2.getD s.window_idx 0
  let cnt2 := cnt1.set new ((cnt1.getD new 0 + 1) % 256)
  let idx1 := s.window_idx + 1
  let idx2 := if idx1 = WINDOW_SIZE then 0 else idx1
  { s with window_idx := idx2, result_window := w2, result_count := cnt2 }

/-- Lines 200-207: the loop body folded over `i = 0 .. 11`, on the pair
`(max_result, max_result_count)`. -/
def maxResultLoop (result_count : List Nat) : Nat → Nat × Nat → Nat × Nat
  | 0, acc => acc
  | k + 1, acc =>
    let i := 12 - (k + 1)
    if result_count.getD i 0 > acc.2 then
      maxResultLoop result_count k (i, result_count.getD i 0)
    else
      maxResultLoop result_count k acc

/-- Lines 200-207 with the initialisation `max_result = 0; max_result_count = 0`. -/
def maxResult (result_count : List Nat) : Nat × Nat :=
  maxResultLoop result_count 12 (0, 0)

/-- The variables the consensus scan works on. -/
structure Scan where
  start_idx : Nat
  consecutive_time : Nat
  consecutive_result : Nat
  print_flag : Nat
  deriving DecidableEq, Repr

/-- Lines 214-233: the `for` loop of the consensus scan with `fuel` iterations
left; the `break` is the branch that does not recurse. -/
def scanLoop (result_window : List Nat) (current_state : sys_state) : Nat → Scan → Scan
  | 0, v => v
  | fuel + 1, v =>
    let slot := result_window.getD v.start_idx 0
    let v1 : Scan :=
      if v.consecutive_result = slot then
        { v with consecutive_time := (v.consecutive_time + 1) % 256 }
      else
        { v with consecutive_result := slot, consecutive_time := 0 }
    if v1.consecutive_time = DETECTING_CONS_RESULT_CNT ∧ v1.consecutive_result ≠ 10
        ∧ current_state = sys_state.detecting then
      { v1 with print_flag := 1 }
    else
      let next := v1.start_idx + 1
      scanLoop result_window current_state fuel
        { v1 with start_idx := if next = WINDOW_SIZE then 0 else next }

/-- Lines 209-233: the consensus scan, started at the write index. -/
def consensusScan (s : Aggregator) : Scan :=
  scanLoop s.result_window s.current_state WINDOW_SIZE
    { start_idx := s.window_idx
      consecutive_time := 0
      consecutive_result := s.result_window.getD s.window_idx 0
      print_flag := s.print_flag }

/-- Lines 236-253: the first `switch`; returns the new `fill_silence_cnt`, the
new `print_flag` and what was printed. -/
def emissionSwitch (current_state : sys_state) (fill_silence_cnt print_flag : Nat)
    (result_count : List Nat) (consecutive_result : Nat) : Nat × Nat × Option Detection :=
  match current_state with
  | sys_state.detecting =>
    (0, print_flag,
      if print_flag ≠ 0 then
        some { counts := result_count, word := label.getD consecutive_result "" }
      else none)
  | sys_state.fill_silence => ((fill_silence_cnt + 1) % 256, 0, none)

/-- Lines 255-265: the second `switch`. -/
def stateSwitch (current_state : sys_state) (fill_silence_cnt print_flag : Nat) : sys_state :=
  match current_state with
  | sys_state.detecting =>
    if print_flag = 1 then sys_state.fill_silence else sys_state.detecting
  | sys_state.fill_silence =>
    if fill_silence_cnt = FILL_SILENCE_MAX_CNT then sys_state.detecting
    else sys_state.fill_silence

/-- Lines 164-268: one pass through the body of `if (inference_finish_flag == 1)`
for the classification code `result`. Returns the next state and the detection
printed on this notification, if any. -/
def step (s : Aggregator) (result : Nat) : Aggregator × Option Detection :=
  let s1 := windowUpdate s result
  let v := consensusScan s1
  let e := emissionSwitch s1.current_state s1.fill_silence_cnt v.print_flag
    s1.result_count v.consecutive_result
  let st := stateSwitch s1.current_state e.1 e.2.1
  ({ s1 with
      last_result := result
      current_state := st
      print_flag := e.2.1
      fill_silence_cnt := e.1
      consecutive_time := v.consecutive_time
      consecutive_result := v.consecutive_result },
    e.2.2)

/-- The state after the notifications `codes`, fed in order. -/
def run (s : Aggregator) : List Nat → Aggregator
  | [] => s
  | r :: rs => run (step s r).1 rs

/-- The detections printed on the notifications `codes`, one entry per
notification. -/
def events (s : Aggregator) : List Nat → List (Option Detection)
  | [] => []
  | r :: rs => (step s r).2 :: events (step s r).1 rs

/-- The window read in chronological order, oldest slot first: the slots from
`window_idx` to the end, then those before `window_idx`. -/
def chrono (s : Aggregator) : List Nat :=
  s.result_window.drop s.window_idx ++ s.result_window.take s.window_idx

/-! ### Auxiliary definitions for the aggregator proofs -/

/-- The value that lines 177-188 leave in the slot at the write index: silence
in `fill_silence`, otherwise the code if it repeats the previous raw code and
silence if it does not. -/
def written (s : Aggregator) (result : Nat) : Nat :=
  if s.current_state = sys_state.fill_silence then 10
  else if result = s.last_result then result else 10

/-- The `k` slots that the scan index visits from position `i` on, wrapping at
`WINDOW_SIZE` the way `start_idx` does. -/
def slice (w : List Nat) : Nat → Nat → List Nat
  | 0, _ => []
  | k + 1, i => w.getD i 0 :: slice w k (if i + 1 = WINDOW_SIZE then 0 else i + 1)

/-- The consensus scan as a traversal of the list of visited slots: returns
`consecutive_time`, `consecutive_result` and whether the scan stopped at the
threshold. -/
def scanList (cur : sys_state) : List Nat → Nat → Nat → Nat × Nat × Bool
  | [], ct, cr => (ct, cr, false)
  | x :: xs, ct, cr =>
    let ct1 := if cr = x then (ct + 1) % 256 else 0
    if ct1 = DETECTING_CONS_RESULT_CNT ∧ x ≠ 10 ∧ cur = sys_state.detecting then (ct1, x, true)
    else scanList cur xs ct1 x

/-- The number of leading entries of the list equal to `c`. -/
def lead (c : Nat) : List Nat → Nat
  | [] => 0
  | x :: xs => if x = c then lead c xs + 1 else 0

/-- The maximal runs of `c ^ n ++ xs`, where the run of `c` is still open. -/
def runsFrom : Nat → Nat → List Nat → List (Nat × Nat)
  | c, n, [] => [(c, n)]
  | c, n, x :: xs => if x = c then runsFrom c (n + 1) xs else (c, n) :: runsFrom x 1 xs

/-- The maximal contiguous runs of a list, first to last, each as
`(class, length)`. -/
def runs : List Nat → List (Nat × Nat)
  | [] => []
  | x :: xs => runsFrom x 1 xs

/-- The firing condition of the scan on the chronological window `l`: the first
maximal run is of a non-silence class and has at least
`DETECTING_CONS_RESULT_CNT` slots, or a later maximal run of a non-silence
class has at least one slot more. -/
def Fires (l : List Nat) : Prop :=
  ∃ p rest, runs l = p :: rest ∧
    ((p.1 ≠ 10 ∧ DETECTING_CONS_RESULT_CNT ≤ p.2)
      ∨ ∃ q ∈ rest, q.1 ≠ 10 ∧ DETECTING_CONS_RESULT_CNT + 1 ≤ q.2)

/-- The invariant of the states reached from `Aggregator.init` by codes in
`0..11`. -/
structure Inv (s : Aggregator) : Prop where
  window_length : s.result_window.length = WINDOW_SIZE
  count_length : s.result_count.length = 12
  idx_lt : s.window_idx < WINDOW_SIZE
  window_lt : ∀ x ∈ s.result_window, x < 12
  count_eq : ∀ c, c < 12 → s.result_count.getD c 0 = s.result_window.count c
  flag_clear : s.current_state = sys_state.detecting → s.print_flag = 0


/-! ## Bank loader (`spi_config.c`, `spi_config.h`, `tf_card.c`) -/

/-- The string constant of the same name in `spi_config.c`. -/
def BLOCK_IDX_BANK_CONFIG_ADDR : String := "10010000010001111111000000000000"
/-- The string constant of the same name in `spi_config.c`. -/
def ROW_CNT_BANK0_CONFIG_ADDR : String := "10100000011000110111000000000000"
/-- The string constant of the same name in `spi_config.c`. -/
def ROW_CNT_BANK1_CONFIG_ADDR : String := "10100010011001010001000000000000"
/-- The string constant of the same name in `spi_config.c`. -/
def ROW_CNT_BANK2_CONFIG_ADDR : String := "10100100011001011010000000000000"
/-- The string constant of the same name in `spi_config.c`. -/
def ROW_CNT_BANK3_CONFIG_ADDR : String := "10100110011001001101000000000000"
/-- The string constant of the same name in `spi_config.c`. -/
def ROW_CNT_BANK4_CONFIG_ADDR : String := "10101000011010000011000000000000"
/-- The string constant of the same name in `spi_config.c`. -/
def CCL_IDX_BANK0_CONFIG_ADDR : String := "10110000110000110110000000000000"
/-- The string constant of the same name in `spi_config.c`. -/
def CCL_IDX_BANK1_CONFIG_ADDR : String := "10110010110000101001000000000000"
/-- The string constant of the same name in `spi_config.c`. -/
def CCL_IDX_BANK2_CONFIG_ADDR : String := "10110100110000011010000000000000"
/-- The string constant of the same name in `spi_config.c`. -/
def CCL_IDX_BANK3_CONFIG_ADDR : String := "10110110110000100011000000000000"
/-- The string constant of the same name in `spi_config.c`. -/
def CCL_IDX_BANK4_CONFIG_ADDR : String := "10111000110001110001000000000000"
/-- The string constant of the same name in `spi_config.c`. -/
def WEIGHT_BANK0_CONFIG_ADDR : String := "11000000010110011111000000000000"
/-- The string constant of the same name in `spi_config.c`. -/
def CONF_SPI_EN_INF_ADDR : String := "10000000000000000000000000000001"
/-- The string constant of the same name in `spi_config.c`. -/
def CONF_SPI_EN_INF_DATA : String := "00000000000000000000000000000001"

/-- The macro of the same name in `spi_config.h`. -/
abbrev LEN_CONF_REG : Nat := 28
/-- The macro of the same name in `spi_config.h`. -/
abbrev LEN_BLOCK_BANK : Nat := 1152
/-- The macro of the same name in `spi_config.h`. -/
abbrev LEN_ROW_BANK0 : Nat := 1592
/-- The macro of the same name in `spi_config.h`. -/
abbrev LEN_ROW_BANK1 : Nat := 1618
/-- The macro of the same name in `spi_config.h`. -/
abbrev LEN_ROW_BANK2 : Nat := 1627
/-- The macro of the same name in `spi_config.h`. -/
abbrev LEN_ROW_BANK3 : Nat := 1614
/-- The macro of the same name in `spi_config.h`. -/
abbrev LEN_ROW_BANK4 : Nat := 1668
/-- The macro of the same name in `spi_config.h`. -/
abbrev LEN_CCL_BANK0 : Nat := 3127
/-- The macro of the same name in `spi_config.h`. -/
abbrev LEN_CCL_BANK1 : Nat := 3114
/-- The macro of the same name in `spi_config.h`. -/
abbrev LEN_CCL_BANK2 : Nat := 3099
/-- The macro of the same name in `spi_config.h`. -/
abbrev LEN_CCL_BANK3 : Nat := 3108
/-- The macro of the same name in `spi_config.h`. -/
abbrev LEN_CCL_BANK4 : Nat := 3186
/-- The macro of the same name in `spi_config.h`. -/
abbrev LEN_WEIGHT_BANK : Nat := 1440

/-- The status `XST_SUCCESS` of the platform header `xstatus.h`, which is 0. -/
abbrev XST_SUCCESS : Nat := 0

/-- The string terminator, also what a read past the end of a modelled string
or line buffer yields. -/
def NUL : Char := Char.ofNat 0

/-- The loop of `binary_str_to_uint32` with `fuel` iterations left, that is at
`i = 32 - fuel`; `result` is a `uint32_t`. -/
def binary_str_to_uint32_loop (str : List Char) : Nat → Nat → Nat
  | 0, result => result
  | fuel + 1, result =>
    let i := 32 - (fuel + 1)
    binary_str_to_uint32_loop str fuel
      (if str.getD i NUL = '1' then (result ||| (1 <<< (31 - i)) % 2 ^ 32) % 2 ^ 32 else result)

/-- The function `binary_str_to_uint32` of `spi_config.c`. -/
def binary_str_to_uint32 (str : String) : Nat :=
  binary_str_to_uint32_loop str.data 32 0

/-- The loop `for (i = 0; i < 4; i++) buf[base + i] = (value >> (24 - i * 8)) & 0xFF`
that `initial_TMA` runs on `addr_uint8` (with `base = 0`) and both readers run
on `dest_buf` (with `base = line_count * 4`). -/
def storeWord (buf : List Nat) (base value : Nat) : List Nat :=
  (List.range 4).foldl (fun b i => b.set (base + i) ((value >>> (24 - i * 8)) &&& 0xFF)) buf

/-- The global buffers declared in `spi_config.h`. -/
structure Buffers where
  Conf_reg_Buffer : List Nat
  Conf_block_Buffer : List Nat
  Conf_row_Buffer0 : List Nat
  Conf_row_Buffer1 : List Nat
  Conf_row_Buffer2 : List Nat
  Conf_row_Buffer3 : List Nat
  Conf_row_Buffer4 : List Nat
  Conf_ccl_Buffer0 : List Nat
  Conf_ccl_Buffer1 : List Nat
  Conf_ccl_Buffer2 : List Nat
  Conf_ccl_Buffer3 : List Nat
  Conf_ccl_Buffer4 : List Nat
  Conf_weight_Buffer : List Nat
  Conf_feature_bank_Buffer : List Nat
  deriving DecidableEq, Repr

/-- The function `SPIWrite`: one call of the transport `XSpiPs_PolledTransfer`
on the `ByteCount` bytes that start at `Buffer + Offset`. The transport is
modelled by the list of bursts sent so far. -/
def SPIWrite (sent : List (List Nat)) (Offset ByteCount : Nat) (Buffer : List Nat) :
    List (List Nat) :=
  sent ++ [(Buffer.drop Offset).take ByteCount]

/-- The function `initial_TMA` of `spi_config.c`, statement by statement;
returns the status and the bursts sent, in order. The array `addr_uint8` is
overwritten in full before each use, it starts as four zero bytes here. -/
def initial_TMA (b : Buffers) : Nat × List (List Nat) :=
  let addr_uint8 : List Nat := [0, 0, 0, 0]
  let sent := SPIWrite [] 0 (LEN_CONF_REG * 4) b.Conf_reg_Buffer
  let addr_uint32 := binary_str_to_uint32 BLOCK_IDX_BANK_CONFIG_ADDR
  let addr_uint8 := storeWord addr_uint8 0 addr_uint32
  let sent := SPIWrite sent 0 4 addr_uint8
  let sent := SPIWrite sent 0 (LEN_BLOCK_BANK * 4) b.Conf_block_Buffer
  let addr_uint32 := binary_str_to_uint32 ROW_CNT_BANK0_CONFIG_ADDR
  let addr_uint8 := storeWord addr_uint8 0 addr_uint32
  let sent := SPIWrite sent 0 4 addr_uint8
  let sent := SPIWrite sent 0 (LEN_ROW_BANK0 * 4) b.Conf_row_Buffer0
  let addr_uint32 := binary_str_to_uint32 ROW_CNT_BANK1_CONFIG_ADDR
  let addr_uint8 := storeWord addr_uint8 0 addr_uint32
  let sent := SPIWrite sent 0 4 addr_uint8
  let sent := SPIWrite sent 0 (LEN_ROW_BANK1 * 4) b.Conf_row_Buffer1
  let addr_uint32 := binary_str_to_uint32 ROW_CNT_BANK2_CONFIG_ADDR
  let addr_uint8 := storeWord addr_uint8 0 addr_uint32
  let sent := SPIWrite sent 0 4 addr_uint8
  let sent := SPIWrite sent 0 (LEN_ROW_BANK2 * 4) b.Conf_row_Buffer2
  let addr_uint32 := binary_str_to_uint32 ROW_CNT_BANK3_CONFIG_ADDR
  let addr_uint8 := storeWord addr_uint8 0 addr_uint32
  let sent := SPIWrite sent 0 4 addr_uint8
  let sent := SPIWrite sent 0 (LEN_ROW_BANK3 * 4) b.Conf_row_Buffer3
  let addr_uint32 := binary_str_to_uint32 ROW_CNT_BANK4_CONFIG_ADDR
  let addr_uint8 := storeWord addr_uint8 0 addr_uint32
  let sent := SPIWrite sent 0 4 addr_uint8
  let sent := SPIWrite sent 0 (LEN_ROW_BANK4 * 4) b.Conf_row_Buffer4
  let addr_uint32 := binary_str_to_uint32 CCL_IDX_BANK0_CONFIG_ADDR
  let addr_uint8 := storeWord addr_uint8 0 addr_uint32
  let sent := SPIWrite sent 0 4 addr_uint8
  let sent := SPIWrite sent 0 (LEN_CCL_BANK0 * 4) b.Conf_ccl_Buffer0
  let addr_uint32 := binary_str_to_uint32 CCL_IDX_BANK1_CONFIG_ADDR
  let addr_uint8 := storeWord addr_uint8 0 addr_uint32
  let sent := SPIWrite sent 0 4 addr_uint8
  let sent := SPIWrite sent 0 (LEN_CCL_BANK1 * 4) b.Conf_ccl_Buffer1
  let addr_uint32 := binary_str_to_uint32 CCL_IDX_BANK2_CONFIG_ADDR
  let addr_uint8 := storeWord addr_uint8 0 addr_uint32
  let sent := SPIWrite sent 0 4 addr_uint8
  let sent := SPIWrite sent 0 (LEN_CCL_BANK2 * 4) b.Conf_ccl_Buffer2
  let addr_uint32 := binary_str_to_uint32 CCL_IDX_BANK3_CONFIG_ADDR
  let addr_uint8 := storeWord addr_uint8 0 addr_uint32
  let sent := SPIWrite sent 0 4 addr_uint8
  let sent := SPIWrite sent 0 (LEN_CCL_BANK3 * 4) b.Conf_ccl_Buffer3
  let addr_uint32 := binary_str_to_uint32 CCL_IDX_BANK4_CONFIG_ADDR
  let addr_uint8 := storeWord addr_uint8 0 addr_uint32
  let sent := SPIWrite sent 0 4 addr_uint8
  let sent := SPIWrite sent 0 (LEN_CCL_BANK4 * 4) b.Conf_ccl_Buffer4
  let addr_uint32 := binary_str_to_uint32 WEIGHT_BANK0_CONFIG_ADDR
  let addr_uint8 := storeWord addr_uint8 0 addr_uint32
  let sent := SPIWrite sent 0 4 addr_uint8
  let sent := SPIWrite sent 0 (LEN_WEIGHT_BANK * 4) b.Conf_weight_Buffer
  let addr_uint32 := binary_str_to_uint32 CONF_SPI_EN_INF_ADDR
  let addr_uint8 := storeWord addr_uint8 0 addr_uint32
  let sent := SPIWrite sent 0 4 addr_uint8
  let addr_uint32 := binary_str_to_uint32 CONF_SPI_EN_INF_DATA
  let addr_uint8 := storeWord addr_uint8 0 addr_uint32
  let sent := SPIWrite sent 0 4 addr_uint8
  (XST_SUCCESS, sent)

/-- The characters that one call `f_gets(buff, len, fp)` stores, for
`n = len - 1`, when `unread` is the part of the current line of the file that
no call has read yet. `f_gets` is a function of the FatFs library, which is not
in the repository; the model follows the library: characters are read until
`n` of them are stored, a line feed is stored, or the line is used up. -/
def fgetsTake : Nat → List Char → List Char
  | 0, _ => []
  | _ + 1, [] => []
  | n + 1, c :: cs => if c = Char.ofNat 10 then [c] else c :: fgetsTake n cs

/-- The strings that the successive calls `f_gets(buff, len, fp)` return while
they read one line of the file, `unread` being what is left of the line and
`fuel` the number of calls left: a line longer than `len - 1` characters comes
back in several pieces. -/
def fgetsCalls (len : Nat) : Nat → List Char → List (List Char)
  | 0, _ => []
  | fuel + 1, unread =>
    if unread.drop (fgetsTake (len - 1) unread).length = [] then [fgetsTake (len - 1) unread]
    else
      fgetsTake (len - 1) unread
        :: fgetsCalls len fuel (unread.drop (fgetsTake (len - 1) unread).length)

/-- The strings that the successive calls `f_gets(buff, len, fp)` return on a
file, up to the call that returns `NULL`. The file is the list of its lines in
order, each line with its line end; `line.length + 1` calls are enough for a
line (`fgetsCalls_fuel`), and the pieces of a line put together are the line
(`fgetsCalls_flatten`). -/
def fgetsReturns (len : Nat) (lines : List (List Char)) : List (List Char) :=
  lines.flatMap (fun line => fgetsCalls len (line.length + 1) line)

/-- What a call `f_gets(line_buf, sizeof(line_buf), &fil)` leaves in `line_buf`
when the string it returns is `line` (one of `fgetsReturns`, so of at most
`sizeof(line_buf) - 1` characters): the characters of the string and the
terminator, then whatever the buffer held before at the positions not
written. -/
def f_gets (line_buf line : List Char) : List Char :=
  line ++ NUL :: line_buf.drop (line.length + 1)

/-- The validation loop of `sd_read_binary` (lines 67-73) with `fuel`
iterations left, that is at `i = bit_len - fuel`; the result is `valid`. -/
def checkValid (line_buf : List Char) (bit_len : Nat) : Nat → Bool
  | 0 => true
  | fuel + 1 =>
    let i := bit_len - (fuel + 1)
    if line_buf.getD i NUL ≠ '0' ∧ line_buf.getD i NUL ≠ '1' then false
    else checkValid line_buf bit_len fuel

/-- The conversion loop of `sd_read_binary` (lines 81-86) with `fuel` iterations
left, that is at `i = bit_len - fuel`; `value` is a `uint32_t`. -/
def parseBits (line_buf : List Char) (bit_len : Nat) : Nat → Nat → Nat
  | 0, value => value
  | fuel + 1, value =>
    let i := bit_len - (fuel + 1)
    parseBits line_buf bit_len fuel
      (if line_buf.getD i NUL = '1' then
        (value ||| (1 <<< (bit_len - 1 - i)) % 2 ^ 32) % 2 ^ 32
      else value)

/-- The `while` loop of `sd_read_binary` (lines 64-94) on the lines that the
successive calls of `f_gets` return (`[]`: `f_gets` returns `NULL`). Returns
`dest_buf` and `line_count` at loop exit. `line_count` is a natural number
here. -/
def readBinaryLoop (bit_len max_lines : Nat) :
    List (List Char) → List Char → List Nat → Nat → List Nat × Nat
  | [], _, dest_buf, line_count => (dest_buf, line_count)
  | line :: rest, line_buf, dest_buf, line_count =>
    let line_buf := f_gets line_buf line
    if line_count < max_lines then
      if checkValid line_buf bit_len bit_len then
        let value := parseBits line_buf bit_len bit_len 0
        readBinaryLoop bit_len max_lines rest line_buf
          (storeWord dest_buf (line_count * 4) value) (line_count + 1)
      else
        readBinaryLoop bit_len max_lines rest line_buf dest_buf line_count
    else
      (dest_buf, line_count)

/-- The function `sd_read_binary` of `tf_card.c`. The file is `none` when
`f_open` fails and otherwise the list of its lines, each with its line end; the
loop runs on the strings that `f_gets(line_buf, sizeof(line_buf), &fil)` returns
one by one, with `char line_buf[128]`, so a line of 128 or more characters
reaches the loop in pieces. `line_buf` is the content of the local buffer on
entry. Returns the status and `dest_buf`. -/
def sd_read_binary (file : Option (List (List Char))) (line_buf : List Char)
    (dest_buf : List Nat) (bit_len max_lines : Nat) : Int × List Nat :=
  match file with
  | none => (-1, dest_buf)
  | some lines =>
    (0, (readBinaryLoop bit_len max_lines (fgetsReturns 128 lines) line_buf dest_buf 0).1)


/-- The C string that starts at the beginning of a character buffer: the
characters before the first terminator. -/
def cstring (buf : List Char) : List Char :=
  buf.takeWhile (fun c => c ≠ NUL)

/-- Modelled from the spec: the C library predicate `isspace` ("C" locale) that
`strtoul` uses to skip leading white space is not in the repository: space and
the control characters 9 to 13. -/
def isspace (c : Char) : Bool :=
  c.toNat = 32 || (9 ≤ c.toNat && c.toNat ≤ 13)

/-- Modelled from the spec: the digit value that the library function `strtoul`
gives a character (not in the repository): `0`-`9` are 0 to 9, letters of
either case are 10 to 35. -/
def digitValue (c : Char) : Option Nat :=
  if 48 ≤ c.toNat ∧ c.toNat ≤ 57 then some (c.toNat - 48)
  else if 97 ≤ c.toNat ∧ c.toNat ≤ 122 then some (c.toNat - 87)
  else if 65 ≤ c.toNat ∧ c.toNat ≤ 90 then some (c.toNat - 55)
  else none

/-- The largest `unsigned long` of the 32-bit target (Zynq-7000, EMIO pins
from 54 on). -/
abbrev ULONG_MAX : Nat := 2 ^ 32 - 1

/-- Modelled from the spec: the digit loop of the library function `strtoul`
(not in the repository): accumulates digits below `base` until the first other
character and remembers whether the value left the range of `unsigned long`. -/
def strtoulDigits (base : Nat) : List Char → Nat → Bool → Nat × Bool
  | [], acc, overflow => (acc, overflow)
  | c :: cs, acc, overflow =>
    match digitValue c with
    | some d =>
      if d < base then
        if overflow ∨ ULONG_MAX < acc * base + d then strtoulDigits base cs acc true
        else strtoulDigits base cs (acc * base + d) false
      else (acc, overflow)
    | none => (acc, overflow)

/-- Modelled from the spec: the C library function `strtoul(nptr, NULL, base)`
is not in the repository; the specification says of the weight lines that each
"is parsed as a hexadecimal literal (base 16, no radix prefix required)
directly into a 32-bit value". The model follows the C standard on the C string
`nptr`: leading white space is skipped, a sign may follow, for base 16 the
prefix `0x` or `0X` may follow, then the longest run of digits is converted;
the result is `ULONG_MAX` when the value is out of range, the negation modulo
`2 ^ 32` after a minus sign, and 0 when there is no digit. -/
def strtoul (nptr : List Char) (base : Nat) : Nat :=
  let s := nptr.dropWhile isspace
  let neg : Bool := s.head? = some '-'
  let s := if s.head? = some '-' ∨ s.head? = some '+' then s.tail else s
  let s :=
    if base = 16 ∧ s.head? = some '0' ∧ (s.tail.head? = some 'x' ∨ s.tail.head? = some 'X')
    then s.tail.tail else s
  let r := strtoulDigits base s 0 false
  if r.2 then ULONG_MAX else if neg then (2 ^ 32 - r.1) % 2 ^ 32 else r.1

/-- The `while` loop of `sd_read_hex` (lines 122-133) on the lines that the
successive calls of `f_gets` return. Returns `dest_buf` and `line_count` at loop
exit. -/
def readHexLoop (max_lines : Nat) :
    List (List Char) → List Char → List Nat → Nat → List Nat × Nat
  | [], _, dest_buf, line_count => (dest_buf, line_count)
  | line :: rest, line_buf, dest_buf, line_count =>
    let line_buf := f_gets line_buf line
    if line_count < max_lines then
      let value := strtoul (cstring line_buf) 16 % 2 ^ 32
      readHexLoop max_lines rest line_buf
        (storeWord dest_buf (line_count * 4) value) (line_count + 1)
    else
      (dest_buf, line_count)

/-- The function `sd_read_hex` of `tf_card.c`, with the file and the line buffer
as for `sd_read_binary`; here `char line_buf[32]`, so a line of 32 or more
characters reaches the loop in pieces. Returns the status and `dest_buf`. -/
def sd_read_hex (file : Option (List (List Char))) (line_buf : List Char)
    (dest_buf : List Nat) (max_lines : Nat) : Int × List Nat :=
  match file with
  | none => (-1, dest_buf)
  | some lines => (0, (readHexLoop max_lines (fgetsReturns 32 lines) line_buf dest_buf 0).1)


/-- The macro of the same name in `spi_config.h`. -/
def CONF_REG_FILE_NAME : String := "spi_config_reg.txt"
/-- The macro of the same name in `spi_config.h`. -/
def CONF_BLOCK_BANK_FILE_NAME : String := "block_idx_bank.dat"
/-- The macro of the same name in `spi_config.h`. -/
def CONF_ROW_BANK0_FILE_NAME : String := "row_cnt_bank0.dat"
/-- The macro of the same name in `spi_config.h`. -/
def CONF_ROW_BANK1_FILE_NAME : String := "row_cnt_bank1.dat"
/-- The macro of the same name in `spi_config.h`. -/
def CONF_ROW_BANK2_FILE_NAME : String := "row_cnt_bank2.dat"
/-- The macro of the same name in `spi_config.h`. -/
def CONF_ROW_BANK3_FILE_NAME : String := "row_cnt_bank3.dat"
/-- The macro of the same name in `spi_config.h`. -/
def CONF_ROW_BANK4_FILE_NAME : String := "row_cnt_bank4.dat"
/-- The macro of the same name in `spi_config.h`. -/
def CONF_CCL_BANK0_FILE_NAME : String := "col_cla_idx_bank0.dat"
/-- The macro of the same name in `spi_config.h`. -/
def CONF_CCL_BANK1_FILE_NAME : String := "col_cla_idx_bank1.dat"
/-- The macro of the same name in `spi_config.h`. -/
def CONF_CCL_BANK2_FILE_NAME : String := "col_cla_idx_bank2.dat"
/-- The macro of the same name in `spi_config.h`. -/
def CONF_CCL_BANK3_FILE_NAME : String := "col_cla_idx_bank3.dat"
/-- The macro of the same name in `spi_config.h`. -/
def CONF_CCL_BANK4_FILE_NAME : String := "col_cla_idx_bank4.dat"
/-- The macro of the same name in `spi_config.h`. -/
def CONF_WEIGHT_BANK_FILE_NAME : String := "weight_bank.dat"

/-- The function `read_model_data` of `spi_config.c`, call by call. The storage
volume `fs` gives for a file name the lines of the file, or `none` when the file
cannot be opened; `line_buf` is what the local line buffer of a reader holds on
entry. The function is `void`: the status that each reader returns is
dropped. -/
def read_model_data (fs : String → Option (List (List Char))) (line_buf : List Char)
    (b : Buffers) : Buffers :=
  let b := { b with Conf_feature_bank_Buffer :=
    (sd_read_binary (fs "feature_bank_data.txt") line_buf b.Conf_feature_bank_Buffer 32 129).2 }
  let b := { b with Conf_reg_Buffer :=
    (sd_read_binary (fs CONF_REG_FILE_NAME) line_buf b.Conf_reg_Buffer 32 LEN_CONF_REG).2 }
  let b := { b with Conf_block_Buffer :=
    (sd_read_binary (fs CONF_BLOCK_BANK_FILE_NAME) line_buf b.Conf_block_Buffer 20
      LEN_BLOCK_BANK).2 }
  let b := { b with Conf_row_Buffer0 :=
    (sd_read_binary (fs CONF_ROW_BANK0_FILE_NAME) line_buf b.Conf_row_Buffer0 6 LEN_ROW_BANK0).2 }
  let b := { b with Conf_row_Buffer1 :=
    (sd_read_binary (fs CONF_ROW_BANK1_FILE_NAME) line_buf b.Conf_row_Buffer1 6 LEN_ROW_BANK1).2 }
  let b := { b with Conf_row_Buffer2 :=
    (sd_read_binary (fs CONF_ROW_BANK2_FILE_NAME) line_buf b.Conf_row_Buffer2 6 LEN_ROW_BANK2).2 }
  let b := { b with Conf_row_Buffer3 :=
    (sd_read_binary (fs CONF_ROW_BANK3_FILE_NAME) line_buf b.Conf_row_Buffer3 6 LEN_ROW_BANK3).2 }
  let b := { b with Conf_row_Buffer4 :=
    (sd_read_binary (fs CONF_ROW_BANK4_FILE_NAME) line_buf b.Conf_row_Buffer4 6 LEN_ROW_BANK4).2 }
  let b := { b with Conf_ccl_Buffer0 :=
    (sd_read_binary (fs CONF_CCL_BANK0_FILE_NAME) line_buf b.Conf_ccl_Buffer0 5 LEN_CCL_BANK0).2 }
  let b := { b with Conf_ccl_Buffer1 :=
    (sd_read_binary (fs CONF_CCL_BANK1_FILE_NAME) line_buf b.Conf_ccl_Buffer1 5 LEN_CCL_BANK1).2 }
  let b := { b with Conf_ccl_Buffer2 :=
    (sd_read_binary (fs CONF_CCL_BANK2_FILE_NAME) line_buf b.Conf_ccl_Buffer2 5 LEN_CCL_BANK2).2 }
  let b := { b with Conf_ccl_Buffer3 :=
    (sd_read_binary (fs CONF_CCL_BANK3_FILE_NAME) line_buf b.Conf_ccl_Buffer3 5 LEN_CCL_BANK3).2 }
  let b := { b with Conf_ccl_Buffer4 :=
    (sd_read_binary (fs CONF_CCL_BANK4_FILE_NAME) line_buf b.Conf_ccl_Buffer4 5 LEN_CCL_BANK4).2 }
  let b := { b with Conf_weight_Buffer :=
    (sd_read_hex (fs CONF_WEIGHT_BANK_FILE_NAME) line_buf b.Conf_weight_Buffer
      LEN_WEIGHT_BANK).2 }
  b

/-- The global buffers at program start: C zero-initialises them, each has the
size of its declaration in `spi_config.h`. -/
def Buffers.zero : Buffers where
  Conf_reg_Buffer := List.replicate (LEN_CONF_REG * 4) 0
  Conf_block_Buffer := List.replicate (LEN_BLOCK_BANK * 4) 0
  Conf_row_Buffer0 := List.replicate (LEN_ROW_BANK0 * 4) 0
  Conf_row_Buffer1 := List.replicate (LEN_ROW_BANK1 * 4) 0
  Conf_row_Buffer2 := List.replicate (LEN_ROW_BANK2 * 4) 0
  Conf_row_Buffer3 := List.replicate (LEN_ROW_BANK3 * 4) 0
  Conf_row_Buffer4 := List.replicate (LEN_ROW_BANK4 * 4) 0
  Conf_ccl_Buffer0 := List.replicate (LEN_CCL_BANK0 * 4) 0
  Conf_ccl_Buffer1 := List.replicate (LEN_CCL_BANK1 * 4) 0
  Conf_ccl_Buffer2 := List.replicate (LEN_CCL_BANK2 * 4) 0
  Conf_ccl_Buffer3 := List.replicate (LEN_CCL_BANK3 * 4) 0
  Conf_ccl_Buffer4 := List.replicate (LEN_CCL_BANK4 * 4) 0
  Conf_weight_Buffer := List.replicate (LEN_WEIGHT_BANK * 4) 0
  Conf_feature_bank_Buffer := List.replicate (129 * 4) 0

/-- The Bank Loader as `main` runs it (lines 137-157 of `main_codec.c`, on the
path where `initial_spi_system` succeeds): `read_model_data();` and then
`status = initial_TMA(&SpiInstance);`. Returns that status and the bursts
sent. -/
def loadModel (fs : String → Option (List (List Char))) (line_buf : List Char)
    (b : Buffers) : Nat × List (List Nat) :=
  let b := read_model_data fs line_buf b
  initial_TMA b

/-! ### Reference definitions for the loader, in the words of the specification -/

/-- A line is accepted for width `bit_len` when it has at least `bit_len`
characters and each of the first `bit_len` is `0` or `1`. -/
def accepted (bit_len : Nat) (line : List Char) : Bool :=
  decide (bit_len ≤ line.length) && (line.take bit_len).all (fun ch => ch = '0' || ch = '1')

/-- The value of a line read most significant bit first:
the sum over `i < bit_len` of `bit_i * 2 ^ (bit_len - 1 - i)`. -/
def lineValue (bit_len : Nat) (line : List Char) : Nat :=
  ((List.range bit_len).map
    (fun i => (if line.getD i NUL = '1' then 1 else 0) * 2 ^ (bit_len - 1 - i))).sum

/-- The four big-endian bytes of a 32-bit value. -/
def bigEndian4 (v : Nat) : List Nat :=
  [v / 2 ^ 24 % 256, v / 2 ^ 16 % 256, v / 2 ^ 8 % 256, v % 256]

/-- The payload of a binary-coded region: the big-endian words of the first
`max_lines` accepted lines, in line order. -/
def binaryPayload (bit_len max_lines : Nat) (lines : List (List Char)) : List Nat :=
  (((lines.filter (accepted bit_len)).take max_lines).map
    (fun l => bigEndian4 (lineValue bit_len l))).flatten

/-- The decoded Address Token: byte `k` has, most significant bit first, the
bits `8k .. 8k+7` of the 32-character pattern. -/
def decodeToken (token : String) : List Nat :=
  (List.range 4).map (fun k => lineValue 8 (token.data.drop (8 * k)))

/-- The catalog of regions that are sent with an address: Address Token,
capacity in elements, buffer; in catalog order. -/
def catalog (b : Buffers) : List (String × Nat × List Nat) :=
  [ (BLOCK_IDX_BANK_CONFIG_ADDR, LEN_BLOCK_BANK, b.Conf_block_Buffer),
    (ROW_CNT_BANK0_CONFIG_ADDR, LEN_ROW_BANK0, b.Conf_row_Buffer0),
    (ROW_CNT_BANK1_CONFIG_ADDR, LEN_ROW_BANK1, b.Conf_row_Buffer1),
    (ROW_CNT_BANK2_CONFIG_ADDR, LEN_ROW_BANK2, b.Conf_row_Buffer2),
    (ROW_CNT_BANK3_CONFIG_ADDR, LEN_ROW_BANK3, b.Conf_row_Buffer3),
    (ROW_CNT_BANK4_CONFIG_ADDR, LEN_ROW_BANK4, b.Conf_row_Buffer4),
    (CCL_IDX_BANK0_CONFIG_ADDR, LEN_CCL_BANK0, b.Conf_ccl_Buffer0),
    (CCL_IDX_BANK1_CONFIG_ADDR, LEN_CCL_BANK1, b.Conf_ccl_Buffer1),
    (CCL_IDX_BANK2_CONFIG_ADDR, LEN_CCL_BANK2, b.Conf_ccl_Buffer2),
    (CCL_IDX_BANK3_CONFIG_ADDR, LEN_CCL_BANK3, b.Conf_ccl_Buffer3),
    (CCL_IDX_BANK4_CONFIG_ADDR, LEN_CCL_BANK4, b.Conf_ccl_Buffer4),
    (WEIGHT_BANK0_CONFIG_ADDR, LEN_WEIGHT_BANK, b.Conf_weight_Buffer) ]

/-- The transfer sequence of the specification: the configuration-register
payload alone; for each catalog region its decoded Address Token and then its
payload (`4 * capacity` bytes of its buffer); the decoded inference-enable
address token and enable-data token. -/
def transferSequence (b : Buffers) : List (List Nat) :=
  [b.Conf_reg_Buffer.take (4 * LEN_CONF_REG)]
    ++ ((catalog b).map (fun e => [decodeToken e.1, e.2.2.take (4 * e.2.1)])).flatten
    ++ [decodeToken CONF_SPI_EN_INF_ADDR, decodeToken CONF_SPI_EN_INF_DATA]

/-- The value of a hexadecimal digit (`0`-`9`, `a`-`f`, `A`-`F`), `none` for
every other character. -/
def hexDigit (c : Char) : Option Nat :=
  if 48 ≤ c.toNat ∧ c.toNat ≤ 57 then some (c.toNat - 48)
  else if 97 ≤ c.toNat ∧ c.toNat ≤ 102 then some (c.toNat - 87)
  else if 65 ≤ c.toNat ∧ c.toNat ≤ 70 then some (c.toNat - 55)
  else none

/-- The hexadecimal digits that a line begins with. -/
def leadingHex (line : List Char) : List Char :=
  line.takeWhile (fun c => (hexDigit c).isSome)

/-- The base-16 value of a string of hexadecimal digits: the sum over `i` of
`digit_i * 16 ^ (length - 1 - i)`. -/
def hexValue (ds : List Char) : Nat :=
  ((List.range ds.length).map
    (fun i => ((hexDigit (ds.getD i NUL)).getD 0) * 16 ^ (ds.length - 1 - i))).sum

/-- A weight line in the sense of the specification: 1 to 8 hexadecimal digits,
no radix prefix, followed by the line end (nothing, a line feed, or a carriage
return and a line feed). -/
def hexLine (line : List Char) : Bool :=
  decide (1 ≤ (leadingHex line).length) && decide ((leadingHex line).length ≤ 8)
    && (line.drop (leadingHex line).length == []
      || line.drop (leadingHex line).length == [Char.ofNat 10]
      || line.drop (leadingHex line).length == [Char.ofNat 13, Char.ofNat 10])

/-- The payload of the weight region: the big-endian words of the base-16 values
of the first `max_lines` lines, in line order. -/
def hexPayload (max_lines : Nat) (lines : List (List Char)) : List Nat :=
  ((lines.take max_lines).map (fun l => bigEndian4 (hexValue (leadingHex l)))).flatten

/-! ### Auxiliary definitions for the loader proofs -/

/-- The Address Tokens of `spi_config.c`, in the order of their declaration. -/
def tokens : List String :=
  [BLOCK_IDX_BANK_CONFIG_ADDR, ROW_CNT_BANK0_CONFIG_ADDR, ROW_CNT_BANK1_CONFIG_ADDR,
    ROW_CNT_BANK2_CONFIG_ADDR, ROW_CNT_BANK3_CONFIG_ADDR, ROW_CNT_BANK4_CONFIG_ADDR,
    CCL_IDX_BANK0_CONFIG_ADDR, CCL_IDX_BANK1_CONFIG_ADDR, CCL_IDX_BANK2_CONFIG_ADDR,
    CCL_IDX_BANK3_CONFIG_ADDR, CCL_IDX_BANK4_CONFIG_ADDR, WEIGHT_BANK0_CONFIG_ADDR,
    CONF_SPI_EN_INF_ADDR, CONF_SPI_EN_INF_DATA]

/-- The bit read at position `i` of the line buffer: 1 for the character `1`,
0 otherwise. -/
def bitAt (line_buf : List Char) (i : Nat) : Nat := if line_buf.getD i NUL = '1' then 1 else 0

/-- The value of the last `k` of the `bit_len` leading characters of the line
buffer, most significant bit first. -/
def tailValue (line_buf : List Char) (bit_len : Nat) : Nat → Nat
  | 0 => 0
  | k + 1 => bitAt line_buf (bit_len - (k + 1)) * 2 ^ k + tailValue line_buf bit_len k

/-- Every global buffer has the size of its declaration in `spi_config.h`. -/
structure Buffers.Sized (b : Buffers) : Prop where
  reg : b.Conf_reg_Buffer.length = LEN_CONF_REG * 4
  block : b.Conf_block_Buffer.length = LEN_BLOCK_BANK * 4
  row0 : b.Conf_row_Buffer0.length = LEN_ROW_BANK0 * 4
  row1 : b.Conf_row_Buffer1.length = LEN_ROW_BANK1 * 4
  row2 : b.Conf_row_Buffer2.length = LEN_ROW_BANK2 * 4
  row3 : b.Conf_row_Buffer3.length = LEN_ROW_BANK3 * 4
  row4 : b.Conf_row_Buffer4.length = LEN_ROW_BANK4 * 4
  ccl0 : b.Conf_ccl_Buffer0.length = LEN_CCL_BANK0 * 4
  ccl1 : b.Conf_ccl_Buffer1.length = LEN_CCL_BANK1 * 4
  ccl2 : b.Conf_ccl_Buffer2.length = LEN_CCL_BANK2 * 4
  ccl3 : b.Conf_ccl_Buffer3.length = LEN_CCL_BANK3 * 4
  ccl4 : b.Conf_ccl_Buffer4.length = LEN_CCL_BANK4 * 4
  weight : b.Conf_weight_Buffer.length = LEN_WEIGHT_BANK * 4

/-- The word that `sd_read_hex` stores for a line. -/
def hexWord (line : List Char) : Nat := strtoul (cstring line) 16 % 2 ^ 32

/-! ### Further auxiliary definitions for the aggregator -/

/-- The variables in scope at lines 199-207 of `main`: those of the aggregator
and the two diagnostic locals. -/
structure MainVars where
  agg : Aggregator
  max_result : Nat
  max_result_count : Nat

/-- Lines 199-207 in place: the loop assigns the two diagnostic locals and
nothing else. -/
def maxResultBlock (v : MainVars) : MainVars :=
  { v with
    max_result := (maxResult v.agg.result_count).1
    max_result_count := (maxResult v.agg.result_count).2 }

/-- The invariant of the `max_result` loop before iteration `i`. -/
def MaxInv (result_count : List Nat) (i : Nat) (acc : Nat × Nat) : Prop :=
  (∀ j, j < i → result_count.getD j 0 ≤ acc.2)
  ∧ (∀ j, j < acc.1 → result_count.getD j 0 < acc.2)
  ∧ ((acc.2 = 0 ∧ acc.1 = 0) ∨ (acc.1 < i ∧ result_count.getD acc.1 0 = acc.2))

/-- The run that stops the consensus scan on the chronological window `l`, if
any: the first maximal run if it is of a non-silence class and has at least
`DETECTING_CONS_RESULT_CNT` slots, otherwise the first later maximal run of a
non-silence class with at least one slot more. -/
def firingRun (l : List Nat) : Option (Nat × Nat) :=
  match runs l with
  | [] => none
  | p :: rest =>
    if p.1 ≠ 10 ∧ DETECTING_CONS_RESULT_CNT ≤ p.2 then some p
    else rest.find? (fun q => decide (q.1 ≠ 10 ∧ DETECTING_CONS_RESULT_CNT + 1 ≤ q.2))

/-- The class on which a scan over the slots `xs` stops, when it starts with the
counter `ct` on the class `cr`. -/
def hitClass (xs : List Nat) (ct cr : Nat) : Option Nat :=
  if cr ≠ 10 ∧ DETECTING_CONS_RESULT_CNT ≤ ct + lead cr xs then some cr
  else ((runs (xs.drop (lead cr xs))).find?
    (fun q => decide (q.1 ≠ 10 ∧ DETECTING_CONS_RESULT_CNT + 1 ≤ q.2))).map Prod.fst

/-- The class in `consecutive_result` if the scan stopped at the threshold. -/
def scanClass (r : Nat × Nat × Bool) : Option Nat := if r.2.2 then some r.2.1 else none

/-- The state `s` is at least `c` notifications away from the next detection:
either it is detecting and the `20 + c` oldest slots of the window are silence,
or it is cooling down with `c` at most `60 - fill_silence_cnt` and the
`fill_silence_cnt` newest slots are silence. -/
def Credit (c : Nat) (s : Aggregator) : Prop :=
  Inv s ∧
    ((s.current_state = sys_state.detecting ∧ c ≤ 20
        ∧ ∃ tl, chrono s = List.replicate (20 + c) 10 ++ tl)
      ∨ (s.current_state = sys_state.fill_silence ∧ s.fill_silence_cnt < 40
        ∧ s.fill_silence_cnt + c ≤ 60
        ∧ ∃ hd, chrono s = hd ++ List.replicate s.fill_silence_cnt 10))

/-! ### The notification with checked accesses -/

/-- Lines 174-197 with every access checked: the result is `none` when an index
is outside `result_window` or `result_count`, when the decrement of line 174
would take the 8-bit counter below 0, or when the increment of line 190 would
take it above 255. -/
def windowUpdateChecked (s : Aggregator) (result : Nat) : Option Aggregator :=
  match s.result_window[s.window_idx]? with
  | none => none
  | some old =>
    match s.result_count[old]? with
    | none => none
    | some c =>
      if c = 0 then none
      else
        let cnt1 := s.result_count.set old (c - 1)
        let w1 := s.result_window.set s.window_idx (if result = s.last_result then result else 10)
        let w2 := if s.current_state = sys_state.fill_silence then w1.set s.window_idx 10 else w1
        match w2[s.window_idx]? with
        | none => none
        | some new =>
          match cnt1[new]? with
          | none => none
          | some c2 =>
            if 255 ≤ c2 then none
            else
              let cnt2 := cnt1.set new (c2 + 1)
              let idx1 := s.window_idx + 1
              let idx2 := if idx1 = WINDOW_SIZE then 0 else idx1
              some { s with window_idx := idx2, result_window := w2, result_count := cnt2 }

/-- Lines 200-207 with the read of `result_count[i]` checked. -/
def maxResultLoopChecked (result_count : List Nat) : Nat → Nat × Nat → Option (Nat × Nat)
  | 0, acc => some acc
  | k + 1, acc =>
    let i := 12 - (k + 1)
    match result_count[i]? with
    | none => none
    | some c =>
      if c > acc.2 then maxResultLoopChecked result_count k (i, c)
      else maxResultLoopChecked result_count k acc

/-- Lines 214-233 with the read of `result_window[start_idx]` checked. -/
def scanLoopChecked (result_window : List Nat) (current_state : sys_state) :
    Nat → Scan → Option Scan
  | 0, v => some v
  | fuel + 1, v =>
    match result_window[v.start_idx]? with
    | none => none
    | some slot =>
      let v1 : Scan :=
        if v.consecutive_result = slot then
          { v with consecutive_time := (v.consecutive_time + 1) % 256 }
        else
          { v with consecutive_result := slot, consecutive_time := 0 }
      if v1.consecutive_time = DETECTING_CONS_RESULT_CNT ∧ v1.consecutive_result ≠ 10
          ∧ current_state = sys_state.detecting then
        some { v1 with print_flag := 1 }
      else
        let next := v1.start_idx + 1
        scanLoopChecked result_window current_state fuel
          { v1 with start_idx := if next = WINDOW_SIZE then 0 else next }

/-- Lines 209-233 with the read of `result_window[window_idx]` at line 212 and
the reads of the loop checked. -/
def consensusScanChecked (s : Aggregator) : Option Scan :=
  match s.result_window[s.window_idx]? with
  | none => none
  | some first =>
    scanLoopChecked s.result_window s.current_state WINDOW_SIZE
      { start_idx := s.window_idx
        consecutive_time := 0
        consecutive_result := first
        print_flag := s.print_flag }

/-- Lines 236-253 with the reads of `result_count[0]` to `result_count[11]` and
of `label[consecutive_result]` in the two `printf` calls checked. -/
def emissionSwitchChecked (current_state : sys_state) (fill_silence_cnt print_flag : Nat)
    (result_count : List Nat) (consecutive_result : Nat) :
    Option (Nat × Nat × Option Detection) :=
  match current_state with
  | sys_state.detecting =>
    if print_flag ≠ 0 then
      if result_count.length < 12 then none
      else
        match label[consecutive_result]? with
        | none => none
        | some word => some (0, print_flag, some { counts := result_count, word := word })
    else some (0, print_flag, none)
  | sys_state.fill_silence => some ((fill_silence_cnt + 1) % 256, 0, none)

/-- Lines 164-268 with every access to `result_window`, `result_count` and
`label` checked, and with the two counter updates of the window checked against
the range of `u8`: `none` as soon as one check fails. -/
def stepChecked (s : Aggregator) (result : Nat) : Option (Aggregator × Option Detection) :=
  match windowUpdateChecked s result with
  | none => none
  | some s1 =>
    match maxResultLoopChecked s1.result_count 12 (0, 0) with
    | none => none
    | some _ =>
      match consensusScanChecked s1 with
      | none => none
      | some v =>
        match emissionSwitchChecked s1.current_state s1.fill_silence_cnt v.print_flag
            s1.result_count v.consecutive_result with
        | none => none
        | some e =>
          let st := stateSwitch s1.current_state e.1 e.2.1
          some ({ s1 with
              last_result := result
              current_state := st
              print_flag := e.2.1
              fill_silence_cnt := e.1
              consecutive_time := v.consecutive_time
              consecutive_result := v.consecutive_result },
            e.2.2)

/-! ### Further reference definitions for the loader -/

/-- A line that one call `f_gets(buff, len, fp)` returns whole: it has at most
`len - 1` characters, its line end included, and no line feed before its last
character. -/
def fitsBuffer (len : Nat) (line : List Char) : Bool :=
  decide (line.length < len) && line.dropLast.all (fun c => c != Char.ofNat 10)

/-- The part of a line at which `strtoul` looks for digits: what follows the
leading white space and one optional sign. -/
def afterSign (line : List Char) : List Char :=
  let s := line.dropWhile isspace
  if s.head? = some '-' ∨ s.head? = some '+' then s.tail else s

/-- The line has no hexadecimal digit where `strtoul` looks for one: after the
leading white space and one optional sign the line ends, or a character other
than a hexadecimal digit follows. -/
def noHexAfterSign (line : List Char) : Bool :=
  match afterSign line with
  | [] => true
  | c :: _ => (hexDigit c).isNone

/-- The Address Tokens that select a destination: the twelve bank tokens
(block index, row count 0 to 4, column-class index 0 to 4, weight) and the
inference-enable address, in the order of their declaration in `spi_config.c`. -/
def addressTokens : List String :=
  [BLOCK_IDX_BANK_CONFIG_ADDR, ROW_CNT_BANK0_CONFIG_ADDR, ROW_CNT_BANK1_CONFIG_ADDR,
    ROW_CNT_BANK2_CONFIG_ADDR, ROW_CNT_BANK3_CONFIG_ADDR, ROW_CNT_BANK4_CONFIG_ADDR,
    CCL_IDX_BANK0_CONFIG_ADDR, CCL_IDX_BANK1_CONFIG_ADDR, CCL_IDX_BANK2_CONFIG_ADDR,
    CCL_IDX_BANK3_CONFIG_ADDR, CCL_IDX_BANK4_CONFIG_ADDR, WEIGHT_BANK0_CONFIG_ADDR,
    CONF_SPI_EN_INF_ADDR]

/-! ## Lemmas on the aggregator -/

theorem count_set_add (w : List Nat) (i x c : Nat) (h : i < w.length) :
    (w.set i x).count c + (if w.getD i 0 = c then 1 else 0)
      = w.count c + (if x = c then 1 else 0) := by
  induction w generalizing i with
  | nil => simp at h
  | cons a w ih =>
    cases i with
    | zero =>
      simp only [List.set_cons_zero, List.count_cons, List.getD_cons_zero, beq_iff_eq]
      omega
    | succ i =>
      have h2 : i < w.length := by simpa using h
      have := ih i h2
      simp only [List.set_cons_succ, List.count_cons, List.getD_cons_succ, beq_iff_eq]
      omega

theorem sum_set_add (l : List Nat) (i v : Nat) (h : i < l.length) :
    (l.set i v).sum + l.getD i 0 = l.sum + v := by
  induction l generalizing i with
  | nil => simp at h
  | cons a l ih =>
    cases i with
    | zero => simp; omega
    | succ i =>
      have h2 : i < l.length := by simpa using h
      have := ih i h2
      simp only [List.set_cons_succ, List.sum_cons, List.getD_cons_succ]
      omega

theorem getD_set_eq (l : List Nat) (i j v : Nat) (h : i < l.length) :
    (l.set i v).getD j 0 = if i = j then v else l.getD j 0 := by
  by_cases h1 : i = j
  · subst h1
    simp [List.getD_eq_getElem?_getD, List.getElem?_set, h]
  · simp [List.getD_eq_getElem?_getD, List.getElem?_set, h1]

theorem getD_mem (l : List Nat) (i : Nat) (h : i < l.length) : l.getD i 0 ∈ l := by
  rw [List.getD_eq_getElem _ _ h]
  exact List.getElem_mem h

theorem windowUpdate_window (s : Aggregator) (r : Nat) :
    (windowUpdate s r).result_window = s.result_window.set s.window_idx (written s r) := by
  unfold windowUpdate written
  by_cases h : s.current_state = sys_state.fill_silence
  · simp [h, List.set_set]
  · simp [h]

theorem windowUpdate_idx (s : Aggregator) (r : Nat) :
    (windowUpdate s r).window_idx
      = if s.window_idx + 1 = WINDOW_SIZE then 0 else s.window_idx + 1 := rfl

theorem written_lt (s : Aggregator) (r : Nat) (hr : r < 12) : written s r < 12 := by
  unfold written; split_ifs <;> omega

theorem windowUpdate_written (s : Aggregator) (r : Nat) (h : s.window_idx < s.result_window.length) :
    (windowUpdate s r).result_window.getD s.window_idx 0 = written s r := by
  rw [windowUpdate_window, getD_set_eq _ _ _ _ h]; simp

theorem windowUpdate_inv (s : Aggregator) (r : Nat) (h : Inv s) (hr : r < 12) :
    Inv (windowUpdate s r) := by
  obtain ⟨hwl, hcl, hidx, hw, hc, hf⟩ := h
  have hwl : s.result_window.length = 40 := hwl
  have hidx : s.window_idx < 40 := hidx
  have hidx2 : s.window_idx < s.result_window.length := by rw [hwl]; exact hidx
  have hold_mem := getD_mem s.result_window s.window_idx hidx2
  have hold := hw _ hold_mem
  have hnew := written_lt s r hr
  have hcold := hc _ hold
  have hpos : 0 < s.result_window.count (s.result_window.getD s.window_idx 0) :=
    List.count_pos_iff.mpr hold_mem
  have hle : ∀ c, s.result_window.count c ≤ 40 := fun c => by
    have := List.count_le_length (a := c) (l := s.result_window); omega
  have hww := windowUpdate_window s r
  have hwr := windowUpdate_written s r hidx2
  refine ⟨?_, ?_, ?_, ?_, ?_, ?_⟩
  · rw [hww]; simpa using hwl
  · simp [windowUpdate, hcl]
  · rw [windowUpdate_idx]; split_ifs <;> omega
  · rw [hww]
    intro x hx
    rcases List.mem_or_eq_of_mem_set hx with h1 | h1
    · exact hw x h1
    · rw [h1]; exact hnew
  · intro c hc12
    have hcnt := count_set_add s.result_window s.window_idx (written s r) c hidx2
    have hcc := hc c hc12
    have hcn := hc _ hnew
    have e : (windowUpdate s r).result_count
        = (s.result_count.set (s.result_window.getD s.window_idx 0)
            ((s.result_count.getD (s.result_window.getD s.window_idx 0) 0 + 255) % 256)).set
            ((windowUpdate s r).result_window.getD s.window_idx 0)
            (((s.result_count.set (s.result_window.getD s.window_idx 0)
            ((s.result_count.getD (s.result_window.getD s.window_idx 0) 0 + 255) % 256)).getD
            ((windowUpdate s r).result_window.getD s.window_idx 0) 0 + 1) % 256) := rfl
    rw [e, hwr, hww]
    rw [getD_set_eq _ _ _ _ (by simp; omega), getD_set_eq _ _ _ _ (by omega),
      getD_set_eq _ _ _ _ (by omega)]
    have h1 := hle (s.result_window.getD s.window_idx 0)
    have h2 := hle (written s r)
    have h3 := hle c
    rw [show (List.set s.result_window s.window_idx (written s r)).count c
      = List.count c (s.result_window.set s.window_idx (written s r)) from rfl]
    generalize List.count c (s.result_window.set s.window_idx (written s r)) = n at hcnt ⊢
    rw [hcold]
    rw [hcc]
    rw [hcn]
    have h4 : 1 ≤ s.result_window.count (s.result_window.getD s.window_idx 0) := hpos
    generalize s.result_window.getD s.window_idx 0 = o at hcnt h1 h4 ⊢
    generalize written s r = nw at hcnt h2 ⊢
    by_cases e1 : o = c
    · subst e1
      by_cases e2 : o = nw
      · subst e2
        simp only [if_true] at hcnt ⊢
        omega
      · have e3 : ¬ nw = o := fun h => e2 h.symm
        simp only [if_true, e2, e3, if_false] at hcnt ⊢
        omega
    · by_cases e2 : nw = c
      · subst e2
        simp only [e1, if_true, if_false] at hcnt ⊢
        omega
      · simp only [e1, e2, if_false] at hcnt ⊢
        omega
  · exact hf


theorem slice_eq_take_drop (w : List Nat) (hw : w.length = 40) :
    ∀ k i, i + k ≤ 40 → slice w k i = (w.drop i).take k := by
  intro k
  induction k with
  | zero => intro i _; simp [slice]
  | succ k ih =>
    intro i hi
    have hi2 : i < w.length := by omega
    rw [slice, List.drop_eq_getElem_cons hi2, List.take_succ_cons, List.getD_eq_getElem _ _ hi2]
    congr 1
    by_cases h : i + 1 = 40
    · have hk : k = 0 := by omega
      subst hk
      simp [slice]
    · rw [if_neg h]
      exact ih (i + 1) (by omega)

theorem slice_append (w : List Nat) :
    ∀ k m i, i + k ≤ 40 → i < 40 →
      slice w (k + m) i = slice w k i ++ slice w m (if i + k = 40 then 0 else i + k) := by
  intro k
  induction k with
  | zero =>
    intro m i _ hi
    have h : ¬ i = 40 := by omega
    simp [slice, h]
  | succ k ih =>
    intro m i hik hi
    rw [show k + 1 + m = (k + m) + 1 by omega, slice, slice, List.cons_append]
    congr 1
    by_cases h : i + 1 = 40
    · have hk : k = 0 := by omega
      subst hk
      simp [slice, h]
    · rw [if_neg h, ih m (i + 1) (by omega) (by omega)]
      rw [show i + 1 + k = i + (k + 1) by omega]

theorem slice_full (w : List Nat) (hw : w.length = 40) (i : Nat) (hi : i < 40) :
    slice w 40 i = w.drop i ++ w.take i := by
  have h := slice_append w (40 - i) i i (by omega) hi
  rw [show 40 - i + i = 40 by omega] at h
  rw [h, slice_eq_take_drop w hw _ _ (by omega), if_pos (by omega),
    slice_eq_take_drop w hw _ _ (by omega)]
  simp
  omega


theorem scanLoop_eq_scanList (w : List Nat) (cur : sys_state) :
    ∀ fuel (v : Scan),
      (scanLoop w cur fuel v).consecutive_time
          = (scanList cur (slice w fuel v.start_idx) v.consecutive_time v.consecutive_result).1
      ∧ (scanLoop w cur fuel v).consecutive_result
          = (scanList cur (slice w fuel v.start_idx) v.consecutive_time v.consecutive_result).2.1
      ∧ (scanLoop w cur fuel v).print_flag
          = if (scanList cur (slice w fuel v.start_idx) v.consecutive_time
                v.consecutive_result).2.2 then 1 else v.print_flag := by
  intro fuel
  induction fuel with
  | zero => intro v; simp [scanLoop, slice, scanList]
  | succ k ih =>
    rintro ⟨si, ct, cr, pf⟩
    simp only [scanLoop, slice, scanList]
    by_cases h : cr = w.getD si 0
    · subst h
      simp only [if_true]
      by_cases h2 : (ct + 1) % 256 = DETECTING_CONS_RESULT_CNT ∧ w.getD si 0 ≠ 10
          ∧ cur = sys_state.detecting
      · rw [if_pos h2, if_pos h2]; simp
      · rw [if_neg h2, if_neg h2]
        exact ih ⟨if si + 1 = WINDOW_SIZE then 0 else si + 1, (ct + 1) % 256, w.getD si 0, pf⟩
    · simp only [h, if_false]
      have h2 : ¬ ((0 : Nat) = DETECTING_CONS_RESULT_CNT ∧ w.getD si 0 ≠ 10
          ∧ cur = sys_state.detecting) := fun h => by simp at h
      rw [if_neg h2, if_neg h2]
      exact ih ⟨if si + 1 = WINDOW_SIZE then 0 else si + 1, 0, w.getD si 0, pf⟩

theorem scanList_fill_silence (xs : List Nat) :
    ∀ ct cr, (scanList sys_state.fill_silence xs ct cr).2.2 = false := by
  induction xs with
  | nil => intro ct cr; rfl
  | cons x xs ih => intro ct cr; simp [scanList, ih]

theorem runsFrom_eq (xs : List Nat) :
    ∀ c n, runsFrom c n xs = (c, n + lead c xs) :: runs (xs.drop (lead c xs)) := by
  induction xs with
  | nil => intro c n; simp [runsFrom, lead, runs]
  | cons x xs ih =>
    intro c n
    by_cases h : x = c
    · subst h
      simp only [runsFrom, lead, if_true, List.drop_succ_cons]
      rw [ih]
      congr 2
      omega
    · simp [runsFrom, lead, h, runs]

theorem runs_cons (x : Nat) (xs : List Nat) :
    runs (x :: xs) = (x, 1 + lead x xs) :: runs (xs.drop (lead x xs)) := by
  rw [runs, runsFrom_eq]

theorem lead_le (c : Nat) (xs : List Nat) : lead c xs ≤ xs.length := by
  induction xs with
  | nil => simp [lead]
  | cons x xs ih =>
    simp only [lead, List.length_cons]
    split_ifs
    · omega
    · omega

theorem scanList_fires_iff (xs : List Nat) :
    ∀ ct cr, (cr ≠ 10 → ct < 20) → ct + xs.length < 256 →
      ((scanList sys_state.detecting xs ct cr).2.2 = true ↔
        (cr ≠ 10 ∧ 20 ≤ ct + lead cr xs)
          ∨ ∃ p ∈ runs (xs.drop (lead cr xs)), p.1 ≠ 10 ∧ 21 ≤ p.2) := by
  induction xs with
  | nil =>
    intro ct cr h1 _
    simp only [scanList, lead, List.drop_nil, runs]
    constructor
    · intro h; simp at h
    · rintro (⟨h2, h3⟩ | ⟨p, hp, _⟩)
      · have := h1 h2; omega
      · simp at hp
  | cons x xs ih =>
    intro ct cr h1 h2
    simp only [List.length_cons] at h2
    by_cases h : cr = x
    · subst h
      have hm : (ct + 1) % 256 = ct + 1 := Nat.mod_eq_of_lt (by omega)
      rw [scanList]
      simp only [if_true, hm, lead, List.drop_succ_cons]
      by_cases hf : ct + 1 = 20 ∧ cr ≠ 10
      · have hf2 : ct + 1 = DETECTING_CONS_RESULT_CNT ∧ cr ≠ 10 ∧ True := ⟨hf.1, hf.2, trivial⟩
        rw [if_pos hf2]
        simp only [true_iff]
        left
        exact ⟨hf.2, by omega⟩
      · have hf2 : ¬ (ct + 1 = DETECTING_CONS_RESULT_CNT ∧ cr ≠ 10 ∧ True) :=
          fun h => hf ⟨h.1, h.2.1⟩
        rw [if_neg hf2]
        rw [ih (ct + 1) cr (by intro h10; have := h1 h10; by_contra h3; exact hf ⟨by omega, h10⟩)
          (by omega)]
        rw [show ct + (lead cr xs + 1) = ct + 1 + lead cr xs by omega]
    · have hx : ¬ x = cr := fun e => h e.symm
      have hf2 : ¬ ((0 : Nat) = DETECTING_CONS_RESULT_CNT ∧ x ≠ 10 ∧ True) :=
        fun h => by simp at h
      rw [scanList]
      simp only [h, if_false, lead, hx, List.drop_zero]
      rw [if_neg hf2, ih 0 x (by intro; omega) (by omega), runs_cons]
      simp only [List.mem_cons, exists_eq_or_imp, Nat.zero_add, Nat.add_zero]
      constructor
      · rintro (⟨a, b⟩ | h3)
        · right; left; exact ⟨a, by omega⟩
        · right; right; exact h3
      · rintro (⟨a, b⟩ | ⟨a, b⟩ | h3)
        · have := h1 a; omega
        · left; exact ⟨a, by omega⟩
        · right; exact h3


theorem consensusScan_eq (s : Aggregator) (hw : s.result_window.length = 40)
    (hi : s.window_idx < 40) :
    (consensusScan s).consecutive_time
        = (scanList s.current_state (chrono s) 0 (s.result_window.getD s.window_idx 0)).1
    ∧ (consensusScan s).consecutive_result
        = (scanList s.current_state (chrono s) 0 (s.result_window.getD s.window_idx 0)).2.1
    ∧ (consensusScan s).print_flag
        = if (scanList s.current_state (chrono s) 0 (s.result_window.getD s.window_idx 0)).2.2
          then 1 else s.print_flag := by
  have h := scanLoop_eq_scanList s.result_window s.current_state 40
    ⟨s.window_idx, 0, s.result_window.getD s.window_idx 0, s.print_flag⟩
  simp only [slice_full s.result_window hw s.window_idx hi] at h
  exact h

theorem chrono_eq_cons (s : Aggregator) (hw : s.result_window.length = 40)
    (hi : s.window_idx < 40) :
    ∃ xs, chrono s = s.result_window.getD s.window_idx 0 :: xs ∧ xs.length = 39 := by
  have hi2 : s.window_idx < s.result_window.length := by omega
  refine ⟨s.result_window.drop (s.window_idx + 1) ++ s.result_window.take s.window_idx, ?_, ?_⟩
  · rw [chrono, List.drop_eq_getElem_cons hi2, List.getD_eq_getElem _ _ hi2, List.cons_append]
  · simp; omega

theorem scanList_head (cur : sys_state) (x : Nat) (xs : List Nat) :
    scanList cur (x :: xs) 0 x = scanList cur xs 1 x := by
  rw [scanList]
  simp

theorem fires_iff (s : Aggregator) (hw : s.result_window.length = 40) (hi : s.window_idx < 40) :
    (scanList sys_state.detecting (chrono s) 0 (s.result_window.getD s.window_idx 0)).2.2 = true
      ↔ Fires (chrono s) := by
  obtain ⟨xs, hxs, hlen⟩ := chrono_eq_cons s hw hi
  rw [hxs, scanList_head, scanList_fires_iff xs 1 _ (by intro; omega) (by omega), Fires, runs_cons]
  constructor
  · intro h
    refine ⟨_, _, rfl, ?_⟩
    rcases h with ⟨a, b⟩ | h
    · left; exact ⟨a, b⟩
    · right; exact h
  · rintro ⟨p, rest, e, h⟩
    simp only [List.cons.injEq] at e
    obtain ⟨e1, e2⟩ := e
    subst e1 e2
    rcases h with ⟨a, b⟩ | h
    · left; exact ⟨a, b⟩
    · right; exact h

theorem consensusScan_flag_fires (s : Aggregator) (hw : s.result_window.length = 40)
    (hi : s.window_idx < 40) (hd : s.current_state = sys_state.detecting)
    (hf : Fires (chrono s)) : (consensusScan s).print_flag = 1 := by
  have h := (consensusScan_eq s hw hi).2.2
  rw [hd, (fires_iff s hw hi).mpr hf] at h
  simpa using h

theorem consensusScan_flag_keep (s : Aggregator) (hw : s.result_window.length = 40)
    (hi : s.window_idx < 40)
    (hf : ¬ (s.current_state = sys_state.detecting ∧ Fires (chrono s))) :
    (consensusScan s).print_flag = s.print_flag := by
  have h := (consensusScan_eq s hw hi).2.2
  cases hc : s.current_state with
  | detecting =>
    rw [hc] at h
    have : ¬ Fires (chrono s) := fun h2 => hf ⟨hc, h2⟩
    rw [← fires_iff s hw hi] at this
    rw [h, if_neg this]
  | fill_silence =>
    rw [hc, scanList_fill_silence] at h
    simpa using h

theorem consensusScan_flag_cases (s : Aggregator) (hw : s.result_window.length = 40)
    (hi : s.window_idx < 40) :
    (consensusScan s).print_flag = 1 ∨ (consensusScan s).print_flag = s.print_flag := by
  have h := (consensusScan_eq s hw hi).2.2
  split_ifs at h
  · left; exact h
  · right; exact h

theorem runs_class_mem_aux : ∀ n (xs : List Nat), xs.length = n → ∀ p ∈ runs xs, p.1 ∈ xs := by
  intro n
  induction n using Nat.strong_induction_on with
  | _ n ih =>
    intro xs hn
    cases xs with
    | nil => simp [runs]
    | cons x xs =>
      intro p hp
      rw [runs_cons] at hp
      rcases List.mem_cons.mp hp with h | h
      · subst h; simp
      · have hl := lead_le x xs
        simp only [List.length_cons] at hn
        have := ih (xs.drop (lead x xs)).length (by simp; omega) _ rfl p h
        exact List.mem_cons_of_mem _ (List.mem_of_mem_drop this)

theorem runs_class_mem (xs : List Nat) : ∀ p ∈ runs xs, p.1 ∈ xs :=
  runs_class_mem_aux xs.length xs rfl

theorem not_fires_of_short (l : List Nat)
    (h : ∀ p ∈ runs l, p.1 ≠ 10 → p.2 ≤ DETECTING_CONS_RESULT_CNT - 1) : ¬ Fires l := by
  rintro ⟨p, rest, e, hf⟩
  rcases hf with ⟨a, b⟩ | ⟨q, hq, a, b⟩
  · have h1 : p.2 ≤ 19 := h p (by rw [e]; simp) a
    have h2 : 20 ≤ p.2 := b
    omega
  · have h1 : q.2 ≤ 19 := h q (by rw [e]; simp [hq]) a
    have h2 : 21 ≤ q.2 := b
    omega


/-! ### One notification -/

theorem windowUpdate_state (s : Aggregator) (r : Nat) :
    (windowUpdate s r).current_state = s.current_state := rfl

theorem windowUpdate_flag (s : Aggregator) (r : Nat) :
    (windowUpdate s r).print_flag = s.print_flag := rfl

theorem step_window (s : Aggregator) (r : Nat) :
    (step s r).1.result_window = s.result_window.set s.window_idx (written s r) :=
  windowUpdate_window s r

theorem step_count (s : Aggregator) (r : Nat) :
    (step s r).1.result_count = (windowUpdate s r).result_count := rfl

theorem step_idx (s : Aggregator) (r : Nat) :
    (step s r).1.window_idx
      = if s.window_idx + 1 = WINDOW_SIZE then 0 else s.window_idx + 1 := rfl

theorem step_last (s : Aggregator) (r : Nat) : (step s r).1.last_result = r := rfl

theorem step_detecting (s : Aggregator) (r : Nat) (h : s.current_state = sys_state.detecting) :
    (step s r).2
        = (if (consensusScan (windowUpdate s r)).print_flag ≠ 0 then
            some { counts := (windowUpdate s r).result_count
                   word := label.getD (consensusScan (windowUpdate s r)).consecutive_result "" }
          else none)
    ∧ (step s r).1.print_flag = (consensusScan (windowUpdate s r)).print_flag
    ∧ (step s r).1.fill_silence_cnt = 0
    ∧ (step s r).1.current_state
        = if (consensusScan (windowUpdate s r)).print_flag = 1 then sys_state.fill_silence
          else sys_state.detecting := by
  simp [step, windowUpdate_state, h, emissionSwitch, stateSwitch]

theorem step_fill_silence (s : Aggregator) (r : Nat)
    (h : s.current_state = sys_state.fill_silence) :
    (step s r).2 = none
    ∧ (step s r).1.print_flag = 0
    ∧ (step s r).1.fill_silence_cnt = (s.fill_silence_cnt + 1) % 256
    ∧ (step s r).1.current_state
        = (if (s.fill_silence_cnt + 1) % 256 = FILL_SILENCE_MAX_CNT then sys_state.detecting
          else sys_state.fill_silence)
    ∧ written s r = 10 := by
  have hc : (windowUpdate s r).fill_silence_cnt = s.fill_silence_cnt := rfl
  simp [step, windowUpdate_state, h, emissionSwitch, stateSwitch, written, hc]

theorem step_inv (s : Aggregator) (r : Nat) (h : Inv s) (hr : r < 12) : Inv (step s r).1 := by
  have h1 := windowUpdate_inv s r h hr
  refine ⟨h1.window_length, h1.count_length, h1.idx_lt, h1.window_lt, h1.count_eq, ?_⟩
  intro hd
  cases hc : s.current_state with
  | detecting =>
    obtain ⟨_, h3, _, h5⟩ := step_detecting s r hc
    rw [h5] at hd
    rw [h3]
    rcases consensusScan_flag_cases (windowUpdate s r) h1.window_length h1.idx_lt with h6 | h6
    · rw [if_pos h6] at hd; cases hd
    · rw [h6, windowUpdate_flag]; exact h.flag_clear hc
  | fill_silence => exact (step_fill_silence s r hc).2.1

theorem init_inv : Inv Aggregator.init := by
  refine ⟨rfl, rfl, by decide, ?_, ?_, fun _ => rfl⟩
  · intro x hx
    have : x = 10 := List.eq_of_mem_replicate hx
    omega
  · intro c hc
    interval_cases c <;> rfl

theorem run_inv (codes : List Nat) :
    ∀ s, Inv s → (∀ c ∈ codes, c < 12) → Inv (run s codes) := by
  induction codes with
  | nil => intro s h _; exact h
  | cons r rs ih =>
    intro s h hc
    exact ih _ (step_inv s r h (hc r (by simp))) (fun c hm => hc c (by simp [hm]))

theorem getD_range_eq (l : List Nat) (h : l.length = 12) :
    (List.range 12).map (fun c => l.getD c 0) = l := by
  apply List.ext_getElem
  · simp [h]
  · intro i h1 h2
    simp only [List.length_map, List.length_range] at h1
    simp [List.getElem?_eq_getElem h2]

theorem sum_count_eq (w : List Nat) (hw : ∀ x ∈ w, x < 12) :
    ((List.range 12).map (fun c => w.count c)).sum = w.length := by
  induction w with
  | nil => rfl
  | cons a w ih =>
    have ha : a < 12 := hw a (by simp)
    have ih2 := ih (fun x hx => hw x (by simp [hx]))
    simp only [List.length_cons, ← ih2]
    interval_cases a <;> simp [List.range, List.range.loop, List.count_cons] <;> omega

theorem quiet_counts (s : Aggregator) (h : Inv s)
    (hw : s.result_window = List.replicate WINDOW_SIZE 10) :
    s.result_count = [0, 0, 0, 0, 0, 0, 0, 0, 0, 0, WINDOW_SIZE, 0] := by
  rw [← getD_range_eq s.result_count h.count_length]
  have : (List.range 12).map (fun c => s.result_count.getD c 0)
      = (List.range 12).map (fun c => (List.replicate WINDOW_SIZE 10).count c) := by
    apply List.map_congr_left
    intro c hc
    rw [h.count_eq c (List.mem_range.mp hc), hw]
  rw [this]
  decide

theorem chrono_mem (s : Aggregator) (x : Nat) (hx : x ∈ chrono s) : x ∈ s.result_window := by
  rcases List.mem_append.mp hx with h | h
  · exact List.mem_of_mem_drop h
  · exact List.mem_of_mem_take h

theorem not_fires_of_silent (s : Aggregator) (h : ∀ x ∈ s.result_window, x = 10) :
    ¬ Fires (chrono s) := by
  apply not_fires_of_short
  intro p hp hne
  exact absurd (h _ (chrono_mem s _ (runs_class_mem _ p hp))) hne

theorem step_quiet (s : Aggregator) (hI : Inv s)
    (hw : s.result_window = List.replicate WINDOW_SIZE 10)
    (hd : s.current_state = sys_state.detecting) :
    (step s 10).2 = none
    ∧ (step s 10).1.result_window = List.replicate WINDOW_SIZE 10
    ∧ (step s 10).1.last_result = 10
    ∧ (step s 10).1.current_state = sys_state.detecting := by
  have hwr : written s 10 = 10 := by simp [written]
  have hw1 : (windowUpdate s 10).result_window = List.replicate WINDOW_SIZE 10 := by
    rw [windowUpdate_window, hwr, List.eq_replicate_iff]
    constructor
    · simp [hw]
    · intro b hb
      rcases List.mem_or_eq_of_mem_set hb with h1 | h1
      · rw [hw] at h1; exact List.eq_of_mem_replicate h1
      · exact h1
  have hI1 := windowUpdate_inv s 10 hI (by omega)
  have hnf : ¬ Fires (chrono (windowUpdate s 10)) :=
    not_fires_of_silent _ (fun x hx => by rw [hw1] at hx; exact List.eq_of_mem_replicate hx)
  have hk := consensusScan_flag_keep (windowUpdate s 10) hI1.window_length hI1.idx_lt
    (fun h => hnf h.2)
  rw [windowUpdate_flag, hI.flag_clear hd] at hk
  obtain ⟨h1, _, _, h4⟩ := step_detecting s 10 hd
  refine ⟨?_, hw1, rfl, ?_⟩
  · rw [h1, hk]; simp
  · rw [h4, hk]; simp

theorem run_quiet (n : Nat) :
    ∀ s, Inv s → s.result_window = List.replicate WINDOW_SIZE 10 → s.last_result = 10 →
      s.current_state = sys_state.detecting →
      (∀ e ∈ events s (List.replicate n 10), e = none)
      ∧ (run s (List.replicate n 10)).result_window = List.replicate WINDOW_SIZE 10
      ∧ (run s (List.replicate n 10)).current_state = sys_state.detecting
      ∧ Inv (run s (List.replicate n 10)) := by
  induction n with
  | zero => intro s hI hw _ hd; exact ⟨by simp [events], hw, hd, hI⟩
  | succ n ih =>
    intro s hI hw hl hd
    obtain ⟨h1, h2, h3, h4⟩ := step_quiet s hI hw hd
    obtain ⟨i1, i2, i3, i4⟩ := ih (step s 10).1 (step_inv s 10 hI (by omega)) h2 h3 h4
    refine ⟨?_, i2, i3, i4⟩
    intro e he
    simp only [List.replicate_succ, events, List.mem_cons] at he
    rcases he with he | he
    · rw [he, h1]
    · exact i1 e he

/-! ### Cooldown -/

theorem cooldown_ctrl (codes : List Nat) :
    ∀ t : Aggregator, (codes ≠ [] → t.current_state = sys_state.fill_silence) →
      t.fill_silence_cnt + codes.length ≤ 40 →
      (∀ e ∈ events t codes, e = none)
      ∧ (run t codes).fill_silence_cnt = t.fill_silence_cnt + codes.length
      ∧ (codes ≠ [] → (run t codes).current_state
          = if t.fill_silence_cnt + codes.length = 40 then sys_state.detecting
            else sys_state.fill_silence)
      ∧ (codes ≠ [] → (run t codes).print_flag = 0) := by
  induction codes with
  | nil => intro t _ _; simp [events, run]
  | cons r rs ih =>
    intro t hs hc
    simp only [List.length_cons] at hc
    have hfs := hs (by simp)
    obtain ⟨h1, h2, h3, h4, _⟩ := step_fill_silence t r hfs
    have hm : (t.fill_silence_cnt + 1) % 256 = t.fill_silence_cnt + 1 :=
      Nat.mod_eq_of_lt (by omega)
    rw [hm] at h3 h4
    have hs1 : rs ≠ [] → (step t r).1.current_state = sys_state.fill_silence := by
      intro hne
      have : 0 < rs.length := List.length_pos.mpr hne
      rw [h4, if_neg (by simp only [FILL_SILENCE_MAX_CNT]; omega)]
    obtain ⟨i1, i2, i3, i4⟩ := ih (step t r).1 hs1 (by rw [h3]; omega)
    refine ⟨?_, ?_, ?_, ?_⟩
    · intro e he
      simp only [events, List.mem_cons] at he
      rcases he with he | he
      · rw [he, h1]
      · exact i1 e he
    · simp only [run, List.length_cons]; rw [i2, h3]; omega
    · intro _
      simp only [run, List.length_cons]
      cases rs with
      | nil => simp only [run, List.length_nil]; rw [h4]
      | cons a as =>
        rw [i3 (by simp), h3]
        simp only [List.length_cons]
        split_ifs <;> first | rfl | (exfalso; omega)
    · intro _
      simp only [run]
      cases rs with
      | nil => exact h2
      | cons a as => exact i4 (by simp)

theorem cooldown_window (codes : List Nat) :
    ∀ t : Aggregator, (codes ≠ [] → t.current_state = sys_state.fill_silence) →
      t.result_window.length = 40 → t.window_idx < 40 →
      t.fill_silence_cnt + codes.length ≤ 40 →
      (run t codes).result_window.length = 40
      ∧ (run t codes).window_idx = (t.window_idx + codes.length) % 40
      ∧ (∀ i, t.result_window.getD i 0 = 10 → (run t codes).result_window.getD i 0 = 10)
      ∧ (∀ j, j < codes.length →
          (run t codes).result_window.getD ((t.window_idx + j) % 40) 0 = 10) := by
  induction codes with
  | nil =>
    intro t _ hw hi _
    refine ⟨hw, by simp [run]; omega, fun i h => h, fun j hj => by simp at hj⟩
  | cons r rs ih =>
    intro t hs hw hi hc
    simp only [List.length_cons] at hc
    have hfs := hs (by simp)
    obtain ⟨_, _, h3, h4, h5⟩ := step_fill_silence t r hfs
    have hm : (t.fill_silence_cnt + 1) % 256 = t.fill_silence_cnt + 1 :=
      Nat.mod_eq_of_lt (by omega)
    rw [hm] at h3 h4
    have hs1 : rs ≠ [] → (step t r).1.current_state = sys_state.fill_silence := by
      intro hne
      have : 0 < rs.length := List.length_pos.mpr hne
      rw [h4, if_neg (by simp only [FILL_SILENCE_MAX_CNT]; omega)]
    have hw1 : (step t r).1.result_window = t.result_window.set t.window_idx 10 := by
      rw [step_window, h5]
    have hi1 : (step t r).1.window_idx = (t.window_idx + 1) % 40 := by
      rw [step_idx]; split_ifs with h
      · simp only [WINDOW_SIZE] at h; omega
      · simp only [WINDOW_SIZE] at h; omega
    obtain ⟨i1, i2, i3, i4⟩ := ih (step t r).1 hs1 (by rw [hw1]; simpa using hw)
      (by rw [hi1]; omega) (by rw [h3]; omega)
    have hset : ∀ i, (step t r).1.result_window.getD i 0
        = if t.window_idx = i then 10 else t.result_window.getD i 0 := by
      intro i; rw [hw1, getD_set_eq _ _ _ _ (by omega)]
    refine ⟨i1, ?_, ?_, ?_⟩
    · simp only [run, List.length_cons]; rw [i2, hi1]; omega
    · intro i h
      simp only [run]
      apply i3
      rw [hset]; split_ifs
      · rfl
      · exact h
    · intro j hj
      simp only [run]
      simp only [List.length_cons] at hj
      cases j with
      | zero =>
        apply i3
        rw [hset, Nat.add_zero, Nat.mod_eq_of_lt hi]; simp
      | succ j =>
        have := i4 j (by omega)
        rw [hi1] at this
        rw [show (t.window_idx + (j + 1)) % 40 = ((t.window_idx + 1) % 40 + j) % 40 by omega]
        exact this

theorem run_take_succ (codes : List Nat) :
    ∀ (t : Aggregator) (k : Nat) (hk : k < codes.length),
      run t (codes.take (k + 1)) = (step (run t (codes.take k)) (codes.get ⟨k, hk⟩)).1 := by
  induction codes with
  | nil => intro t k hk; simp at hk
  | cons r rs ih =>
    intro t k hk
    cases k with
    | zero => simp [run]
    | succ k =>
      simp only [List.take_succ_cons, run]
      exact ih _ k (by simpa using hk)

theorem fired_enters_cooldown (s : Aggregator) (r : Nat) (hw : s.result_window.length = 40)
    (hi : s.window_idx < 40) (hfc : s.current_state = sys_state.detecting → s.print_flag = 0)
    (hf : (step s r).2 ≠ none) :
    s.current_state = sys_state.detecting
    ∧ (step s r).1.current_state = sys_state.fill_silence
    ∧ (step s r).1.fill_silence_cnt = 0 := by
  cases hc : s.current_state with
  | fill_silence => exact absurd (step_fill_silence s r hc).1 hf
  | detecting =>
    obtain ⟨h1, _, h3, h4⟩ := step_detecting s r hc
    refine ⟨rfl, ?_, h3⟩
    have hw1 : (windowUpdate s r).result_window.length = 40 := by
      rw [windowUpdate_window]; simpa using hw
    have hi1 : (windowUpdate s r).window_idx < 40 := by
      rw [windowUpdate_idx]; simp only [WINDOW_SIZE]; split_ifs <;> omega
    rcases consensusScan_flag_cases (windowUpdate s r) hw1 hi1 with h6 | h6
    · rw [h4, if_pos h6]
    · rw [windowUpdate_flag, hfc hc] at h6
      rw [h1, h6] at hf
      simp at hf

theorem cooldown_prefix (codes : List Nat) (t : Aggregator)
    (hs : t.current_state = sys_state.fill_silence) (hc : t.fill_silence_cnt = 0)
    (k : Nat) (hk : k < 40) (hkl : k ≤ codes.length) :
    (run t (codes.take k)).current_state = sys_state.fill_silence := by
  cases k with
  | zero => simpa [run] using hs
  | succ k =>
    have hlen : (codes.take (k + 1)).length = k + 1 := by simp; omega
    have hne : codes.take (k + 1) ≠ [] := by
      intro h; rw [h] at hlen; simp at hlen
    have := (cooldown_ctrl (codes.take (k + 1)) t (fun _ => hs) (by rw [hlen, hc]; omega)).2.2.1 hne
    rw [this, hlen, hc, if_neg (by omega)]

theorem all_silence_of_slots (w : List Nat) (i0 : Nat) (hw : w.length = 40)
    (h : ∀ j, j < 40 → w.getD ((i0 + j) % 40) 0 = 10) : w = List.replicate WINDOW_SIZE 10 := by
  rw [List.eq_replicate_iff]
  refine ⟨hw, ?_⟩
  intro b hb
  obtain ⟨i, hi, rfl⟩ := List.getElem_of_mem hb
  have := h ((i + 40 - i0 % 40) % 40) (Nat.mod_lt _ (by omega))
  rw [show (i0 + (i + 40 - i0 % 40) % 40) % 40 = i by omega, List.getD_eq_getElem _ _ hi] at this
  exact this

/-! ## Theorems on the aggregator -/

/-- C1. Occupancy invariant: in the initial state (`codes = []`) and after every
finite sequence of notifications whose codes are all in `0..11`, the sum over
the twelve classes of `result_count[c]` is `WINDOW_SIZE = 40`. -/
theorem occupancy_sum_eq_window (codes : List Nat) (h : ∀ c ∈ codes, c < 12) :
    ((List.range 12).map
      (fun c => (run Aggregator.init codes).result_count.getD c 0)).sum = WINDOW_SIZE := by
  have hI := run_inv codes Aggregator.init init_inv h
  have e : (List.range 12).map (fun c => (run Aggregator.init codes).result_count.getD c 0)
      = (List.range 12).map (fun c => (run Aggregator.init codes).result_window.count c) := by
    apply List.map_congr_left
    intro c hc
    exact hI.count_eq c (List.mem_range.mp hc)
  rw [e, sum_count_eq _ hI.window_lt, hI.window_length]

/-- Witness for C1: the stream `yes yes down down unknown`. -/
theorem occupancy_sum_eq_window_witness :
    (∀ c ∈ [0, 0, 3, 3, 11], c < 12)
    ∧ ((List.range 12).map
        (fun c => (run Aggregator.init [0, 0, 3, 3, 11]).result_count.getD c 0)).sum
        = WINDOW_SIZE :=
  ⟨by decide, occupancy_sum_eq_window [0, 0, 3, 3, 11] (by decide)⟩

/-- C3. A run of length `T - 1` never fires: for a notification processed in any
state with a 40-slot window, a write index below 40 and the flag clear while
detecting, if every maximal run of a non-silence class in the updated window,
read oldest to newest from the new write index, has length at most
`DETECTING_CONS_RESULT_CNT - 1 = 19`, then the consensus scan leaves
`print_flag` as it found it and the notification prints no detection. -/
theorem short_runs_never_fire (s : Aggregator) (r : Nat)
    (hw : s.result_window.length = WINDOW_SIZE) (hi : s.window_idx < WINDOW_SIZE)
    (hfc : s.current_state = sys_state.detecting → s.print_flag = 0)
    (hruns : ∀ p ∈ runs (chrono (windowUpdate s r)),
      p.1 ≠ 10 → p.2 ≤ DETECTING_CONS_RESULT_CNT - 1) :
    (consensusScan (windowUpdate s r)).print_flag = s.print_flag ∧ (step s r).2 = none := by
  have hw1 : (windowUpdate s r).result_window.length = 40 := by
    rw [windowUpdate_window]; simpa using hw
  have hi1 : (windowUpdate s r).window_idx < 40 := by
    rw [windowUpdate_idx]; simp only [WINDOW_SIZE] at hi ⊢; split_ifs <;> omega
  have hk := consensusScan_flag_keep (windowUpdate s r) hw1 hi1
    (fun h => not_fires_of_short _ hruns h.2)
  rw [windowUpdate_flag] at hk
  refine ⟨hk, ?_⟩
  cases hc : s.current_state with
  | fill_silence => exact (step_fill_silence s r hc).1
  | detecting =>
    rw [(step_detecting s r hc).1, hk, hfc hc]
    simp

/-- Witness for C3: the twentieth `yes` frame of a stream of `yes` frames. The
first frame was stored as silence, so the updated window, oldest slot first, is
21 silence slots followed by a run of 19 `yes` slots: one short of the
threshold, and nothing fires. -/
theorem short_runs_never_fire_witness :
    runs (chrono (windowUpdate (run Aggregator.init (List.replicate 19 0)) 0))
        = [(10, 21), (0, 19)]
    ∧ (consensusScan (windowUpdate (run Aggregator.init (List.replicate 19 0)) 0)).print_flag
        = (run Aggregator.init (List.replicate 19 0)).print_flag
    ∧ (step (run Aggregator.init (List.replicate 19 0)) 0).2 = none :=
  ⟨by decide,
    short_runs_never_fire (run Aggregator.init (List.replicate 19 0)) 0 (by decide) (by decide)
      (by decide) (by decide)⟩

/-- C4. Cooldown suppression: if a notification prints a detection and leaves
the state `fill_silence` (Detecting to Cooldown), then for every 40 codes that
follow none of the `FILL_SILENCE_MAX_CNT = 40` notifications prints a
detection, the state is `fill_silence` after each of the first 39 of them and
`detecting` after the 40th. -/
theorem cooldown_suppression (s : Aggregator) (r : Nat) (codes : List Nat)
    (hf : (step s r).2 ≠ none)
    (hc : (step s r).1.current_state = sys_state.fill_silence)
    (hl : codes.length = FILL_SILENCE_MAX_CNT) :
    (∀ e ∈ events (step s r).1 codes, e = none)
    ∧ (∀ k, 1 ≤ k → k < FILL_SILENCE_MAX_CNT →
        (run (step s r).1 (codes.take k)).current_state = sys_state.fill_silence)
    ∧ (run (step s r).1 codes).current_state = sys_state.detecting := by
  have hd : s.current_state = sys_state.detecting := by
    cases h : s.current_state with
    | detecting => rfl
    | fill_silence => exact absurd (step_fill_silence s r h).1 hf
  have h0 : (step s r).1.fill_silence_cnt = 0 := (step_detecting s r hd).2.2.1
  have hl40 : codes.length = 40 := hl
  have hne : codes ≠ [] := by intro h; rw [h] at hl40; simp at hl40
  obtain ⟨h1, _, h3, _⟩ := cooldown_ctrl codes (step s r).1 (fun _ => hc) (by rw [h0, hl40])
  refine ⟨h1, ?_, ?_⟩
  · intro k _ hk
    exact cooldown_prefix codes _ hc h0 k hk (by rw [hl40]; exact Nat.le_of_lt hk)
  · rw [h3 hne, h0, hl40]; rfl

/-- Witness for C4: the 22nd `yes` frame of a constant `yes` stream prints a
detection; forty `yes` frames follow. -/
theorem cooldown_suppression_witness :
    (∀ e ∈ events (step (run Aggregator.init (List.replicate 21 0)) 0).1 (List.replicate 40 0),
        e = none)
    ∧ (∀ k, 1 ≤ k → k < FILL_SILENCE_MAX_CNT →
        (run (step (run Aggregator.init (List.replicate 21 0)) 0).1
          ((List.replicate 40 0).take k)).current_state = sys_state.fill_silence)
    ∧ (run (step (run Aggregator.init (List.replicate 21 0)) 0).1
        (List.replicate 40 0)).current_state = sys_state.detecting :=
  cooldown_suppression (run Aggregator.init (List.replicate 21 0)) 0 (List.replicate 40 0)
    (by decide) (by decide) (by decide)

/-- C5. Debounce law: in either detection state, a notification whose raw code
`b` differs from the previous raw code stores silence (10) in the slot at the
write index; and if the next raw code `c` differs from `b` as well, then after
that next notification both the slot of `b` and the following slot hold
silence, so `b` was recorded in neither. -/
theorem debounce_law (s : Aggregator) (b c : Nat)
    (hw : s.result_window.length = WINDOW_SIZE) (hi : s.window_idx < WINDOW_SIZE)
    (hb : b ≠ s.last_result) :
    (step s b).1.result_window.getD s.window_idx 0 = 10
    ∧ (c ≠ b →
        (step (step s b).1 c).1.result_window.getD s.window_idx 0 = 10
        ∧ (step (step s b).1 c).1.result_window.getD (step s b).1.window_idx 0 = 10) := by
  have hw40 : s.result_window.length = 40 := hw
  have hi40 : s.window_idx < 40 := hi
  have hwb : written s b = 10 := by
    unfold written; split_ifs <;> rfl
  have h1 : (step s b).1.result_window.getD s.window_idx 0 = 10 := by
    rw [step_window, getD_set_eq _ _ _ _ (by omega), if_pos rfl, hwb]
  refine ⟨h1, ?_⟩
  intro hcb
  have hwc : written (step s b).1 c = 10 := by
    unfold written
    rw [step_last]
    split_ifs <;> rfl
  have hlen : (step s b).1.result_window.length = 40 := by
    rw [step_window]; simpa using hw40
  have hidx : (step s b).1.window_idx < 40 := by
    rw [step_idx]; simp only [WINDOW_SIZE]; split_ifs <;> omega
  constructor
  · rw [step_window, getD_set_eq _ _ _ _ (by omega), hwc]
    split_ifs
    · rfl
    · exact h1
  · rw [step_window, getD_set_eq _ _ _ _ (by omega), if_pos rfl, hwc]

/-- Witness for C5: `yes` then `no` on the initial state (previous raw code
silence). -/
theorem debounce_law_witness :
    (step Aggregator.init 0).1.result_window.getD Aggregator.init.window_idx 0 = 10
    ∧ ((1 : Nat) ≠ 0 →
        (step (step Aggregator.init 0).1 1).1.result_window.getD
            Aggregator.init.window_idx 0 = 10
        ∧ (step (step Aggregator.init 0).1 1).1.result_window.getD
            (step Aggregator.init 0).1.window_idx 0 = 10) :=
  debounce_law Aggregator.init 0 1 (by decide) (by decide) (by decide)

/-- C6. Scenario D: after a notification that printed a detection (in a state
reached from the initial one by codes in `0..11`), for every 40 codes in
`0..11`: each of the 40 notifications stores silence in the slot at its write
index, its scan does not raise `print_flag` and the flag is 0 afterwards; after
the 40th the window is all silence, `result_count` is 40 for silence and 0 for
every other class, and the state is `detecting` again. -/
theorem cooldown_forces_silence (pre : List Nat) (r : Nat) (codes : List Nat)
    (hpre : ∀ c ∈ pre, c < 12) (hr : r < 12)
    (hf : (step (run Aggregator.init pre) r).2 ≠ none)
    (hl : codes.length = FILL_SILENCE_MAX_CNT) (hc : ∀ c ∈ codes, c < 12) :
    (∀ k (hk : k < codes.length),
        (run (step (run Aggregator.init pre) r).1 (codes.take (k + 1))).result_window.getD
            (run (step (run Aggregator.init pre) r).1 (codes.take k)).window_idx 0 = 10
        ∧ (consensusScan (windowUpdate
              (run (step (run Aggregator.init pre) r).1 (codes.take k))
              (codes.get ⟨k, hk⟩))).print_flag
            = (run (step (run Aggregator.init pre) r).1 (codes.take k)).print_flag
        ∧ (run (step (run Aggregator.init pre) r).1 (codes.take (k + 1))).print_flag = 0)
    ∧ (run (step (run Aggregator.init pre) r).1 codes).result_window
        = List.replicate WINDOW_SIZE 10
    ∧ (run (step (run Aggregator.init pre) r).1 codes).result_count
        = [0, 0, 0, 0, 0, 0, 0, 0, 0, 0, WINDOW_SIZE, 0]
    ∧ (run (step (run Aggregator.init pre) r).1 codes).current_state
        = sys_state.detecting := by
  have hI := run_inv pre Aggregator.init init_inv hpre
  obtain ⟨_, hs, h0⟩ := fired_enters_cooldown _ r hI.window_length hI.idx_lt hI.flag_clear hf
  have hIt := step_inv _ r hI hr
  generalize (step (run Aggregator.init pre) r).1 = t at hs h0 hIt ⊢
  have hl40 : codes.length = 40 := hl
  have hne : codes ≠ [] := by intro h; rw [h] at hl40; simp at hl40
  have hwin := cooldown_window codes t (fun _ => hs) hIt.window_length hIt.idx_lt
    (by rw [h0, hl40])
  have hctl := cooldown_ctrl codes t (fun _ => hs) (by rw [h0, hl40])
  have hwall : (run t codes).result_window = List.replicate WINDOW_SIZE 10 :=
    all_silence_of_slots _ t.window_idx hwin.1 (fun j hj => hwin.2.2.2 j (by rw [hl40]; exact hj))
  refine ⟨?_, hwall, quiet_counts _ (run_inv codes t hIt hc) hwall, ?_⟩
  · intro k hk
    have hk40 : k < 40 := by rw [← hl40]; exact hk
    have hsk := cooldown_prefix codes t hs h0 k hk40 (Nat.le_of_lt hk)
    have hlen : (codes.take k).length = k := by simp; omega
    have hwk := cooldown_window (codes.take k) t (fun _ => hs) hIt.window_length hIt.idx_lt
      (by rw [h0, hlen]; omega)
    have hik : (run t (codes.take k)).window_idx < 40 := by
      rw [hwk.2.1]; exact Nat.mod_lt _ (by omega)
    have hst := step_fill_silence (run t (codes.take k)) (codes.get ⟨k, hk⟩) hsk
    rw [run_take_succ codes t k hk]
    refine ⟨?_, ?_, hst.2.1⟩
    · rw [step_window, getD_set_eq _ _ _ _ (by rw [hwk.1]; exact hik), if_pos rfl, hst.2.2.2.2]
    · have hw1 : (windowUpdate (run t (codes.take k)) (codes.get ⟨k, hk⟩)).result_window.length
          = 40 := by
        rw [windowUpdate_window]; simpa using hwk.1
      have hi1 : (windowUpdate (run t (codes.take k)) (codes.get ⟨k, hk⟩)).window_idx < 40 := by
        rw [windowUpdate_idx]; simp only [WINDOW_SIZE]; split_ifs <;> omega
      rw [consensusScan_flag_keep _ hw1 hi1, windowUpdate_flag]
      rintro ⟨hd, _⟩
      rw [windowUpdate_state, hsk] at hd
      cases hd
  · rw [hctl.2.2.1 hne, h0, hl40]; rfl

/-- Witness for C6: the detection on the 22nd frame of a constant `yes`
stream, followed by forty `right` frames. -/
theorem cooldown_forces_silence_witness :
    (run (step (run Aggregator.init (List.replicate 21 0)) 0).1
        (List.replicate 40 5)).result_window = List.replicate WINDOW_SIZE 10 :=
  (cooldown_forces_silence (List.replicate 21 0) 0 (List.replicate 40 5)
    (by decide) (by decide) (by decide) (by decide) (by decide)).2.1

/-- C8. Scenario A: for every `n`, after `n` consecutive silence frames on the
initial state no notification has printed a detection, every window slot is
10, `result_count` is 40 for silence and 0 for every other class, and the state
is `detecting`. -/
theorem silence_stream_quiet (n : Nat) :
    (∀ e ∈ events Aggregator.init (List.replicate n 10), e = none)
    ∧ (run Aggregator.init (List.replicate n 10)).result_window = List.replicate WINDOW_SIZE 10
    ∧ (run Aggregator.init (List.replicate n 10)).result_count
        = [0, 0, 0, 0, 0, 0, 0, 0, 0, 0, WINDOW_SIZE, 0]
    ∧ (run Aggregator.init (List.replicate n 10)).current_state = sys_state.detecting := by
  obtain ⟨h1, h2, h3, h4⟩ := run_quiet n Aggregator.init init_inv rfl rfl rfl
  exact ⟨h1, h2, quiet_counts _ h4 h2, h3⟩

/-- C2, the code at the failing input. On a constant `yes` stream from the
initial state the 20th `yes` slot is stored on notification 21: the window then
reads, oldest first, twenty silence slots and a run of twenty `yes` slots, the
state is `detecting` before and after, and no detection has been printed. The
detection is printed one notification later, with the 21st `yes` slot. -/
theorem yes_stream_fires_one_late :
    chrono (run Aggregator.init (List.replicate 21 0))
        = List.replicate 20 10 ++ List.replicate 20 0
    ∧ (run Aggregator.init (List.replicate 20 0)).current_state = sys_state.detecting
    ∧ (run Aggregator.init (List.replicate 21 0)).current_state = sys_state.detecting
    ∧ (∀ e ∈ events Aggregator.init (List.replicate 21 0), e = none)
    ∧ (step (run Aggregator.init (List.replicate 21 0)) 0).2
        = some { counts := [21, 0, 0, 0, 0, 0, 0, 0, 0, 0, 19, 0], word := "yes" } := by
  decide

/-- C7. Scenario B: for every class `c` other than silence, feeding the
constant stream `c, c, c, ...` to the initial state there is a first
notification `n` with `1 ≤ n ≤ WINDOW_SIZE` that prints a detection: none of
the `n - 1` earlier notifications prints one, the word printed on the `n`-th is
`label[c]`, the state right after it is `fill_silence`, and none of the next
`FILL_SILENCE_MAX_CNT = 40` notifications of the same stream prints a
detection. -/
theorem constant_stream_detects_once (c : Nat) (hc : c < 12) (hne : c ≠ 10) :
    ∃ n, 1 ≤ n ∧ n ≤ WINDOW_SIZE
      ∧ (∀ e ∈ events Aggregator.init (List.replicate (n - 1) c), e = none)
      ∧ (step (run Aggregator.init (List.replicate (n - 1) c)) c).2.map Detection.word
          = some (label.getD c "")
      ∧ (run Aggregator.init (List.replicate n c)).current_state = sys_state.fill_silence
      ∧ (∀ e ∈ events (run Aggregator.init (List.replicate n c))
            (List.replicate FILL_SILENCE_MAX_CNT c), e = none) := by
  interval_cases c
  · exact ⟨22, by decide⟩
  · exact ⟨22, by decide⟩
  · exact ⟨22, by decide⟩
  · exact ⟨22, by decide⟩
  · exact ⟨22, by decide⟩
  · exact ⟨22, by decide⟩
  · exact ⟨22, by decide⟩
  · exact ⟨22, by decide⟩
  · exact ⟨22, by decide⟩
  · exact ⟨22, by decide⟩
  · exact absurd rfl hne
  · exact ⟨22, by decide⟩

/-- Witness for C7: the class `yes`. -/
theorem constant_stream_detects_once_witness :
    ∃ n, 1 ≤ n ∧ n ≤ WINDOW_SIZE
      ∧ (∀ e ∈ events Aggregator.init (List.replicate (n - 1) 0), e = none)
      ∧ (step (run Aggregator.init (List.replicate (n - 1) 0)) 0).2.map Detection.word
          = some (label.getD 0 "")
      ∧ (run Aggregator.init (List.replicate n 0)).current_state = sys_state.fill_silence
      ∧ (∀ e ∈ events (run Aggregator.init (List.replicate n 0))
            (List.replicate FILL_SILENCE_MAX_CNT 0), e = none) :=
  constant_stream_detects_once 0 (by decide) (by decide)

/-! ## Lemmas on the bank loader -/

theorem fgetsTake_length_le (n : Nat) (l : List Char) :
    (fgetsTake n l).length ≤ n ∧ (fgetsTake n l).length ≤ l.length := by
  induction l generalizing n with
  | nil => cases n <;> simp [fgetsTake]
  | cons c cs ih =>
    cases n with
    | zero => simp [fgetsTake]
    | succ n =>
      rw [fgetsTake]
      split_ifs
      · simp
      · have := ih n
        simp only [List.length_cons]
        omega

theorem fgetsTake_pos (n : Nat) (l : List Char) (hn : 1 ≤ n) (hl : l ≠ []) :
    1 ≤ (fgetsTake n l).length := by
  cases l with
  | nil => exact absurd rfl hl
  | cons c cs =>
    cases n with
    | zero => omega
    | succ n =>
      rw [fgetsTake]
      split_ifs <;> simp

theorem fgetsTake_self (l : List Char) :
    ∀ n, l.length ≤ n → (∀ c ∈ l.dropLast, c ≠ Char.ofNat 10) → fgetsTake n l = l := by
  induction l with
  | nil => intro n _ _; cases n <;> rfl
  | cons c cs ih =>
    intro n hn hd
    cases n with
    | zero => simp at hn
    | succ n =>
      rw [fgetsTake]
      cases cs with
      | nil =>
        split_ifs
        · rfl
        · cases n <;> rfl
      | cons d ds =>
        have hc : c ≠ Char.ofNat 10 := hd c (by simp [List.dropLast])
        rw [if_neg hc, ih n (by simpa using hn) (fun x hx => hd x (by
          simp only [List.dropLast_cons₂, List.mem_cons]
          exact Or.inr hx))]

theorem fgetsCalls_fits (len : Nat) (l : List Char) (h : fitsBuffer len l = true) :
    fgetsCalls len (l.length + 1) l = [l] := by
  simp only [fitsBuffer, Bool.and_eq_true, decide_eq_true_eq, List.all_eq_true, bne_iff_ne] at h
  have e := fgetsTake_self l (len - 1) (by omega) h.2
  rw [fgetsCalls, e, List.drop_length, if_pos rfl]

theorem fgetsReturns_fits (len : Nat) (lines : List (List Char))
    (h : ∀ l ∈ lines, fitsBuffer len l = true) : fgetsReturns len lines = lines := by
  induction lines with
  | nil => rfl
  | cons l ls ih =>
    rw [fgetsReturns, List.flatMap_cons, fgetsCalls_fits len l (h l (List.mem_cons_self _ _))]
    have := ih (fun x hx => h x (List.mem_cons_of_mem _ hx))
    rw [fgetsReturns] at this
    rw [this]
    rfl

theorem fgetsReturns_cons (len : Nat) (l : List Char) (ls : List (List Char))
    (h : fitsBuffer len l = true) : fgetsReturns len (l :: ls) = l :: fgetsReturns len ls := by
  rw [fgetsReturns, List.flatMap_cons, fgetsCalls_fits len l h]
  rfl

theorem fgetsCalls_fuel (len : Nat) (hlen : 2 ≤ len) :
    ∀ fuel (l : List Char), l.length < fuel → ∀ fuel2, l.length < fuel2 →
      fgetsCalls len fuel l = fgetsCalls len fuel2 l := by
  intro fuel
  induction fuel with
  | zero => intro l h; omega
  | succ fuel ih =>
    intro l h fuel2 h2
    cases fuel2 with
    | zero => omega
    | succ fuel2 =>
      rw [fgetsCalls, fgetsCalls]
      by_cases hd : l.drop (fgetsTake (len - 1) l).length = []
      · rw [if_pos hd, if_pos hd]
      · rw [if_neg hd, if_neg hd]
        have hl : l ≠ [] := by
          rintro rfl
          simp at hd
        have hp := fgetsTake_pos (len - 1) l (by omega) hl
        have hlen2 : (l.drop (fgetsTake (len - 1) l).length).length < l.length := by
          rw [List.length_drop]
          have : 0 < l.length := List.length_pos.mpr hl
          omega
        rw [ih _ (by omega) fuel2 (by omega)]

theorem fgetsTake_append_drop (l : List Char) :
    ∀ n, fgetsTake n l ++ l.drop (fgetsTake n l).length = l := by
  induction l with
  | nil => intro n; cases n <;> rfl
  | cons c cs ih =>
    intro n
    cases n with
    | zero => rfl
    | succ n =>
      rw [fgetsTake]
      split_ifs
      · rfl
      · simp only [List.length_cons, List.drop_succ_cons, List.cons_append, ih n]

theorem fgetsCalls_flatten (len : Nat) (hlen : 2 ≤ len) :
    ∀ fuel (l : List Char), l.length < fuel → (fgetsCalls len fuel l).flatten = l := by
  intro fuel
  induction fuel with
  | zero => intro l h; omega
  | succ fuel ih =>
    intro l h
    rw [fgetsCalls]
    have ha := fgetsTake_append_drop l (len - 1)
    by_cases hd : l.drop (fgetsTake (len - 1) l).length = []
    · rw [if_pos hd]
      rw [hd, List.append_nil] at ha
      simp [ha]
    · rw [if_neg hd]
      have hl : l ≠ [] := by
        rintro rfl
        simp at hd
      have hp := fgetsTake_pos (len - 1) l (by omega) hl
      have hlen2 : (l.drop (fgetsTake (len - 1) l).length).length < fuel := by
        rw [List.length_drop]
        have : 0 < l.length := List.length_pos.mpr hl
        omega
      rw [List.flatten_cons, ih _ hlen2, ha]

theorem fgetsCalls_length_lt (len : Nat) :
    ∀ fuel (l : List Char), ∀ s ∈ fgetsCalls len fuel l, s.length ≤ len - 1 := by
  intro fuel
  induction fuel with
  | zero => intro l s hs; simp [fgetsCalls] at hs
  | succ fuel ih =>
    intro l s hs
    rw [fgetsCalls] at hs
    split_ifs at hs
    · simp only [List.mem_singleton] at hs
      rw [hs]
      exact (fgetsTake_length_le _ _).1
    · rcases List.mem_cons.mp hs with h | h
      · rw [h]
        exact (fgetsTake_length_le _ _).1
      · exact ih _ s h

theorem storeWord_length (buf : List Nat) (base v : Nat) :
    (storeWord buf base v).length = buf.length := by
  simp [storeWord, List.range, List.range.loop]

theorem storeWord_four (buf : List Nat) (v : Nat) (h : buf.length = 4) :
    storeWord buf 0 v
      = [(v >>> 24) &&& 0xFF, (v >>> 16) &&& 0xFF, (v >>> 8) &&& 0xFF, (v >>> 0) &&& 0xFF] := by
  match buf, h with
  | [a, b, c, d], _ => simp [storeWord, List.range, List.range.loop]

theorem token_bytes :
    ∀ t ∈ tokens,
      [(binary_str_to_uint32 t >>> 24) &&& 0xFF, (binary_str_to_uint32 t >>> 16) &&& 0xFF,
        (binary_str_to_uint32 t >>> 8) &&& 0xFF, (binary_str_to_uint32 t >>> 0) &&& 0xFF]
        = decodeToken t := by
  decide

theorem decodeToken_length (t : String) : (decodeToken t).length = 4 := by
  simp [decodeToken]

theorem store_token (buf : List Nat) (h : buf.length = 4) (t : String) (ht : t ∈ tokens) :
    storeWord buf 0 (binary_str_to_uint32 t) = decodeToken t := by
  rw [storeWord_four buf _ h, token_bytes t ht]

theorem take_token (t : String) : (decodeToken t).take 4 = decodeToken t :=
  List.take_of_length_le (by rw [decodeToken_length])

theorem f_gets_getD_lt (buf l : List Char) (i : Nat) (h : i < l.length) :
    (f_gets buf l).getD i NUL = l.getD i NUL := by
  rw [f_gets, List.getD_append _ _ _ _ h]

theorem f_gets_getD_length (buf l : List Char) : (f_gets buf l).getD l.length NUL = NUL := by
  rw [f_gets, List.getD_append_right _ _ _ _ (Nat.le_refl _)]
  simp

theorem checkValid_iff (buf : List Char) (n : Nat) :
    ∀ k, k ≤ n → (checkValid buf n k = true ↔
      ∀ i, n - k ≤ i → i < n → (buf.getD i NUL = '0' ∨ buf.getD i NUL = '1')) := by
  intro k
  induction k with
  | zero => intro _; simp [checkValid]; intro i h1 h2; omega
  | succ k ih =>
    intro hk
    rw [checkValid]
    by_cases h : buf.getD (n - (k + 1)) NUL ≠ '0' ∧ buf.getD (n - (k + 1)) NUL ≠ '1'
    · rw [if_pos h]
      constructor
      · intro h2; cases h2
      · intro h2
        rcases h2 (n - (k + 1)) (Nat.le_refl _) (by omega) with h3 | h3
        · exact absurd h3 h.1
        · exact absurd h3 h.2
    · rw [if_neg h, ih (by omega)]
      constructor
      · intro h2 i hi1 hi2
        by_cases hi : i = n - (k + 1)
        · subst hi
          by_contra h3
          exact h ⟨fun e => h3 (Or.inl e), fun e => h3 (Or.inr e)⟩
        · exact h2 i (by omega) hi2
      · intro h2 i hi1 hi2
        exact h2 i (by omega) hi2

theorem NUL_ne : NUL ≠ '0' ∧ NUL ≠ '1' := by decide

theorem checkValid_f_gets (buf l : List Char) (n : Nat) :
    checkValid (f_gets buf l) n n = accepted n l := by
  rw [Bool.eq_iff_iff, checkValid_iff _ _ _ (Nat.le_refl _), accepted]
  simp only [Bool.and_eq_true, decide_eq_true_eq, List.all_eq_true, Bool.or_eq_true]
  constructor
  · intro h
    have hl : n ≤ l.length := by
      by_contra hc
      have := h l.length (by omega) (by omega)
      rw [f_gets_getD_length] at this
      rcases this with h1 | h1
      · exact NUL_ne.1 h1
      · exact NUL_ne.2 h1
    refine ⟨hl, ?_⟩
    intro ch hch
    obtain ⟨i, hi, rfl⟩ := List.getElem_of_mem hch
    simp only [List.length_take] at hi
    have := h i (by omega) (by omega)
    rw [f_gets_getD_lt _ _ _ (by omega), List.getD_eq_getElem _ _ (by omega)] at this
    simpa using this
  · rintro ⟨hl, h⟩ i _ hi
    rw [f_gets_getD_lt _ _ _ (by omega), List.getD_eq_getElem _ _ (by omega)]
    have hil : i < l.length := by omega
    have := h (l.get ⟨i, hil⟩) (by
      rw [List.mem_take_iff_getElem]
      exact ⟨i, by omega, rfl⟩)
    simpa using this


theorem tailValue_lt (buf : List Char) (n : Nat) : ∀ k, tailValue buf n k < 2 ^ k := by
  intro k
  induction k with
  | zero => simp [tailValue]
  | succ k ih =>
    rw [tailValue, pow_succ]
    have : bitAt buf (n - (k + 1)) ≤ 1 := by unfold bitAt; split_ifs <;> omega
    have h2 : bitAt buf (n - (k + 1)) * 2 ^ k ≤ 1 * 2 ^ k := Nat.mul_le_mul_right _ this
    omega

theorem parseBits_eq (buf : List Char) (n : Nat) (hn : n ≤ 32) :
    ∀ k v, k ≤ n → 2 ^ k ∣ v → v < 2 ^ n → parseBits buf n k v = v + tailValue buf n k := by
  intro k
  induction k with
  | zero => intro v _ _ _; simp [parseBits, tailValue]
  | succ k ih =>
    intro v hk hd hv
    obtain ⟨a, rfl⟩ := hd
    have hpn : 2 ^ n = 2 ^ (k + 1) * 2 ^ (n - (k + 1)) := by
      rw [← pow_add]; congr 1; omega
    have ha : a < 2 ^ (n - (k + 1)) := by
      rw [hpn] at hv
      exact Nat.lt_of_mul_lt_mul_left hv
    have hle : 2 ^ (k + 1) * a + 2 ^ (k + 1) ≤ 2 ^ n := by
      rw [hpn, ← Nat.mul_succ]
      exact Nat.mul_le_mul_left _ ha
    have h32 : 2 ^ n ≤ 2 ^ 32 := Nat.pow_le_pow_right (by omega) hn
    have hk2 : 2 ^ k < 2 ^ (k + 1) := by
      rw [pow_succ]; have := Nat.two_pow_pos k; omega
    have hor : 2 ^ (k + 1) * a ||| 2 ^ k = 2 ^ (k + 1) * a + 2 ^ k :=
      (Nat.mul_add_lt_is_or hk2 a).symm
    rw [parseBits, tailValue]
    have hidx : n - 1 - (n - (k + 1)) = k := by omega
    by_cases hb : buf.getD (n - (k + 1)) NUL = '1'
    · have hs : (1 <<< k) % 2 ^ 32 = 2 ^ k := by
        rw [Nat.one_shiftLeft]; exact Nat.mod_eq_of_lt (by omega)
      have hlt : 2 ^ (k + 1) * a + 2 ^ k < 2 ^ n := by omega
      rw [if_pos hb, hidx, hs, hor, Nat.mod_eq_of_lt (by omega)]
      rw [ih _ (by omega) ⟨2 * a + 1, by rw [pow_succ]; ring⟩ hlt]
      simp only [bitAt, hb, if_true]
      omega
    · rw [if_neg hb]
      rw [ih _ (by omega) ⟨2 * a, by rw [pow_succ]; ring⟩ hv]
      simp only [bitAt, hb, if_false]
      omega

theorem tailValue_eq_sum (buf : List Char) (n : Nat) :
    ∀ k, k ≤ n → tailValue buf n k
      = ((List.range k).map (fun i => bitAt buf (n - k + i) * 2 ^ (k - 1 - i))).sum := by
  intro k
  induction k with
  | zero => intro _; simp [tailValue]
  | succ k ih =>
    intro hk
    rw [tailValue, ih (by omega), List.range_succ_eq_map, List.map_cons, List.sum_cons,
      List.map_map]
    congr 1
    congr 1
    apply List.map_congr_left
    intro i _
    simp only [Function.comp, Nat.succ_eq_add_one]
    rw [show n - (k + 1) + (i + 1) = n - k + i by omega, show k + 1 - 1 - (i + 1) = k - 1 - i by omega]

theorem parseBits_f_gets (buf l : List Char) (n : Nat) (hn : n ≤ 32) (hl : n ≤ l.length) :
    parseBits (f_gets buf l) n n 0 = lineValue n l := by
  rw [parseBits_eq _ n hn n 0 (Nat.le_refl _) (Nat.dvd_zero _) (Nat.two_pow_pos n),
    Nat.zero_add, tailValue_eq_sum _ _ _ (Nat.le_refl _), lineValue]
  congr 1
  apply List.map_congr_left
  intro i hi
  have hi2 : i < n := List.mem_range.mp hi
  rw [Nat.sub_self, Nat.zero_add, bitAt, f_gets_getD_lt _ _ _ (by omega)]

theorem storeWord_append (pre post : List Nat) (a b c d v : Nat) :
    storeWord (pre ++ a :: b :: c :: d :: post) (pre.length) v
      = pre ++ bigEndian4 v ++ post := by
  have h0 : ∀ (x : Nat) (t : List Nat) (i : Nat),
      (pre ++ t).set (pre.length + i) x = pre ++ t.set i x := by
    intro x t i
    rw [List.set_append_right _ _ (by omega), Nat.add_sub_cancel_left]
  simp only [storeWord, List.range, List.range.loop, List.foldl_cons, List.foldl_nil, h0,
    List.set_cons_zero, List.set_cons_succ, bigEndian4, Nat.shiftRight_eq_div_pow]
  have h255 : ∀ x : Nat, x &&& 255 = x % 256 := fun x => Nat.and_pow_two_sub_one_eq_mod x 8
  simp only [h255]
  simp

theorem readBinaryLoop_eq (bit_len max_lines : Nat) (hb : bit_len ≤ 32) (lines : List (List Char)) :
    ∀ (line_buf : List Char) (pre post : List Nat) (line_count : Nat),
      pre.length = 4 * line_count → line_count ≤ max_lines →
      4 * min (max_lines - line_count) (lines.filter (accepted bit_len)).length ≤ post.length →
      readBinaryLoop bit_len max_lines lines line_buf (pre ++ post) line_count
        = (pre ++ binaryPayload bit_len (max_lines - line_count) lines
              ++ post.drop (4 * min (max_lines - line_count)
                  (lines.filter (accepted bit_len)).length),
            line_count + min (max_lines - line_count) (lines.filter (accepted bit_len)).length) := by
  induction lines with
  | nil =>
    intro buf pre post lc _ _ _
    simp [readBinaryLoop, binaryPayload]
  | cons l ls ih =>
    intro buf pre post lc hpre hlc hpost
    rw [readBinaryLoop]
    by_cases h1 : lc < max_lines
    · rw [if_pos h1, checkValid_f_gets]
      by_cases h2 : accepted bit_len l = true
      · rw [if_pos h2]
        have hl : bit_len ≤ l.length := by
          simp only [accepted, Bool.and_eq_true, decide_eq_true_eq] at h2
          exact h2.1
        rw [parseBits_f_gets _ _ _ hb hl]
        have hf : (l :: ls).filter (accepted bit_len) = l :: ls.filter (accepted bit_len) := by
          rw [List.filter_cons, if_pos h2]
        rw [hf] at hpost ⊢
        simp only [List.length_cons] at hpost ⊢
        have hm : min (max_lines - lc) ((ls.filter (accepted bit_len)).length + 1)
            = min (max_lines - (lc + 1)) (ls.filter (accepted bit_len)).length + 1 := by omega
        rw [hm] at hpost ⊢
        obtain ⟨a, b, c, d, post2, rfl⟩ : ∃ a b c d post2, post = a :: b :: c :: d :: post2 := by
          match post, hpost with
          | a :: b :: c :: d :: post2, _ => exact ⟨a, b, c, d, post2, rfl⟩
          | [], h => simp at h
          | [_], h => simp at h; omega
          | [_, _], h => simp at h; omega
          | [_, _, _], h => simp at h; omega
        rw [show lc * 4 = pre.length by omega, storeWord_append]
        rw [ih _ (pre ++ bigEndian4 (lineValue bit_len l)) post2 (lc + 1)
          (by simp [bigEndian4]; omega) (by omega) (by simp at hpost; omega)]
        have hp : binaryPayload bit_len (max_lines - lc) (l :: ls)
            = bigEndian4 (lineValue bit_len l) ++ binaryPayload bit_len (max_lines - (lc + 1)) ls := by
          unfold binaryPayload
          rw [hf, show max_lines - lc = (max_lines - (lc + 1)) + 1 by omega, List.take_succ_cons]
          simp
        rw [hp]
        refine Prod.ext ?_ ?_
        · simp only [List.append_assoc]
          congr 3
        · simp only; omega
      · rw [if_neg h2]
        have hf : (l :: ls).filter (accepted bit_len) = ls.filter (accepted bit_len) := by
          rw [List.filter_cons, if_neg h2]
        have hp : binaryPayload bit_len (max_lines - lc) (l :: ls)
            = binaryPayload bit_len (max_lines - lc) ls := by
          unfold binaryPayload; rw [hf]
        rw [hf] at hpost ⊢
        rw [hp]
        exact ih _ pre post lc hpre hlc hpost
    · rw [if_neg h1]
      have : max_lines - lc = 0 := by omega
      simp [this, binaryPayload]

/-! ## Theorems on the bank loader -/

/-- C9. Bank Loader transfer sequence: for every content of the buffers,
`initial_TMA` returns `XST_SUCCESS` and issues exactly the 27 sends of
`transferSequence`, in that order: the configuration-register payload alone,
then for each catalog region (block-index, row-count banks 0..4,
column-class-index banks 0..4, weight bank) its decoded Address Token followed
by its payload, then the inference-enable address token `80 00 00 01` and the
enable-data token `00 00 00 01` as the last two sends. -/
theorem initial_TMA_transfer_sequence (b : Buffers) :
    initial_TMA b = (XST_SUCCESS, transferSequence b)
    ∧ (initial_TMA b).2.length = 27
    ∧ (initial_TMA b).2.head? = some (b.Conf_reg_Buffer.take (4 * LEN_CONF_REG))
    ∧ (initial_TMA b).2.drop 25 = [[0x80, 0x00, 0x00, 0x01], [0x00, 0x00, 0x00, 0x01]] := by
  have e : initial_TMA b = (XST_SUCCESS, transferSequence b) := by
    simp only [initial_TMA]
    rw [store_token [0, 0, 0, 0] rfl BLOCK_IDX_BANK_CONFIG_ADDR (by decide),
      store_token _ (decodeToken_length _) ROW_CNT_BANK0_CONFIG_ADDR (by decide),
      store_token _ (decodeToken_length _) ROW_CNT_BANK1_CONFIG_ADDR (by decide),
      store_token _ (decodeToken_length _) ROW_CNT_BANK2_CONFIG_ADDR (by decide),
      store_token _ (decodeToken_length _) ROW_CNT_BANK3_CONFIG_ADDR (by decide),
      store_token _ (decodeToken_length _) ROW_CNT_BANK4_CONFIG_ADDR (by decide),
      store_token _ (decodeToken_length _) CCL_IDX_BANK0_CONFIG_ADDR (by decide),
      store_token _ (decodeToken_length _) CCL_IDX_BANK1_CONFIG_ADDR (by decide),
      store_token _ (decodeToken_length _) CCL_IDX_BANK2_CONFIG_ADDR (by decide),
      store_token _ (decodeToken_length _) CCL_IDX_BANK3_CONFIG_ADDR (by decide),
      store_token _ (decodeToken_length _) CCL_IDX_BANK4_CONFIG_ADDR (by decide),
      store_token _ (decodeToken_length _) WEIGHT_BANK0_CONFIG_ADDR (by decide),
      store_token _ (decodeToken_length _) CONF_SPI_EN_INF_ADDR (by decide),
      store_token _ (decodeToken_length _) CONF_SPI_EN_INF_DATA (by decide)]
    simp only [SPIWrite, transferSequence, catalog, List.map, List.flatten, List.drop_zero,
      List.nil_append, List.cons_append, List.append_assoc, take_token, Nat.mul_comm,
      List.append_nil]
  have h1 : decodeToken CONF_SPI_EN_INF_ADDR = [0x80, 0x00, 0x00, 0x01] := by decide
  have h2 : decodeToken CONF_SPI_EN_INF_DATA = [0x00, 0x00, 0x00, 0x01] := by decide
  refine ⟨e, ?_, ?_, ?_⟩
  · rw [e]; rfl
  · rw [e]; rfl
  · rw [e, ← h1, ← h2]; rfl

theorem sd_read_binary_eq_pieces (lines : List (List Char)) (line_buf : List Char)
    (dest_buf : List Nat) (bit_len max_lines : Nat) (hb : bit_len ≤ 32)
    (hd : 4 * min max_lines ((fgetsReturns 128 lines).filter (accepted bit_len)).length
      ≤ dest_buf.length) :
    sd_read_binary (some lines) line_buf dest_buf bit_len max_lines
      = (0, binaryPayload bit_len max_lines (fgetsReturns 128 lines)
            ++ dest_buf.drop
              (4 * min max_lines ((fgetsReturns 128 lines).filter (accepted bit_len)).length)) := by
  have h := readBinaryLoop_eq bit_len max_lines hb (fgetsReturns 128 lines) line_buf [] dest_buf 0
    rfl (Nat.zero_le _) (by simpa using hd)
  simp only [List.nil_append, Nat.sub_zero] at h
  simp only [sd_read_binary, h]

theorem binaryPayload_length (bit_len max_lines : Nat) (lines : List (List Char)) :
    (binaryPayload bit_len max_lines lines).length
      = 4 * min max_lines (lines.filter (accepted bit_len)).length := by
  unfold binaryPayload
  rw [List.length_flatten, List.map_map]
  have : ((fun l : List Nat => l.length) ∘ fun l => bigEndian4 (lineValue bit_len l))
      = fun _ => 4 := by
    funext l; simp [bigEndian4]
  rw [this]
  simp [Nat.mul_comm]

set_option maxRecDepth 100000 in
/-- C10, counterexample: a file of one line of 133 characters `1` and a line
feed, width 6, capacity 2. The line is accepted, so the claim has `k = 1`, the
payload `00 00 00 3F` in the first four bytes and no byte written from offset 4
on. The 128-byte line buffer makes `f_gets` return the line in two pieces (127
characters, then six characters and the line feed), each is accepted and
stored, and the bytes at offsets 4 to 7 are overwritten with `00 00 00 3F`. -/
theorem long_line_takes_two_slots :
    accepted 6 (List.replicate 133 '1' ++ [Char.ofNat 10]) = true
    ∧ min 2 ([List.replicate 133 '1' ++ [Char.ofNat 10]].filter (accepted 6)).length = 1
    ∧ binaryPayload 6 2 [List.replicate 133 '1' ++ [Char.ofNat 10]] = [0, 0, 0, 63]
    ∧ fgetsReturns 128 [List.replicate 133 '1' ++ [Char.ofNat 10]]
        = [List.replicate 127 '1', List.replicate 6 '1' ++ [Char.ofNat 10]]
    ∧ sd_read_binary (some [List.replicate 133 '1' ++ [Char.ofNat 10]]) []
        (List.replicate 8 9) 6 2
      = (0, [0, 0, 0, 63, 0, 0, 0, 63])
    ∧ (sd_read_binary (some [List.replicate 133 '1' ++ [Char.ofNat 10]]) []
        (List.replicate 8 9) 6 2).2.drop 4 ≠ (List.replicate 8 9).drop 4 := by
  decide

/-- C10 (amended). Binary region parsing equals its reference definition: for
every list of lines each of which fits the 128-byte line buffer (at most 127
characters, its line feed included and last), every content of the line buffer
on entry, every width `bit_len ≤ 32` (so for 32, 20, 6 and 5) and every
capacity `max_lines`, with `k = min max_lines (number of accepted lines)` and a
destination buffer of at least `4 * k` bytes, `sd_read_binary` returns 0 and
leaves in the destination buffer the `4 * k` bytes of `binaryPayload` (the
big-endian words of the values of the first `k` accepted lines, in line order)
followed by the old content from offset `4 * k` on, untouched. -/
theorem sd_read_binary_eq_reference (lines : List (List Char)) (line_buf : List Char)
    (dest_buf : List Nat) (bit_len max_lines : Nat) (hb : bit_len ≤ 32)
    (hfit : ∀ l ∈ lines, fitsBuffer 128 l = true)
    (hd : 4 * min max_lines (lines.filter (accepted bit_len)).length ≤ dest_buf.length) :
    sd_read_binary (some lines) line_buf dest_buf bit_len max_lines
      = (0, binaryPayload bit_len max_lines lines
            ++ dest_buf.drop (4 * min max_lines (lines.filter (accepted bit_len)).length))
    ∧ (binaryPayload bit_len max_lines lines).length
        = 4 * min max_lines (lines.filter (accepted bit_len)).length := by
  have hr := fgetsReturns_fits 128 lines hfit
  have h := sd_read_binary_eq_pieces lines line_buf dest_buf bit_len max_lines hb
    (by rw [hr]; exact hd)
  rw [hr] at h
  exact ⟨h, binaryPayload_length _ _ _⟩

/-- Witness for C10: six lines of width 5 with capacity 3; the second and the
fourth line are too short, the sixth is beyond the capacity. -/
theorem sd_read_binary_eq_reference_witness :
    sd_read_binary
        (some ["10101".data, "11".data, "00000xyz".data, "1111".data, "11111".data,
          "00001".data])
        [] (List.replicate 20 7) 5 3
      = (0, [0, 0, 0, 21, 0, 0, 0, 0, 0, 0, 0, 31, 7, 7, 7, 7, 7, 7, 7, 7]) :=
  (sd_read_binary_eq_reference
    ["10101".data, "11".data, "00000xyz".data, "1111".data, "11111".data, "00001".data]
    [] (List.replicate 20 7) 5 3 (by decide) (by decide) (by decide)).1.trans (by decide)

/-! ## Further lemmas and theorems on the bank loader -/

theorem parseBits_congr (a b : List Char) (n : Nat)
    (h : ∀ i, i < n → a.getD i NUL = b.getD i NUL) :
    ∀ k v, k ≤ n → parseBits a n k v = parseBits b n k v := by
  intro k
  induction k with
  | zero => intro v _; rfl
  | succ k ih =>
    intro v hk
    rw [parseBits, parseBits, h (n - (k + 1)) (by omega)]
    exact ih _ (by omega)

theorem parseBits_f_gets_congr (buf buf2 l : List Char) (n : Nat) (hl : n ≤ l.length) :
    parseBits (f_gets buf l) n n 0 = parseBits (f_gets buf2 l) n n 0 := by
  apply parseBits_congr _ _ _ _ _ _ (Nat.le_refl _)
  intro i hi
  rw [f_gets_getD_lt _ _ _ (by omega), f_gets_getD_lt _ _ _ (by omega)]

theorem readBinaryLoop_full (bit_len max_lines : Nat) (lines : List (List Char))
    (buf : List Char) (dest : List Nat) (lc : Nat) (h : ¬ lc < max_lines) :
    readBinaryLoop bit_len max_lines lines buf dest lc = (dest, lc) := by
  cases lines with
  | nil => rfl
  | cons l ls => rw [readBinaryLoop, if_neg h]

theorem accepted_length (n : Nat) (l : List Char) (h : accepted n l = true) : n ≤ l.length := by
  simp only [accepted, Bool.and_eq_true, decide_eq_true_eq] at h
  exact h.1

theorem readBinaryLoop_filter (bit_len max_lines : Nat) (lines : List (List Char)) :
    ∀ (buf buf2 : List Char) (dest : List Nat) (lc : Nat),
      readBinaryLoop bit_len max_lines lines buf dest lc
        = readBinaryLoop bit_len max_lines (lines.filter (accepted bit_len)) buf2 dest lc := by
  induction lines with
  | nil => intro buf buf2 dest lc; rfl
  | cons l ls ih =>
    intro buf buf2 dest lc
    by_cases h1 : lc < max_lines
    · by_cases h2 : accepted bit_len l = true
      · rw [List.filter_cons, if_pos h2, readBinaryLoop, readBinaryLoop, if_pos h1, if_pos h1,
          checkValid_f_gets, checkValid_f_gets, if_pos h2, if_pos h2,
          parseBits_f_gets_congr buf buf2 l bit_len (accepted_length _ _ h2)]
        exact ih _ _ _ _
      · rw [List.filter_cons, if_neg h2, readBinaryLoop, if_pos h1, checkValid_f_gets, if_neg h2]
        exact ih _ _ _ _
    · rw [readBinaryLoop_full _ _ _ _ _ _ h1, readBinaryLoop_full _ _ _ _ _ _ h1]

theorem accepted_false_iff (n : Nat) (l : List Char) :
    accepted n l = false ↔ ∃ i, i < n ∧ l[i]? ≠ some '0' ∧ l[i]? ≠ some '1' := by
  rw [← Bool.not_eq_true, accepted]
  simp only [Bool.and_eq_true, decide_eq_true_eq, List.all_eq_true, Bool.or_eq_true, not_and]
  constructor
  · intro h
    by_cases hl : n ≤ l.length
    · have h2 := h hl
      push_neg at h2
      obtain ⟨ch, hch, h0, h1⟩ := h2
      obtain ⟨i, hi, rfl⟩ := List.getElem_of_mem hch
      simp only [List.length_take] at hi
      refine ⟨i, by omega, ?_, ?_⟩
      · rw [List.getElem?_eq_getElem (by omega)]
        simpa using h0
      · rw [List.getElem?_eq_getElem (by omega)]
        simpa using h1
    · refine ⟨l.length, by omega, ?_, ?_⟩ <;> simp
  · rintro ⟨i, hi, h0, h1⟩ hl
    have hil : i < l.length := by omega
    rw [List.getElem?_eq_getElem hil] at h0 h1
    intro hall
    have hm : l.get ⟨i, hil⟩ ∈ l.take n := by
      rw [List.mem_take_iff_getElem]
      exact ⟨i, by omega, rfl⟩
    rcases hall _ hm with e | e
    · exact h0 (by simpa using e)
    · exact h1 (by simpa using e)

set_option maxRecDepth 100000 in
/-- C11, counterexample: a file of one line made of 127 characters `x`, then
`000000` and a line feed, width 6, capacity 1. The line is malformed (its first
character is `x`), so the file with the malformed lines removed is empty and
leaves the destination as it was; but the 128-byte line buffer makes `f_gets`
return the line in two pieces, the second piece `000000` passes the check, and
`00 00 00 00` is stored. -/
theorem long_malformed_line_stored :
    accepted 6 (List.replicate 127 'x' ++ "000000".data ++ [Char.ofNat 10]) = false
    ∧ fgetsReturns 128 [List.replicate 127 'x' ++ "000000".data ++ [Char.ofNat 10]]
        = [List.replicate 127 'x', "000000".data ++ [Char.ofNat 10]]
    ∧ sd_read_binary (some [List.replicate 127 'x' ++ "000000".data ++ [Char.ofNat 10]]) []
        (List.replicate 4 9) 6 1
      = (0, [0, 0, 0, 0])
    ∧ sd_read_binary
        (some ([List.replicate 127 'x' ++ "000000".data ++ [Char.ofNat 10]].filter (accepted 6)))
        [] (List.replicate 4 9) 6 1
      = (0, [9, 9, 9, 9])
    ∧ (readBinaryLoop 6 1
        (fgetsReturns 128 [List.replicate 127 'x' ++ "000000".data ++ [Char.ofNat 10]]) []
        (List.replicate 4 9) 0).2 = 1 := by
  decide

/-- C11 (amended). Scenario C (malformed-line skip): for every list of lines
each of which fits the 128-byte line buffer (at most 127 characters, its line
feed included and last), every width and capacity, and whatever the line buffer
holds on entry, `sd_read_binary` leaves the same destination buffer and the
same element count (`line_count`) as on the list with every malformed line
removed; a line is malformed (not `accepted`) exactly when one of its first
`bit_len` characters is missing or is neither `0` nor `1`; and a malformed line
that fits the buffer, at the head of a file, contributes no byte and does not
advance `line_count`: the loop continues on the rest of the file with the same
buffer and count. -/
theorem malformed_lines_skipped (lines : List (List Char)) (line_buf line_buf2 : List Char)
    (dest_buf : List Nat) (bit_len max_lines : Nat)
    (hfit : ∀ l ∈ lines, fitsBuffer 128 l = true) :
    readBinaryLoop bit_len max_lines (fgetsReturns 128 lines) line_buf dest_buf 0
        = readBinaryLoop bit_len max_lines
            (fgetsReturns 128 (lines.filter (accepted bit_len))) line_buf2 dest_buf 0
    ∧ sd_read_binary (some lines) line_buf dest_buf bit_len max_lines
        = sd_read_binary (some (lines.filter (accepted bit_len))) line_buf2 dest_buf bit_len
            max_lines
    ∧ (∀ l, l ∈ lines.filter (accepted bit_len) ↔
        l ∈ lines ∧ ¬ ∃ i, i < bit_len ∧ l[i]? ≠ some '0' ∧ l[i]? ≠ some '1')
    ∧ (∀ l rest line_count, fitsBuffer 128 l = true →
        (∃ i, i < bit_len ∧ l[i]? ≠ some '0' ∧ l[i]? ≠ some '1') →
        readBinaryLoop bit_len max_lines (fgetsReturns 128 (l :: rest)) line_buf dest_buf
            line_count
          = readBinaryLoop bit_len max_lines (fgetsReturns 128 rest) line_buf dest_buf
              line_count) := by
  have hr := fgetsReturns_fits 128 lines hfit
  have hr2 := fgetsReturns_fits 128 (lines.filter (accepted bit_len))
    (fun l hl => hfit l (List.mem_of_mem_filter hl))
  have h1 := readBinaryLoop_filter bit_len max_lines lines line_buf line_buf2 dest_buf 0
  refine ⟨by rw [hr, hr2]; exact h1, ?_, ?_, ?_⟩
  · simp only [sd_read_binary, hr, hr2, h1]
  · intro l
    rw [List.mem_filter, ← accepted_false_iff, Bool.not_eq_false]
  · intro l rest lc hl hm
    rw [fgetsReturns_cons 128 l rest hl]
    have hf : (l :: fgetsReturns 128 rest).filter (accepted bit_len)
        = (fgetsReturns 128 rest).filter (accepted bit_len) := by
      rw [List.filter_cons, if_neg]
      rw [Bool.not_eq_true]
      exact (accepted_false_iff _ _).mpr hm
    rw [readBinaryLoop_filter _ _ (l :: fgetsReturns 128 rest) line_buf line_buf dest_buf lc, hf,
      ← readBinaryLoop_filter]

/-- Witness for C11: five lines of width 5, the second too short and the fourth
with a letter among its first five characters. -/
theorem malformed_lines_skipped_witness :
    (∀ l ∈ ["10101".data ++ [Char.ofNat 10], "11".data ++ [Char.ofNat 10],
        "00011".data ++ [Char.ofNat 10], "0a000".data ++ [Char.ofNat 10],
        "11111".data ++ [Char.ofNat 10]], fitsBuffer 128 l = true)
    ∧ sd_read_binary (some ["10101".data ++ [Char.ofNat 10], "11".data ++ [Char.ofNat 10],
        "00011".data ++ [Char.ofNat 10], "0a000".data ++ [Char.ofNat 10],
        "11111".data ++ [Char.ofNat 10]]) [] (List.replicate 16 7) 5 4
      = (0, [0, 0, 0, 21, 0, 0, 0, 3, 0, 0, 0, 31, 7, 7, 7, 7])
    ∧ sd_read_binary (some ["10101".data ++ [Char.ofNat 10], "00011".data ++ [Char.ofNat 10],
        "11111".data ++ [Char.ofNat 10]]) [] (List.replicate 16 7) 5 4
      = (0, [0, 0, 0, 21, 0, 0, 0, 3, 0, 0, 0, 31, 7, 7, 7, 7]) :=
  ⟨by decide,
    ((malformed_lines_skipped ["10101".data ++ [Char.ofNat 10], "11".data ++ [Char.ofNat 10],
        "00011".data ++ [Char.ofNat 10], "0a000".data ++ [Char.ofNat 10],
        "11111".data ++ [Char.ofNat 10]] [] [] (List.replicate 16 7) 5 4 (by decide)).2.1).trans
      (by decide),
    by decide⟩

theorem initial_TMA_eq (b : Buffers) : initial_TMA b = (XST_SUCCESS, transferSequence b) := by
  simp only [initial_TMA]
  rw [store_token [0, 0, 0, 0] rfl BLOCK_IDX_BANK_CONFIG_ADDR (by decide),
    store_token _ (decodeToken_length _) ROW_CNT_BANK0_CONFIG_ADDR (by decide),
    store_token _ (decodeToken_length _) ROW_CNT_BANK1_CONFIG_ADDR (by decide),
    store_token _ (decodeToken_length _) ROW_CNT_BANK2_CONFIG_ADDR (by decide),
    store_token _ (decodeToken_length _) ROW_CNT_BANK3_CONFIG_ADDR (by decide),
    store_token _ (decodeToken_length _) ROW_CNT_BANK4_CONFIG_ADDR (by decide),
    store_token _ (decodeToken_length _) CCL_IDX_BANK0_CONFIG_ADDR (by decide),
    store_token _ (decodeToken_length _) CCL_IDX_BANK1_CONFIG_ADDR (by decide),
    store_token _ (decodeToken_length _) CCL_IDX_BANK2_CONFIG_ADDR (by decide),
    store_token _ (decodeToken_length _) CCL_IDX_BANK3_CONFIG_ADDR (by decide),
    store_token _ (decodeToken_length _) CCL_IDX_BANK4_CONFIG_ADDR (by decide),
    store_token _ (decodeToken_length _) WEIGHT_BANK0_CONFIG_ADDR (by decide),
    store_token _ (decodeToken_length _) CONF_SPI_EN_INF_ADDR (by decide),
    store_token _ (decodeToken_length _) CONF_SPI_EN_INF_DATA (by decide)]
  simp only [SPIWrite, transferSequence, catalog, List.map, List.flatten, List.drop_zero,
    List.nil_append, List.cons_append, List.append_assoc, take_token, Nat.mul_comm,
    List.append_nil]

theorem enable_tokens :
    decodeToken CONF_SPI_EN_INF_ADDR = [0x80, 0x00, 0x00, 0x01]
    ∧ decodeToken CONF_SPI_EN_INF_DATA = [0x00, 0x00, 0x00, 0x01] := by
  decide

theorem transferSequence_tail (b : Buffers) :
    (transferSequence b).length = 27
    ∧ (transferSequence b).drop 25 = [[0x80, 0x00, 0x00, 0x01], [0x00, 0x00, 0x00, 0x01]] := by
  refine ⟨rfl, ?_⟩
  rw [← enable_tokens.1, ← enable_tokens.2]
  rfl

/-- C12, the code on every storage volume, the one where no file can be opened
included: a reader whose file cannot be opened returns -1 and leaves its buffer
as it was, `read_model_data` then returns the buffers unchanged, and the Bank
Loader still returns `XST_SUCCESS` after its 27 sends, the last two being the
inference-enable address token and the enable-data token. -/
theorem loader_ignores_open_failure (fs : String → Option (List (List Char)))
    (line_buf : List Char) (b : Buffers) :
    (∀ dest bit_len max_lines,
        sd_read_binary none line_buf dest bit_len max_lines = (-1, dest))
    ∧ (∀ dest max_lines, sd_read_hex none line_buf dest max_lines = (-1, dest))
    ∧ read_model_data (fun _ => none) line_buf b = b
    ∧ (loadModel fs line_buf b).1 = XST_SUCCESS
    ∧ (loadModel fs line_buf b).2.length = 27
    ∧ (loadModel fs line_buf b).2.drop 25
        = [[0x80, 0x00, 0x00, 0x01], [0x00, 0x00, 0x00, 0x01]] := by
  refine ⟨fun _ _ _ => rfl, fun _ _ => rfl, rfl, ?_, ?_, ?_⟩
  · rw [loadModel, initial_TMA_eq]
  · rw [loadModel, initial_TMA_eq]; exact (transferSequence_tail _).1
  · rw [loadModel, initial_TMA_eq]; exact (transferSequence_tail _).2


theorem readBinaryLoop_length (bit_len max_lines : Nat) (lines : List (List Char)) :
    ∀ (buf : List Char) (dest : List Nat) (lc : Nat),
      (readBinaryLoop bit_len max_lines lines buf dest lc).1.length = dest.length
      ∧ (lc ≤ max_lines → (readBinaryLoop bit_len max_lines lines buf dest lc).2 ≤ max_lines) := by
  induction lines with
  | nil => intro buf dest lc; exact ⟨rfl, fun h => h⟩
  | cons l ls ih =>
    intro buf dest lc
    rw [readBinaryLoop]
    by_cases h1 : lc < max_lines
    · rw [if_pos h1]
      split_ifs
      · have := ih (f_gets buf l)
          (storeWord dest (lc * 4) (parseBits (f_gets buf l) bit_len bit_len 0)) (lc + 1)
        rw [storeWord_length] at this
        exact ⟨this.1, fun _ => this.2 h1⟩
      · exact ih _ _ _
    · rw [if_neg h1]; exact ⟨rfl, fun h => h⟩

theorem readHexLoop_length (max_lines : Nat) (lines : List (List Char)) :
    ∀ (buf : List Char) (dest : List Nat) (lc : Nat),
      (readHexLoop max_lines lines buf dest lc).1.length = dest.length
      ∧ (lc ≤ max_lines → (readHexLoop max_lines lines buf dest lc).2 ≤ max_lines) := by
  induction lines with
  | nil => intro buf dest lc; exact ⟨rfl, fun h => h⟩
  | cons l ls ih =>
    intro buf dest lc
    rw [readHexLoop]
    by_cases h1 : lc < max_lines
    · rw [if_pos h1]
      have := ih (f_gets buf l)
        (storeWord dest (lc * 4) (strtoul (cstring (f_gets buf l)) 16 % 2 ^ 32)) (lc + 1)
      rw [storeWord_length] at this
      exact ⟨this.1, fun _ => this.2 h1⟩
    · rw [if_neg h1]; exact ⟨rfl, fun h => h⟩

theorem sd_read_binary_length (file : Option (List (List Char))) (buf : List Char)
    (dest : List Nat) (bit_len max_lines : Nat) :
    (sd_read_binary file buf dest bit_len max_lines).2.length = dest.length := by
  cases file with
  | none => rfl
  | some lines => exact (readBinaryLoop_length _ _ _ _ _ _).1

theorem sd_read_hex_length (file : Option (List (List Char))) (buf : List Char)
    (dest : List Nat) (max_lines : Nat) :
    (sd_read_hex file buf dest max_lines).2.length = dest.length := by
  cases file with
  | none => rfl
  | some lines => exact (readHexLoop_length _ _ _ _ _).1

theorem read_model_data_sized (fs : String → Option (List (List Char))) (line_buf : List Char)
    (b : Buffers) (h : b.Sized) : (read_model_data fs line_buf b).Sized := by
  obtain ⟨h1, h2, h3, h4, h5, h6, h7, h8, h9, h10, h11, h12, h13⟩ := h
  refine ⟨?_, ?_, ?_, ?_, ?_, ?_, ?_, ?_, ?_, ?_, ?_, ?_, ?_⟩ <;>
    simp only [read_model_data, sd_read_binary_length, sd_read_hex_length] <;> assumption

theorem transferSequence_lengths (b : Buffers) (h : b.Sized) :
    (transferSequence b).map List.length
      = [4 * LEN_CONF_REG, 4, 4 * LEN_BLOCK_BANK, 4, 4 * LEN_ROW_BANK0, 4, 4 * LEN_ROW_BANK1,
          4, 4 * LEN_ROW_BANK2, 4, 4 * LEN_ROW_BANK3, 4, 4 * LEN_ROW_BANK4,
          4, 4 * LEN_CCL_BANK0, 4, 4 * LEN_CCL_BANK1, 4, 4 * LEN_CCL_BANK2,
          4, 4 * LEN_CCL_BANK3, 4, 4 * LEN_CCL_BANK4, 4, 4 * LEN_WEIGHT_BANK, 4, 4] := by
  obtain ⟨h1, h2, h3, h4, h5, h6, h7, h8, h9, h10, h11, h12, h13⟩ := h
  simp only [transferSequence, catalog, List.map, List.flatten, List.cons_append,
    List.nil_append, List.append_nil, List.length_take, decodeToken_length, h1, h2, h3, h4, h5,
    h6, h7, h8, h9, h10, h11, h12, h13]
  rfl


theorem transferSequence_block (b : Buffers) :
    (transferSequence b).getD 2 [] = b.Conf_block_Buffer.take (4 * LEN_BLOCK_BANK) := rfl

theorem zero_sized : Buffers.zero.Sized := by
  refine ⟨?_, ?_, ?_, ?_, ?_, ?_, ?_, ?_, ?_, ?_, ?_, ?_, ?_⟩ <;>
    simp only [Buffers.zero, List.length_replicate]

/-- C13, counterexample: the block-index file holds one accepted line, so the
element count of the region is 1, and the payload that the Bank Loader sends
for the region (the third send) is still `4 * LEN_BLOCK_BANK = 4608` bytes
long, not `4 * 1`. -/
theorem short_file_full_transfer :
    (readBinaryLoop 20 LEN_BLOCK_BANK ["00000000000000000101".data] []
        Buffers.zero.Conf_block_Buffer 0).2 = 1
    ∧ ((loadModel
          (fun name => if name = CONF_BLOCK_BANK_FILE_NAME
            then some ["00000000000000000101".data] else some [])
          [] Buffers.zero).2.getD 2 []).length = 4608
    ∧ ((loadModel
          (fun name => if name = CONF_BLOCK_BANK_FILE_NAME
            then some ["00000000000000000101".data] else some [])
          [] Buffers.zero).2.getD 2 []).length
        ≠ 4 * (readBinaryLoop 20 LEN_BLOCK_BANK ["00000000000000000101".data] []
            Buffers.zero.Conf_block_Buffer 0).2 := by
  have h1 : (readBinaryLoop 20 LEN_BLOCK_BANK ["00000000000000000101".data] []
        Buffers.zero.Conf_block_Buffer 0).2 = 1 := by decide
  have h2 : ((loadModel
          (fun name => if name = CONF_BLOCK_BANK_FILE_NAME
            then some ["00000000000000000101".data] else some [])
          [] Buffers.zero).2.getD 2 []).length = 4608 := by
    rw [loadModel, initial_TMA_eq]
    have hs := (read_model_data_sized
      (fun name => if name = CONF_BLOCK_BANK_FILE_NAME
            then some ["00000000000000000101".data] else some []) [] _ zero_sized).block
    simp only [transferSequence_block, List.length_take, hs]
    rfl
  refine ⟨h1, h2, ?_⟩
  rw [h1, h2]
  decide

/-- C13 as amended: for every storage volume and every content of the line
buffer, with buffers of their declared sizes, the element count of a reader
never exceeds the capacity it is given, and every payload that the Bank Loader
transfers is exactly `4 * capacity` bytes long (each Address Token 4 bytes),
whatever the element counts are. -/
theorem payload_length_is_capacity (fs : String → Option (List (List Char)))
    (line_buf : List Char) (b : Buffers) (hb : b.Sized) :
    (∀ lines bit_len max_lines buf dest,
        (readBinaryLoop bit_len max_lines lines buf dest 0).2 ≤ max_lines)
    ∧ (∀ lines max_lines buf dest, (readHexLoop max_lines lines buf dest 0).2 ≤ max_lines)
    ∧ (loadModel fs line_buf b).2.map List.length
        = [4 * LEN_CONF_REG, 4, 4 * LEN_BLOCK_BANK, 4, 4 * LEN_ROW_BANK0, 4, 4 * LEN_ROW_BANK1,
            4, 4 * LEN_ROW_BANK2, 4, 4 * LEN_ROW_BANK3, 4, 4 * LEN_ROW_BANK4,
            4, 4 * LEN_CCL_BANK0, 4, 4 * LEN_CCL_BANK1, 4, 4 * LEN_CCL_BANK2,
            4, 4 * LEN_CCL_BANK3, 4, 4 * LEN_CCL_BANK4, 4, 4 * LEN_WEIGHT_BANK, 4, 4] := by
  refine ⟨?_, ?_, ?_⟩
  · intro lines bit_len max_lines buf dest
    exact (readBinaryLoop_length _ _ _ _ _ _).2 (Nat.zero_le _)
  · intro lines max_lines buf dest
    exact (readHexLoop_length _ _ _ _ _).2 (Nat.zero_le _)
  · rw [loadModel, initial_TMA_eq]
    exact transferSequence_lengths _ (read_model_data_sized fs line_buf b hb)

/-- Witness for C13 as amended: the zero-initialised buffers and a volume whose
block-index file has a single line. -/
theorem payload_length_is_capacity_witness :
    (loadModel
        (fun name => if name = CONF_BLOCK_BANK_FILE_NAME
          then some ["00000000000000000101".data] else some [])
        [] Buffers.zero).2.map List.length
      = [4 * LEN_CONF_REG, 4, 4 * LEN_BLOCK_BANK, 4, 4 * LEN_ROW_BANK0, 4, 4 * LEN_ROW_BANK1,
          4, 4 * LEN_ROW_BANK2, 4, 4 * LEN_ROW_BANK3, 4, 4 * LEN_ROW_BANK4,
          4, 4 * LEN_CCL_BANK0, 4, 4 * LEN_CCL_BANK1, 4, 4 * LEN_CCL_BANK2,
          4, 4 * LEN_CCL_BANK3, 4, 4 * LEN_CCL_BANK4, 4, 4 * LEN_WEIGHT_BANK, 4, 4] :=
  (payload_length_is_capacity _ [] Buffers.zero zero_sized).2.2

theorem binary_str_loop_eq_parseBits (str : List Char) :
    ∀ k v, binary_str_to_uint32_loop str k v = parseBits str 32 k v := by
  intro k
  induction k with
  | zero => intro v; rfl
  | succ k ih =>
    intro v
    rw [binary_str_to_uint32_loop, parseBits, ih]

theorem binary_str_to_uint32_eq (s : String) :
    binary_str_to_uint32 s = tailValue s.data 32 32 := by
  rw [binary_str_to_uint32, binary_str_loop_eq_parseBits,
    parseBits_eq _ 32 (Nat.le_refl _) 32 0 (Nat.le_refl _) (Nat.dvd_zero _) (by norm_num),
    Nat.zero_add]

theorem bitAt_le_one (buf : List Char) (i : Nat) : bitAt buf i ≤ 1 := by
  unfold bitAt; split_ifs <;> omega

theorem tailValue_bit (buf : List Char) (n : Nat) :
    ∀ k, k ≤ n → ∀ m, m < k → tailValue buf n k / 2 ^ m % 2 = bitAt buf (n - 1 - m) := by
  intro k
  induction k with
  | zero => intro _ m hm; omega
  | succ k ih =>
    intro hk m hm
    rw [tailValue]
    have hb := bitAt_le_one buf (n - (k + 1))
    have ht := tailValue_lt buf n k
    by_cases hmk : m = k
    · subst hmk
      rw [Nat.add_comm, Nat.add_mul_div_right _ _ (Nat.two_pow_pos m), Nat.div_eq_of_lt ht,
        Nat.zero_add, show n - 1 - m = n - (m + 1) by omega]
      exact Nat.mod_eq_of_lt (by omega)
    · have hlt : m < k := by omega
      have hp : 2 ^ k = 2 ^ m * (2 * 2 ^ (k - m - 1)) := by
        rw [← pow_succ', ← pow_add]; congr 1; omega
      rw [hp, ← Nat.mul_assoc, Nat.mul_comm (bitAt buf (n - (k + 1))) (2 ^ m), Nat.mul_assoc,
        Nat.add_comm, Nat.add_mul_div_left _ _ (Nat.two_pow_pos m), ← ih (by omega) m hlt]
      rw [show bitAt buf (n - (k + 1)) * (2 * 2 ^ (k - m - 1))
        = 2 * (bitAt buf (n - (k + 1)) * 2 ^ (k - m - 1)) by ring]
      omega

theorem token_testBit (s : String) (m : Nat) (hm : m < 32) :
    (binary_str_to_uint32 s).testBit (31 - m) = decide (s.data.getD m NUL = '1') := by
  rw [Nat.testBit_to_div_mod, binary_str_to_uint32_eq,
    tailValue_bit _ 32 32 (Nat.le_refl _) (31 - m) (by omega),
    show 32 - 1 - (31 - m) = m by omega, bitAt]
  split_ifs with h
  · rw [decide_eq_true h]; rfl
  · rw [decide_eq_false h]; rfl


theorem byte_testBit (v p a : Nat) (ha : a < 8) :
    ((v >>> p) &&& 0xFF).testBit a = v.testBit (p + a) := by
  rw [Nat.testBit_and, Nat.testBit_shiftRight, show (0xFF : Nat) = 2 ^ 8 - 1 by norm_num,
    Nat.testBit_two_pow_sub_one, decide_eq_true ha, Bool.and_true]

theorem token_byte_bit (addr_uint8 : List Nat) (h4 : addr_uint8.length = 4) (s : String)
    (k j : Nat) (hk : k < 4) (hj : j < 8) :
    ((storeWord addr_uint8 0 (binary_str_to_uint32 s)).getD k 0).testBit (7 - j)
      = decide (s.data.getD (8 * k + j) NUL = '1') := by
  rw [storeWord_four addr_uint8 _ h4, ← token_testBit s (8 * k + j) (by omega)]
  interval_cases k
  · rw [List.getD_cons_zero, byte_testBit _ _ _ (by omega)]; congr 1; omega
  · rw [List.getD_cons_succ, List.getD_cons_zero, byte_testBit _ _ _ (by omega)]; congr 1; omega
  · rw [List.getD_cons_succ, List.getD_cons_succ, List.getD_cons_zero,
      byte_testBit _ _ _ (by omega)]; congr 1; omega
  · rw [List.getD_cons_succ, List.getD_cons_succ, List.getD_cons_succ, List.getD_cons_zero,
      byte_testBit _ _ _ (by omega)]; congr 1; omega

/-- C14. Address Token decoding is a faithful big-endian round trip: for every
string `s` and every 4-byte array `addr_uint8`, after the 4-byte split of
`binary_str_to_uint32 s` that `initial_TMA` runs, bit `j < 8` (most significant
first) of byte `k < 4` is set exactly when `s[8k + j]` is the character `1`;
hence for a 32-character string over `0` and `1` re-reading the 32 bits of the
four bytes, most significant first, gives `s` back. The inference-enable
address token decodes to `80 00 00 01` and the enable-data token to
`00 00 00 01`. -/
theorem token_round_trip (s : String) (addr_uint8 : List Nat) (h4 : addr_uint8.length = 4)
    (hlen : s.data.length = 32) (h01 : ∀ c ∈ s.data, c = '0' ∨ c = '1') :
    (∀ k j, k < 4 → j < 8 →
        ((storeWord addr_uint8 0 (binary_str_to_uint32 s)).getD k 0).testBit (7 - j)
          = decide (s.data.getD (8 * k + j) NUL = '1'))
    ∧ (List.range 32).map
        (fun i =>
          if ((storeWord addr_uint8 0 (binary_str_to_uint32 s)).getD (i / 8) 0).testBit
            (7 - i % 8) then '1' else '0') = s.data
    ∧ storeWord addr_uint8 0 (binary_str_to_uint32 CONF_SPI_EN_INF_ADDR)
        = [0x80, 0x00, 0x00, 0x01]
    ∧ storeWord addr_uint8 0 (binary_str_to_uint32 CONF_SPI_EN_INF_DATA)
        = [0x00, 0x00, 0x00, 0x01] := by
  refine ⟨fun k j hk hj => token_byte_bit addr_uint8 h4 s k j hk hj, ?_, ?_, ?_⟩
  · apply List.ext_getElem
    · simp [hlen]
    · intro i h1 h2
      simp only [List.length_map, List.length_range] at h1
      rw [List.getElem_map, List.getElem_range,
        token_byte_bit addr_uint8 h4 s (i / 8) (i % 8) (by omega) (Nat.mod_lt _ (by omega)),
        show 8 * (i / 8) + i % 8 = i by omega, List.getD_eq_getElem _ _ h2]
      rcases h01 _ (List.getElem_mem h2) with h | h
      · rw [h]; rfl
      · rw [h]; rfl
  · rw [storeWord_four addr_uint8 _ h4]; decide
  · rw [storeWord_four addr_uint8 _ h4]; decide

/-- Witness for C14: the block-index bank token. -/
theorem token_round_trip_witness :
    (List.range 32).map
        (fun i =>
          if ((storeWord [0, 0, 0, 0] 0
              (binary_str_to_uint32 BLOCK_IDX_BANK_CONFIG_ADDR)).getD (i / 8) 0).testBit
            (7 - i % 8) then '1' else '0') = BLOCK_IDX_BANK_CONFIG_ADDR.data :=
  (token_round_trip BLOCK_IDX_BANK_CONFIG_ADDR [0, 0, 0, 0] rfl (by decide) (by decide)).2.1

theorem takeWhile_append_stop (p : Char → Bool) (l : List Char) (x : Char) (r : List Char)
    (hx : p x = false) : (l ++ x :: r).takeWhile p = l.takeWhile p := by
  induction l with
  | nil => simp [List.takeWhile, hx]
  | cons c cs ih =>
    simp only [List.cons_append, List.takeWhile_cons, ih]

theorem cstring_f_gets (buf l : List Char) : cstring (f_gets buf l) = cstring l := by
  unfold cstring f_gets
  exact takeWhile_append_stop _ _ _ _ (by simp)

theorem readHexLoop_eq (max_lines : Nat) (lines : List (List Char)) :
    ∀ (line_buf : List Char) (pre post : List Nat) (line_count : Nat),
      pre.length = 4 * line_count → line_count ≤ max_lines →
      4 * min (max_lines - line_count) lines.length ≤ post.length →
      readHexLoop max_lines lines line_buf (pre ++ post) line_count
        = (pre ++ ((lines.take (max_lines - line_count)).map
                (fun l => bigEndian4 (hexWord l))).flatten
              ++ post.drop (4 * min (max_lines - line_count) lines.length),
            line_count + min (max_lines - line_count) lines.length) := by
  induction lines with
  | nil =>
    intro buf pre post lc _ _ _
    simp [readHexLoop]
  | cons l ls ih =>
    intro buf pre post lc hpre hlc hpost
    rw [readHexLoop]
    by_cases h1 : lc < max_lines
    · rw [if_pos h1, cstring_f_gets]
      simp only [List.length_cons] at hpost ⊢
      have hm : min (max_lines - lc) (ls.length + 1)
          = min (max_lines - (lc + 1)) ls.length + 1 := by omega
      rw [hm] at hpost ⊢
      obtain ⟨a, b, c, d, post2, rfl⟩ : ∃ a b c d post2, post = a :: b :: c :: d :: post2 := by
        match post, hpost with
        | a :: b :: c :: d :: post2, _ => exact ⟨a, b, c, d, post2, rfl⟩
        | [], h => simp at h
        | [_], h => simp at h; omega
        | [_, _], h => simp at h; omega
        | [_, _, _], h => simp at h; omega
      rw [show lc * 4 = pre.length by omega, storeWord_append]
      rw [ih _ (pre ++ bigEndian4 (strtoul (cstring l) 16 % 2 ^ 32)) post2 (lc + 1)
        (by simp [bigEndian4]; omega) (by omega) (by simp at hpost; omega)]
      rw [show max_lines - lc = (max_lines - (lc + 1)) + 1 by omega, List.take_succ_cons]
      refine Prod.ext ?_ ?_
      · simp only [List.map_cons, List.flatten_cons, List.append_assoc, hexWord]
        congr 3
      · simp only; omega
    · rw [if_neg h1]
      have : max_lines - lc = 0 := by omega
      simp [this]


theorem hexValue_cons (c : Char) (ds : List Char) :
    hexValue (c :: ds) = (hexDigit c).getD 0 * 16 ^ ds.length + hexValue ds := by
  unfold hexValue
  rw [List.length_cons, List.range_succ_eq_map, List.map_cons, List.sum_cons, List.map_map]
  congr 1
  congr 1
  apply List.map_congr_left
  intro i _
  simp only [Function.comp, Nat.succ_eq_add_one, List.getD_cons_succ]
  rw [show ds.length + 1 - 1 - (i + 1) = ds.length - 1 - i by omega]

theorem hexDigit_spec (c : Char) (d : Nat) (h : hexDigit c = some d) :
    digitValue c = some d ∧ d < 16 ∧ isspace c = false := by
  unfold hexDigit at h
  unfold digitValue isspace
  split_ifs at h with h1 h2 h3
  · simp only [Option.some.injEq] at h
    subst h
    refine ⟨by rw [if_pos h1], by omega, ?_⟩
    simp; omega
  · simp only [Option.some.injEq] at h
    subst h
    refine ⟨by rw [if_neg h1, if_pos (by omega)], by omega, ?_⟩
    simp; omega
  · simp only [Option.some.injEq] at h
    subst h
    refine ⟨by rw [if_neg h1, if_neg (by omega), if_pos (by omega)], by omega, ?_⟩
    simp; omega

theorem hexDigit_ne (c : Char) (h : (hexDigit c).isSome = true) :
    c ≠ '-' ∧ c ≠ '+' ∧ c ≠ 'x' ∧ c ≠ 'X' ∧ c ≠ NUL := by
  refine ⟨?_, ?_, ?_, ?_, ?_⟩ <;> (rintro rfl; revert h; decide)

theorem hexValue_lt (ds : List Char) (h : ∀ c ∈ ds, (hexDigit c).isSome = true) :
    hexValue ds < 16 ^ ds.length := by
  induction ds with
  | nil => simp [hexValue]
  | cons c ds ih =>
    have ih2 := ih (fun x hx => h x (List.mem_cons_of_mem _ hx))
    obtain ⟨d, hd⟩ := Option.isSome_iff_exists.mp (h c (List.mem_cons_self _ _))
    have hd16 := (hexDigit_spec c d hd).2.1
    rw [hexValue_cons, hd, Option.getD_some, List.length_cons, pow_succ]
    have : d * 16 ^ ds.length ≤ 15 * 16 ^ ds.length := Nat.mul_le_mul_right _ (by omega)
    omega

theorem strtoulDigits_hex (tail : List Char)
    (ht : tail = [] ∨ ∃ c t, tail = c :: t ∧ digitValue c = none) (ds : List Char) :
    ∀ acc, (∀ c ∈ ds, (hexDigit c).isSome = true) →
      acc * 16 ^ ds.length + hexValue ds ≤ ULONG_MAX →
      strtoulDigits 16 (ds ++ tail) acc false = (acc * 16 ^ ds.length + hexValue ds, false) := by
  induction ds with
  | nil =>
    intro acc _ _
    simp only [List.nil_append, List.length_nil, pow_zero, Nat.mul_one, hexValue,
      List.range_zero, List.map_nil, List.sum_nil, Nat.add_zero]
    rcases ht with rfl | ⟨c, t, rfl, hc⟩
    · rfl
    · rw [strtoulDigits, hc]
  | cons c ds ih =>
    intro acc h hb
    obtain ⟨d, hd⟩ := Option.isSome_iff_exists.mp (h c (List.mem_cons_self _ _))
    obtain ⟨hdv, hd16, _⟩ := hexDigit_spec c d hd
    rw [hexValue_cons, hd, Option.getD_some, List.length_cons, pow_succ] at hb ⊢
    have hpos : 1 ≤ 16 ^ ds.length := Nat.one_le_two_pow.trans (Nat.pow_le_pow_left (by omega) _)
    have hrw : acc * (16 ^ ds.length * 16) + (d * 16 ^ ds.length + hexValue ds)
        = (acc * 16 + d) * 16 ^ ds.length + hexValue ds := by ring
    rw [hrw] at hb ⊢
    have hle : acc * 16 + d ≤ (acc * 16 + d) * 16 ^ ds.length := Nat.le_mul_of_pos_right _ hpos
    rw [List.cons_append, strtoulDigits, hdv]
    simp only []
    rw [if_pos hd16, if_neg (by simp; omega)]
    exact ih _ (fun x hx => h x (List.mem_cons_of_mem _ hx)) hb


theorem take_takeWhile_length (p : Char → Bool) (l : List Char) :
    l.take (l.takeWhile p).length = l.takeWhile p := by
  induction l with
  | nil => rfl
  | cons c cs ih =>
    rw [List.takeWhile_cons]
    split_ifs
    · rw [List.length_cons, List.take_succ_cons, ih]
    · rfl

theorem hexLine_split (l : List Char) (h : hexLine l = true) :
    ∃ c ds eol, l = (c :: ds) ++ eol ∧ leadingHex l = c :: ds
      ∧ (∀ x ∈ c :: ds, (hexDigit x).isSome = true) ∧ (c :: ds).length ≤ 8
      ∧ (eol = [] ∨ eol = [Char.ofNat 10] ∨ eol = [Char.ofNat 13, Char.ofNat 10]) := by
  simp only [hexLine, Bool.and_eq_true, decide_eq_true_eq, Bool.or_eq_true, beq_iff_eq] at h
  obtain ⟨⟨h1, h2⟩, h3⟩ := h
  have hall : ∀ x ∈ leadingHex l, (hexDigit x).isSome = true := by
    intro x hx
    unfold leadingHex at hx
    exact List.mem_takeWhile_imp (p := fun c => (hexDigit c).isSome) hx
  have hsplit : l = leadingHex l ++ l.drop (leadingHex l).length := by
    conv_lhs => rw [← List.take_append_drop (leadingHex l).length l]
    rw [leadingHex, take_takeWhile_length]
  cases hds : leadingHex l with
  | nil => rw [hds] at h1; simp at h1
  | cons c ds =>
    rw [hds] at hsplit hall h2 h3
    refine ⟨c, ds, _, hsplit, rfl, hall, h2, ?_⟩
    rcases h3 with (h | h) | h
    · exact Or.inl h
    · exact Or.inr (Or.inl h)
    · exact Or.inr (Or.inr h)

theorem strtoul_hexLine (l : List Char) (h : hexLine l = true) :
    hexWord l = hexValue (leadingHex l) := by
  obtain ⟨c, ds, eol, hl, hlead, hall, hlen, heol⟩ := hexLine_split l h
  have hc := hall c (List.mem_cons_self _ _)
  obtain ⟨d, hd⟩ := Option.isSome_iff_exists.mp hc
  obtain ⟨_, _, hsp⟩ := hexDigit_spec c d hd
  obtain ⟨hm, hp, _, _, _⟩ := hexDigit_ne c hc
  have hnul : ∀ x ∈ l, x ≠ NUL := by
    intro x hx
    rw [hl] at hx
    rcases List.mem_append.mp hx with h1 | h1
    · exact (hexDigit_ne x (hall x h1)).2.2.2.2
    · rcases heol with rfl | rfl | rfl
      · simp at h1
      · simp only [List.mem_singleton] at h1; subst h1; decide
      · simp only [List.mem_cons, List.mem_singleton, List.not_mem_nil, or_false] at h1
        rcases h1 with rfl | rfl <;> decide
  have hcs : cstring l = l := by
    rw [cstring, List.takeWhile_eq_self_iff]
    intro x hx
    simpa using hnul x hx
  have hstop : eol = [] ∨ ∃ c t, eol = c :: t ∧ digitValue c = none := by
    rcases heol with rfl | rfl | rfl
    · left; rfl
    · right; exact ⟨_, _, rfl, by decide⟩
    · right; exact ⟨_, _, rfl, by decide⟩
  have hlt := hexValue_lt (c :: ds) hall
  have h168 : 16 ^ (c :: ds).length ≤ 16 ^ 8 := Nat.pow_le_pow_right (by omega) hlen
  have hdig := strtoulDigits_hex eol hstop (c :: ds) 0 hall (by
    rw [Nat.zero_mul, Nat.zero_add]
    have : (16 : Nat) ^ 8 = 4294967296 := by norm_num
    simp only [ULONG_MAX]
    omega)
  rw [Nat.zero_mul, Nat.zero_add] at hdig
  have hx : ¬ (ds ++ eol).head? = some 'x' ∧ ¬ (ds ++ eol).head? = some 'X' := by
    cases ds with
    | nil =>
      rcases heol with rfl | rfl | rfl
      · simp
      · simp only [List.nil_append, List.head?_cons]; decide
      · simp only [List.nil_append, List.head?_cons]; decide
    | cons c2 ds2 =>
      have h2 := hexDigit_ne c2 (hall c2 (by simp))
      simp only [List.cons_append, List.head?_cons, Option.some.injEq]
      exact ⟨h2.2.2.1, h2.2.2.2.1⟩
  have hdw : List.dropWhile isspace (c :: (ds ++ eol)) = c :: (ds ++ eol) :=
    List.dropWhile_cons_of_neg (by simp [hsp])
  rw [List.cons_append] at hdig
  rw [hexWord, hcs, hlead, hl]
  simp only [strtoul, List.cons_append, hdw, List.head?_cons, Option.some.injEq, hm, hp,
    or_self, if_false, decide_False, List.tail_cons, hx.1, hx.2, and_false, hdig,
    Bool.false_eq_true]
  exact Nat.mod_eq_of_lt (by
    have : (16 : Nat) ^ 8 = 2 ^ 32 := by norm_num
    omega)


theorem hexDigit_ne_lf (c : Char) (h : (hexDigit c).isSome = true) : c ≠ Char.ofNat 10 := by
  rintro rfl
  revert h
  decide

theorem hexLine_fits (l : List Char) (h : hexLine l = true) : fitsBuffer 32 l = true := by
  obtain ⟨c, ds, eol, hl, _, hall, hlen, heol⟩ := hexLine_split l h
  simp only [fitsBuffer, Bool.and_eq_true, decide_eq_true_eq, List.all_eq_true, bne_iff_ne]
  subst hl
  rcases heol with rfl | rfl | rfl
  · refine ⟨by simp only [List.append_nil]; omega, ?_⟩
    intro x hx
    rw [List.append_nil] at hx
    exact hexDigit_ne_lf x (hall x (List.mem_of_mem_dropLast hx))
  · refine ⟨by simp only [List.length_append, List.length_singleton]; omega, ?_⟩
    intro x hx
    rw [List.dropLast_concat] at hx
    exact hexDigit_ne_lf x (hall x hx)
  · refine ⟨by simp only [List.length_append, List.length_cons, List.length_nil] at hlen ⊢; omega,
      ?_⟩
    intro x hx
    rw [show (c :: ds) ++ [Char.ofNat 13, Char.ofNat 10]
        = ((c :: ds) ++ [Char.ofNat 13]) ++ [Char.ofNat 10] by simp, List.dropLast_concat] at hx
    rcases List.mem_append.mp hx with h1 | h1
    · exact hexDigit_ne_lf x (hall x h1)
    · simp only [List.mem_singleton] at h1
      subst h1
      decide

/-- C15. Weight region parsing: for every list of lines each made of 1 to 8
hexadecimal digits (no radix prefix) followed by the line end, every content of
the line buffer on entry and every capacity `max_lines`, with
`k = min max_lines (number of lines)` and a destination buffer of at least
`4 * k` bytes, `sd_read_hex` returns 0 and leaves in the destination buffer the
`4 * k` bytes of `hexPayload` (the big-endian word of the base-16 value of line
`j` at offset `4 * j`, in line order) followed by the old content from offset
`4 * k` on, untouched. -/
theorem sd_read_hex_eq_reference (lines : List (List Char)) (line_buf : List Char)
    (dest_buf : List Nat) (max_lines : Nat) (hl : ∀ l ∈ lines, hexLine l = true)
    (hd : 4 * min max_lines lines.length ≤ dest_buf.length) :
    sd_read_hex (some lines) line_buf dest_buf max_lines
      = (0, hexPayload max_lines lines ++ dest_buf.drop (4 * min max_lines lines.length))
    ∧ (hexPayload max_lines lines).length = 4 * min max_lines lines.length := by
  constructor
  · have h := readHexLoop_eq max_lines lines line_buf [] dest_buf 0 rfl (Nat.zero_le _)
      (by simpa using hd)
    simp only [List.nil_append, Nat.sub_zero] at h
    have hw : (lines.take max_lines).map (fun l => bigEndian4 (hexWord l))
        = (lines.take max_lines).map (fun l => bigEndian4 (hexValue (leadingHex l))) := by
      apply List.map_congr_left
      intro l hm
      rw [strtoul_hexLine l (hl l (List.mem_of_mem_take hm))]
    simp only [sd_read_hex, fgetsReturns_fits 32 lines (fun l hm => hexLine_fits l (hl l hm)), h,
      hw, hexPayload]
  · unfold hexPayload
    rw [List.length_flatten, List.map_map]
    have : ((fun l : List Nat => l.length) ∘ fun l => bigEndian4 (hexValue (leadingHex l)))
        = fun _ => 4 := by
      funext l; simp [bigEndian4]
    rw [this]
    simp [Nat.mul_comm]

/-- Witness for C15: four weight lines with capacity 3. -/
theorem sd_read_hex_eq_reference_witness :
    sd_read_hex (some ["1A".data ++ [Char.ofNat 10], "0".data ++ [Char.ofNat 13, Char.ofNat 10],
          "FFFFFFFF".data, "7".data]) []
        (List.replicate 16 9) 3
      = (0, [0, 0, 0, 26, 0, 0, 0, 0, 255, 255, 255, 255, 9, 9, 9, 9]) :=
  (sd_read_hex_eq_reference ["1A".data ++ [Char.ofNat 10], "0".data ++ [Char.ofNat 13, Char.ofNat 10],
          "FFFFFFFF".data, "7".data] []
    (List.replicate 16 9) 3 (by decide) (by decide)).1.trans (by decide)

/-! ## Further lemmas and theorems on the aggregator -/

theorem getD_set_ne (l : List Nat) (i j v : Nat) (h : i ≠ j) :
    (l.set i v).getD j 0 = l.getD j 0 := by
  simp [List.getD_eq_getElem?_getD, List.getElem?_set_ne h]

theorem written_detecting (s : Aggregator) (r : Nat) (h : s.current_state = sys_state.detecting) :
    written s r = if r = s.last_result then r else 10 := by
  unfold written
  rw [if_neg (by rw [h]; decide)]

theorem step_slot (s : Aggregator) (r : Nat) (hw : s.result_window.length = 40)
    (hi : s.window_idx < 40) :
    (step s r).1.result_window.getD s.window_idx 0 = written s r := by
  rw [step_window, getD_set_eq _ _ _ _ (by omega), if_pos rfl]

theorem step_length (s : Aggregator) (r : Nat) :
    (step s r).1.result_window.length = s.result_window.length := by
  rw [step_window, List.length_set]

theorem step_idx_mod (s : Aggregator) (r : Nat) (hi : s.window_idx < 40) :
    (step s r).1.window_idx = (s.window_idx + 1) % 40 := by
  rw [step_idx]; simp only [WINDOW_SIZE]; split_ifs <;> omega

/-- C16. Raw-versus-raw debounce: a notification processed in `detecting` stores
in the slot at the write index the new raw code if it equals the previous raw
code and silence otherwise, whatever the window holds; every notification, in
either state, replaces the stored previous raw code by the new raw code; so the
notification after one that leaves the state `detecting` (a stored-as-silence
frame, or the last frame of the cooldown) records its code `b` exactly when `b`
repeats the raw code `r` of that notification. -/
theorem raw_debounce (s : Aggregator) (r : Nat)
    (hw : s.result_window.length = WINDOW_SIZE) (hi : s.window_idx < WINDOW_SIZE) :
    (s.current_state = sys_state.detecting →
        (step s r).1.result_window.getD s.window_idx 0 = if r = s.last_result then r else 10)
    ∧ (step s r).1.last_result = r
    ∧ (∀ b, (step s r).1.current_state = sys_state.detecting →
        (step (step s r).1 b).1.result_window.getD (step s r).1.window_idx 0
            = (if b = r then b else 10)
        ∧ (b ≠ 10 →
            ((step (step s r).1 b).1.result_window.getD (step s r).1.window_idx 0 = b
              ↔ b = r))) := by
  have hw40 : s.result_window.length = 40 := hw
  have hi40 : s.window_idx < 40 := hi
  refine ⟨?_, rfl, ?_⟩
  · intro hd
    rw [step_slot s r hw40 hi40, written_detecting s r hd]
  · intro b hd
    have h1 : (step (step s r).1 b).1.result_window.getD (step s r).1.window_idx 0
        = if b = r then b else 10 := by
      rw [step_slot _ b (by rw [step_length]; exact hw40)
        (by rw [step_idx_mod s r hi40]; exact Nat.mod_lt _ (by omega)),
        written_detecting _ b hd, step_last]
    refine ⟨h1, ?_⟩
    intro hb
    rw [h1]
    split_ifs with h
    · exact ⟨fun _ => h, fun _ => rfl⟩
    · exact ⟨fun e => absurd e.symm hb, fun e => absurd e h⟩

/-- Witness for C16: `yes` twice on the initial state: the first is stored as
silence, the second is recorded. -/
theorem raw_debounce_witness :
    (step (step Aggregator.init 0).1 0).1.result_window.getD
        (step Aggregator.init 0).1.window_idx 0 = (if (0 : Nat) = 0 then 0 else 10) :=
  ((raw_debounce Aggregator.init 0 (by decide) (by decide)).2.2 0 (by decide)).1

theorem run_idx (codes : List Nat) :
    ∀ s : Aggregator, s.window_idx < 40 →
      (run s codes).window_idx = (s.window_idx + codes.length) % 40 := by
  induction codes with
  | nil => intro s hi; simp only [run, List.length_nil, Nat.add_zero]; omega
  | cons r rs ih =>
    intro s hi
    have h1 := step_idx_mod s r hi
    rw [run, ih _ (by rw [h1]; exact Nat.mod_lt _ (by omega)), h1, List.length_cons]
    omega

/-- C17. Circular-window frame property: a notification leaves every window
slot other than the one at the write index as it was, keeps the window length,
and moves the write index to `(old index + 1) mod WINDOW_SIZE`; hence over any
40 notifications the write index before the `k`-th of them is
`(index + k) mod 40`, every slot is the write index of exactly one of them, and
the write index is back where it started. -/
theorem circular_window_frame (s : Aggregator) (r : Nat) (hi : s.window_idx < WINDOW_SIZE) :
    (∀ i, i ≠ s.window_idx →
        (step s r).1.result_window.getD i 0 = s.result_window.getD i 0)
    ∧ (step s r).1.result_window.length = s.result_window.length
    ∧ (step s r).1.window_idx = (s.window_idx + 1) % WINDOW_SIZE
    ∧ (∀ codes : List Nat, codes.length = WINDOW_SIZE →
        (∀ k, k < WINDOW_SIZE →
          (run s (codes.take k)).window_idx = (s.window_idx + k) % WINDOW_SIZE)
        ∧ (∀ i, i < WINDOW_SIZE →
            ∃! k, k < WINDOW_SIZE ∧ (run s (codes.take k)).window_idx = i)
        ∧ (run s codes).window_idx = s.window_idx) := by
  have hi40 : s.window_idx < 40 := hi
  refine ⟨?_, step_length s r, step_idx_mod s r hi40, ?_⟩
  · intro i hne
    rw [step_window, getD_set_ne _ _ _ _ (fun e => hne e.symm)]
  · intro codes hl
    have hl40 : codes.length = 40 := hl
    have hk : ∀ k, k < 40 → (run s (codes.take k)).window_idx = (s.window_idx + k) % 40 := by
      intro k hk
      rw [run_idx _ s hi40, List.length_take, hl40, Nat.min_eq_left (Nat.le_of_lt hk)]
    refine ⟨hk, ?_, ?_⟩
    · intro i hi2
      have hi3 : i < 40 := hi2
      refine ⟨(i + 40 - s.window_idx) % 40, ⟨Nat.mod_lt _ (by omega), ?_⟩, ?_⟩
      · rw [hk _ (Nat.mod_lt _ (by omega))]; omega
      · rintro k ⟨hk1, hk2⟩
        have hk3 : k < 40 := hk1
        rw [hk k hk3] at hk2
        omega
    · rw [run_idx _ s hi40, hl40]; omega

/-- Witness for C17: a `yes` frame on the initial state. -/
theorem circular_window_frame_witness :
    (step Aggregator.init 0).1.window_idx = (Aggregator.init.window_idx + 1) % WINDOW_SIZE :=
  (circular_window_frame Aggregator.init 0 (by decide)).2.2.1

theorem maxResultLoop_inv (cnt : List Nat) :
    ∀ k acc, k ≤ 12 → MaxInv cnt (12 - k) acc → MaxInv cnt 12 (maxResultLoop cnt k acc) := by
  intro k
  induction k with
  | zero => intro acc _ h; exact h
  | succ k ih =>
    rintro ⟨m, mc⟩ hk ⟨h1, h2, h3⟩
    simp only at h1 h2 h3
    rw [maxResultLoop]
    simp only []
    split_ifs with hgt
    · apply ih _ (by omega)
      refine ⟨?_, ?_, ?_⟩
      · intro j hj
        simp only
        by_cases hj2 : j < 12 - (k + 1)
        · have := h1 j hj2; omega
        · have : j = 12 - (k + 1) := by omega
          rw [this]
      · intro j hj
        simp only at hj ⊢
        have := h1 j hj; omega
      · right; exact ⟨by simp only; omega, rfl⟩
    · apply ih _ (by omega)
      refine ⟨?_, h2, ?_⟩
      · intro j hj
        simp only
        by_cases hj2 : j < 12 - (k + 1)
        · exact h1 j hj2
        · have : j = 12 - (k + 1) := by omega
          rw [this]; omega
      · rcases h3 with h3 | h3
        · left; exact h3
        · right; simp only at h3 ⊢; exact ⟨by omega, h3.2⟩

/-- C18. Most-frequent class: for every count vector, the pair
`(max_result, max_result_count)` that lines 199-207 compute is such that
`max_result` is a class index below 12 whose count is `max_result_count`, no
class has a larger count, and every class with a smaller index has a strictly
smaller count (ties go to the lowest index); the block leaves the aggregator
state (window, counts, detection state) as it was. -/
theorem max_result_first_maximum (v : MainVars) :
    (maxResultBlock v).max_result < 12
    ∧ v.agg.result_count.getD (maxResultBlock v).max_result 0 = (maxResultBlock v).max_result_count
    ∧ (∀ i, i < 12 → v.agg.result_count.getD i 0 ≤ (maxResultBlock v).max_result_count)
    ∧ (∀ i, i < (maxResultBlock v).max_result →
        v.agg.result_count.getD i 0 < (maxResultBlock v).max_result_count)
    ∧ (maxResultBlock v).agg = v.agg := by
  have h := maxResultLoop_inv v.agg.result_count 12 (0, 0) (Nat.le_refl _)
    ⟨fun j hj => by omega, fun j hj => by simp at hj, Or.inl ⟨rfl, rfl⟩⟩
  obtain ⟨h1, h2, h3⟩ := h
  have hm : (maxResultBlock v).max_result = (maxResult v.agg.result_count).1 := rfl
  have hc : (maxResultBlock v).max_result_count = (maxResult v.agg.result_count).2 := rfl
  rw [hm, hc]
  unfold maxResult
  refine ⟨?_, ?_, h1, h2, rfl⟩
  · rcases h3 with h3 | h3
    · rw [h3.2]; omega
    · exact h3.1
  · rcases h3 with h3 | h3
    · have := h1 0 (by omega)
      rw [h3.2, h3.1] at *
      omega
    · exact h3.2

theorem scanList_hitClass (xs : List Nat) :
    ∀ ct cr, (cr ≠ 10 → ct < 20) → ct + xs.length < 256 →
      scanClass (scanList sys_state.detecting xs ct cr) = hitClass xs ct cr := by
  induction xs with
  | nil =>
    intro ct cr h1 _
    have hn : ¬ (cr ≠ 10 ∧ DETECTING_CONS_RESULT_CNT ≤ ct + lead cr []) := by
      rintro ⟨a, b⟩
      have := h1 a
      simp only [lead, DETECTING_CONS_RESULT_CNT] at b
      omega
    rw [hitClass, if_neg hn]
    simp [scanList, scanClass, lead, runs]
  | cons x xs ih =>
    intro ct cr h1 h2
    simp only [List.length_cons] at h2
    by_cases h : cr = x
    · subst h
      have hm : (ct + 1) % 256 = ct + 1 := Nat.mod_eq_of_lt (by omega)
      rw [scanList]
      simp only [if_true, hm]
      have hl : lead cr (cr :: xs) = lead cr xs + 1 := by simp [lead]
      by_cases hf : ct + 1 = 20 ∧ cr ≠ 10
      · have hf2 : ct + 1 = DETECTING_CONS_RESULT_CNT ∧ cr ≠ 10 ∧ True := ⟨hf.1, hf.2, trivial⟩
        rw [if_pos hf2, hitClass, if_pos ⟨hf.2, by rw [hl]; simp only [DETECTING_CONS_RESULT_CNT]; omega⟩]
        rfl
      · have hf2 : ¬ (ct + 1 = DETECTING_CONS_RESULT_CNT ∧ cr ≠ 10 ∧ True) :=
          fun h => hf ⟨h.1, h.2.1⟩
        rw [if_neg hf2]
        rw [ih (ct + 1) cr (by intro h10; have := h1 h10; by_contra h3; exact hf ⟨by omega, h10⟩)
          (by omega)]
        rw [hitClass, hitClass, hl, List.drop_succ_cons,
          show ct + 1 + lead cr xs = ct + (lead cr xs + 1) by omega]
    · have hx : ¬ x = cr := fun e => h e.symm
      have hf2 : ¬ ((0 : Nat) = DETECTING_CONS_RESULT_CNT ∧ x ≠ 10 ∧ True) :=
        fun h => by simp at h
      have hl : lead cr (x :: xs) = 0 := by simp [lead, hx]
      have hn : ¬ (cr ≠ 10 ∧ DETECTING_CONS_RESULT_CNT ≤ ct + lead cr (x :: xs)) := by
        rintro ⟨a, b⟩
        have := h1 a
        rw [hl] at b
        simp only [DETECTING_CONS_RESULT_CNT] at b
        omega
      rw [scanList]
      simp only [h, if_false]
      rw [if_neg hf2, ih 0 x (by intro; omega) (by omega)]
      rw [hitClass, hitClass, if_neg hn, hl, List.drop_zero, runs_cons, List.find?_cons]
      by_cases hc : x ≠ 10 ∧ DETECTING_CONS_RESULT_CNT ≤ 0 + lead x xs
      · rw [if_pos hc]
        have : decide ((x, 1 + lead x xs).1 ≠ 10
            ∧ DETECTING_CONS_RESULT_CNT + 1 ≤ (x, 1 + lead x xs).2) = true := by
          rw [decide_eq_true_eq]; exact ⟨hc.1, by have := hc.2; omega⟩
        rw [this]
        rfl
      · rw [if_neg hc]
        have : decide ((x, 1 + lead x xs).1 ≠ 10
            ∧ DETECTING_CONS_RESULT_CNT + 1 ≤ (x, 1 + lead x xs).2) = false := by
          rw [decide_eq_false_iff_not]
          rintro ⟨a, b⟩
          exact hc ⟨a, by simp only at b; omega⟩
        rw [this]

theorem scanClass_firingRun (s : Aggregator) (hw : s.result_window.length = 40)
    (hi : s.window_idx < 40) :
    scanClass (scanList sys_state.detecting (chrono s) 0 (s.result_window.getD s.window_idx 0))
      = (firingRun (chrono s)).map Prod.fst := by
  obtain ⟨xs, hxs, hlen⟩ := chrono_eq_cons s hw hi
  rw [hxs, scanList_head, scanList_hitClass xs 1 _ (by intro; omega) (by omega), hitClass,
    firingRun, runs_cons]
  simp only []
  split_ifs with h
  · rfl
  · rfl


/-- C19. Exact firing condition of the consensus scan: on a notification
processed in `detecting` with the flag clear on entry, the scan raises
`print_flag` if and only if, in the updated window read oldest to newest from
the new write index, the first maximal run is of a non-silence class and has at
least 20 slots or some later maximal run of a non-silence class has at least 21
slots; otherwise the flag stays 0; and what the notification prints is the
label of the class of the first such run (`firingRun`), with the counts. -/
theorem exact_firing_condition (s : Aggregator) (r : Nat)
    (hw : s.result_window.length = WINDOW_SIZE) (hi : s.window_idx < WINDOW_SIZE)
    (hd : s.current_state = sys_state.detecting) (hf : s.print_flag = 0) :
    ((consensusScan (windowUpdate s r)).print_flag = 1 ↔
        ∃ p rest, runs (chrono (windowUpdate s r)) = p :: rest ∧
          ((p.1 ≠ 10 ∧ DETECTING_CONS_RESULT_CNT ≤ p.2)
            ∨ ∃ q ∈ rest, q.1 ≠ 10 ∧ DETECTING_CONS_RESULT_CNT + 1 ≤ q.2))
    ∧ ((consensusScan (windowUpdate s r)).print_flag = 1
        ∨ (consensusScan (windowUpdate s r)).print_flag = 0)
    ∧ (step s r).2
        = (firingRun (chrono (windowUpdate s r))).map
            (fun p => { counts := (windowUpdate s r).result_count
                        word := label.getD p.1 "" }) := by
  have hw1 : (windowUpdate s r).result_window.length = 40 := by
    rw [windowUpdate_window]; simpa using hw
  have hi1 : (windowUpdate s r).window_idx < 40 := by
    rw [windowUpdate_idx]; simp only [WINDOW_SIZE] at hi ⊢; split_ifs <;> omega
  obtain ⟨_, hcr, hpf⟩ := consensusScan_eq (windowUpdate s r) hw1 hi1
  have hfi := fires_iff (windowUpdate s r) hw1 hi1
  have hcl := scanClass_firingRun (windowUpdate s r) hw1 hi1
  rw [windowUpdate_state, hd] at hcr hpf
  rw [windowUpdate_flag, hf] at hpf
  have hstep := (step_detecting s r hd).1
  cases hb : (scanList sys_state.detecting (chrono (windowUpdate s r)) 0
      ((windowUpdate s r).result_window.getD (windowUpdate s r).window_idx 0)).2.2 with
  | true =>
    rw [hb] at hpf hfi
    simp only [if_true] at hpf
    have hF : Fires (chrono (windowUpdate s r)) := hfi.mp rfl
    refine ⟨⟨fun _ => hF, fun _ => hpf⟩, Or.inl hpf, ?_⟩
    rw [scanClass, hb] at hcl
    simp only [if_true] at hcl
    rw [hstep, hpf, if_pos (by decide)]
    cases hfr : firingRun (chrono (windowUpdate s r)) with
    | none => rw [hfr] at hcl; cases hcl
    | some p =>
      rw [hfr] at hcl
      simp only [Option.map_some', Option.some.injEq] at hcl
      simp only [Option.map_some', hcr, hcl]
  | false =>
    rw [hb] at hpf hfi
    simp only [Bool.false_eq_true, if_false] at hpf
    have hF : ¬ Fires (chrono (windowUpdate s r)) := fun h => by
      have := hfi.mpr h; cases this
    refine ⟨⟨fun h => (by rw [hpf] at h; cases h), fun h => absurd h hF⟩, Or.inr hpf, ?_⟩
    rw [scanClass, hb] at hcl
    simp only [Bool.false_eq_true, if_false] at hcl
    rw [hstep, hpf, if_neg (by decide)]
    cases hfr : firingRun (chrono (windowUpdate s r)) with
    | none => rfl
    | some p => rw [hfr] at hcl; cases hcl

/-- Witness for C19: the 22nd frame of a constant `yes` stream (the run of
`yes` is a later run and reaches 21 slots). -/
theorem exact_firing_condition_witness :
    (step (run Aggregator.init (List.replicate 21 0)) 0).2
      = (firingRun (chrono (windowUpdate (run Aggregator.init (List.replicate 21 0)) 0))).map
          (fun p => { counts := (windowUpdate (run Aggregator.init (List.replicate 21 0))
                        0).result_count
                      word := label.getD p.1 "" }) :=
  (exact_firing_condition (run Aggregator.init (List.replicate 21 0)) 0
    (by decide) (by decide) (by decide) (by decide)).2.2

theorem chrono_step (s : Aggregator) (r : Nat) (hw : s.result_window.length = 40)
    (hi : s.window_idx < 40) :
    chrono (step s r).1 = (chrono s).tail ++ [written s r] := by
  have hi2 : s.window_idx < s.result_window.length := by omega
  have hset : s.result_window.set s.window_idx (written s r)
      = s.result_window.take s.window_idx ++ written s r :: s.result_window.drop (s.window_idx + 1) := by
    rw [List.set_eq_take_append_cons_drop, if_pos hi2]
  have hlt : (s.result_window.take s.window_idx).length = s.window_idx := by
    rw [List.length_take]; omega
  have hc : chrono s = s.result_window.getD s.window_idx 0
      :: (s.result_window.drop (s.window_idx + 1) ++ s.result_window.take s.window_idx) := by
    rw [chrono, List.drop_eq_getElem_cons hi2, List.getD_eq_getElem _ _ hi2, List.cons_append]
  rw [hc, List.tail_cons, chrono, step_window, step_idx, hset]
  by_cases h : s.window_idx + 1 = 40
  · rw [if_pos h]
    have hd : s.result_window.drop (s.window_idx + 1) = [] := by
      rw [List.drop_eq_nil_iff]; omega
    rw [hd]
    simp
  · rw [if_neg h]
    rw [List.drop_append_eq_append_drop, List.take_append_eq_append_take, hlt]
    have h1 : List.drop (s.window_idx + 1) (List.take s.window_idx s.result_window) = [] := by
      rw [List.drop_eq_nil_iff, hlt]; omega
    have h2 : List.take (s.window_idx + 1) (List.take s.window_idx s.result_window)
        = List.take s.window_idx s.result_window := by
      rw [List.take_take]; congr 1; omega
    rw [h1, h2, show s.window_idx + 1 - s.window_idx = 1 by omega]
    simp

theorem runs_length_le_aux : ∀ n (xs : List Nat), xs.length = n → ∀ p ∈ runs xs, p.2 ≤ xs.length := by
  intro n
  induction n using Nat.strong_induction_on with
  | _ n ih =>
    intro xs hn
    cases xs with
    | nil => simp [runs]
    | cons x xs =>
      intro p hp
      rw [runs_cons] at hp
      have hl := lead_le x xs
      rcases List.mem_cons.mp hp with h | h
      · subst h; simp only [List.length_cons]; omega
      · simp only [List.length_cons] at hn ⊢
        have := ih (xs.drop (lead x xs)).length (by simp; omega) _ rfl p h
        simp only [List.length_drop] at this
        omega

theorem runs_length_le (xs : List Nat) : ∀ p ∈ runs xs, p.2 ≤ xs.length :=
  runs_length_le_aux xs.length xs rfl

theorem lead_replicate (k : Nat) (tl : List Nat) : k ≤ lead 10 (List.replicate k 10 ++ tl) := by
  induction k with
  | zero => exact Nat.zero_le _
  | succ k ih =>
    rw [List.replicate_succ, List.cons_append, lead, if_pos rfl]
    omega

theorem not_fires_prefix (m : Nat) (tl : List Nat) (hm : 1 ≤ m) (ht : tl.length ≤ 20) :
    ¬ Fires (List.replicate m 10 ++ tl) := by
  obtain ⟨k, rfl⟩ : ∃ k, m = k + 1 := ⟨m - 1, by omega⟩
  rw [List.replicate_succ, List.cons_append]
  rintro ⟨p, rest, e, hf⟩
  rw [runs_cons] at e
  simp only [List.cons.injEq] at e
  obtain ⟨e1, e2⟩ := e
  subst e1 e2
  rcases hf with ⟨a, _⟩ | ⟨q, hq, _, b⟩
  · exact a rfl
  · have h1 := runs_length_le _ q hq
    have h2 := lead_replicate k tl
    have h3 := lead_le 10 (List.replicate k 10 ++ tl)
    simp only [List.length_drop, List.length_append, List.length_replicate] at h1 h3
    have hb : 21 ≤ q.2 := b
    omega

theorem step_no_fire (s : Aggregator) (r : Nat) (hI : Inv s) (hr : r < 12)
    (hd : s.current_state = sys_state.detecting)
    (hnf : ¬ Fires (chrono (step s r).1)) :
    (step s r).2 = none ∧ (step s r).1.current_state = sys_state.detecting := by
  have hI1 := windowUpdate_inv s r hI hr
  have hch : chrono (step s r).1 = chrono (windowUpdate s r) := rfl
  rw [hch] at hnf
  have hk := consensusScan_flag_keep (windowUpdate s r) hI1.window_length hI1.idx_lt
    (fun h => hnf h.2)
  rw [windowUpdate_flag, hI.flag_clear hd] at hk
  obtain ⟨h1, _, _, h4⟩ := step_detecting s r hd
  constructor
  · rw [h1, hk]; simp
  · rw [h4, hk]; simp


theorem chrono_length (s : Aggregator) (hw : s.result_window.length = 40)
    (hi : s.window_idx < 40) : (chrono s).length = 40 := by
  simp [chrono, hw]; omega

theorem step_credit (c : Nat) (s : Aggregator) (r : Nat) (hr : r < 12)
    (h : Credit (c + 1) s) : (step s r).2 = none ∧ Credit c (step s r).1 := by
  obtain ⟨hI, hcase⟩ := h
  have hI1 := step_inv s r hI hr
  have hcs := chrono_step s r hI.window_length hI.idx_lt
  have hlen := chrono_length s hI.window_length hI.idx_lt
  rcases hcase with ⟨hd, hc, tl, htl⟩ | ⟨hfs, hlt, hle, hd, hhd⟩
  · have hch : chrono (step s r).1 = List.replicate (20 + c) 10 ++ (tl ++ [written s r]) := by
      rw [hcs, htl, show 20 + (c + 1) = (20 + c) + 1 by omega, List.replicate_succ,
        List.cons_append, List.tail_cons, List.append_assoc]
    have htll : tl.length = 40 - (20 + (c + 1)) := by
      rw [htl] at hlen
      simp only [List.length_append, List.length_replicate] at hlen
      omega
    have hnf : ¬ Fires (chrono (step s r).1) := by
      rw [hch]
      exact not_fires_prefix _ _ (by omega) (by simp; omega)
    obtain ⟨h1, h2⟩ := step_no_fire s r hI hr hd hnf
    exact ⟨h1, hI1, Or.inl ⟨h2, by omega, _, hch⟩⟩
  · obtain ⟨h1, _, h3, h4, h5⟩ := step_fill_silence s r hfs
    have hm : (s.fill_silence_cnt + 1) % 256 = s.fill_silence_cnt + 1 :=
      Nat.mod_eq_of_lt (by omega)
    rw [hm] at h3 h4
    have hdl : hd.length = 40 - s.fill_silence_cnt := by
      rw [hhd] at hlen
      simp only [List.length_append, List.length_replicate] at hlen
      omega
    obtain ⟨a, hd2, rfl⟩ : ∃ a hd2, hd = a :: hd2 := by
      cases hd with
      | nil => simp at hdl; omega
      | cons a hd2 => exact ⟨a, hd2, rfl⟩
    have hch : chrono (step s r).1 = hd2 ++ List.replicate (s.fill_silence_cnt + 1) 10 := by
      rw [hcs, hhd, h5, List.cons_append, List.tail_cons, List.append_assoc,
        List.replicate_succ']
    refine ⟨h1, hI1, ?_⟩
    by_cases h40 : s.fill_silence_cnt + 1 = 40
    · left
      rw [if_pos h40] at h4
      refine ⟨h4, by omega, List.replicate (20 - c) 10, ?_⟩
      have hd2n : hd2 = [] := by
        simp only [List.length_cons] at hdl
        exact List.length_eq_zero.mp (by omega)
      rw [hch, hd2n, List.nil_append, h40, ← List.replicate_add]
      congr 1
      omega
    · right
      rw [if_neg h40] at h4
      rw [h3]
      exact ⟨h4, by omega, by omega, hd2, hch⟩

theorem fired_credit (s : Aggregator) (r : Nat) (hI : Inv s) (hr : r < 12)
    (hf : (step s r).2 ≠ none) : Credit 60 (step s r).1 := by
  obtain ⟨_, h2, h3⟩ :=
    fired_enters_cooldown s r hI.window_length hI.idx_lt hI.flag_clear hf
  refine ⟨step_inv s r hI hr, Or.inr ⟨h2, by omega, by omega, chrono (step s r).1, ?_⟩⟩
  rw [h3]; simp

theorem events_credit (codes : List Nat) :
    ∀ (c : Nat) (s : Aggregator), Credit c s → (∀ x ∈ codes, x < 12) →
      ∀ i, i < c → (events s codes).getD i none = none := by
  induction codes with
  | nil => intro c s _ _ i _; rfl
  | cons r rs ih =>
    intro c s hc hr i hi
    obtain ⟨c2, rfl⟩ : ∃ c2, c = c2 + 1 := ⟨c - 1, by omega⟩
    obtain ⟨h1, h2⟩ := step_credit c2 s r (hr r (by simp)) hc
    cases i with
    | zero => simp only [events, List.getD_cons_zero]; exact h1
    | succ i =>
      simp only [events, List.getD_cons_succ]
      exact ih c2 _ h2 (fun x hx => hr x (by simp [hx])) i (by omega)

theorem first_step_credit (r : Nat) (hr : r < 12) :
    (step Aggregator.init r).2 = none ∧ Credit 20 (step Aggregator.init r).1 := by
  have hwr : written Aggregator.init r = 10 := by
    unfold written
    split_ifs with h1 h2
    · rfl
    · exact h2
    · rfl
  have hch : chrono (step Aggregator.init r).1 = List.replicate 40 10 := by
    rw [chrono_step Aggregator.init r rfl (by decide), hwr]
    rfl
  have hnf : ¬ Fires (chrono (step Aggregator.init r).1) := by
    rw [hch]
    have := not_fires_prefix 40 [] (by omega) (by simp)
    simpa using this
  obtain ⟨h1, h2⟩ := step_no_fire Aggregator.init r init_inv hr rfl hnf
  exact ⟨h1, step_inv _ r init_inv hr, Or.inl ⟨h2, by omega, [], by rw [hch]; simp⟩⟩

theorem events_getD_add (codes : List Nat) :
    ∀ (s : Aggregator) (k j : Nat),
      (events s codes).getD (k + j) none
        = (events (run s (codes.take k)) (codes.drop k)).getD j none := by
  induction codes with
  | nil => intro s k j; simp [events, run]
  | cons r rs ih =>
    intro s k j
    cases k with
    | zero => simp [run]
    | succ k =>
      rw [show k + 1 + j = (k + j) + 1 by omega]
      simp only [events, List.getD_cons_succ, List.take_succ_cons, List.drop_succ_cons, run]
      exact ih _ k j

theorem events_length (codes : List Nat) : ∀ s : Aggregator, (events s codes).length = codes.length := by
  induction codes with
  | nil => intro s; rfl
  | cons r rs ih => intro s; simp [events, ih]


/-- C20. Minimum spacing of detection events: for every stream of codes in
`0..11` fed to the initial aggregator, none of the first 21 notifications
prints a detection, and two notifications that both print one are at least
`FILL_SILENCE_MAX_CNT + DETECTING_CONS_RESULT_CNT + 1 = 61` notifications
apart. -/
theorem detection_spacing (codes : List Nat) (h : ∀ c ∈ codes, c < 12) :
    (∀ i, i < 21 → (events Aggregator.init codes).getD i none = none)
    ∧ (∀ a b, a < b → (events Aggregator.init codes).getD a none ≠ none →
        (events Aggregator.init codes).getD b none ≠ none →
        a + (FILL_SILENCE_MAX_CNT + DETECTING_CONS_RESULT_CNT + 1) ≤ b) := by
  constructor
  · intro i hi
    cases codes with
    | nil => rfl
    | cons r rs =>
      obtain ⟨h1, h2⟩ := first_step_credit r (h r (by simp))
      cases i with
      | zero => simp only [events, List.getD_cons_zero]; exact h1
      | succ i =>
        simp only [events, List.getD_cons_succ]
        exact events_credit rs 20 _ h2 (fun x hx => h x (by simp [hx])) i (by omega)
  · intro a b hab ha hb
    have hal : a < codes.length := by
      by_contra hc
      apply ha
      rw [List.getD_eq_default _ _ (by rw [events_length]; omega)]
    have hIa : Inv (run Aggregator.init (codes.take a)) :=
      run_inv _ _ init_inv (fun x hx => h x (List.mem_of_mem_take hx))
    have hra : codes.get ⟨a, hal⟩ < 12 := h _ (List.get_mem _ _ _)
    have hea : (events Aggregator.init codes).getD a none
        = (step (run Aggregator.init (codes.take a)) (codes.get ⟨a, hal⟩)).2 := by
      have := events_getD_add codes Aggregator.init a 0
      rw [Nat.add_zero] at this
      rw [this, List.drop_eq_getElem_cons hal]
      rfl
    rw [hea] at ha
    have hcr := fired_credit _ _ hIa hra ha
    rw [← run_take_succ codes Aggregator.init a hal] at hcr
    by_contra hlt
    apply hb
    have hbe := events_getD_add codes Aggregator.init (a + 1) (b - (a + 1))
    rw [show a + 1 + (b - (a + 1)) = b by omega] at hbe
    rw [hbe]
    exact events_credit _ 60 _ hcr (fun x hx => h x (List.mem_of_mem_drop hx)) _
      (by simp only [FILL_SILENCE_MAX_CNT, DETECTING_CONS_RESULT_CNT] at hlt; omega)

/-- Witness for C20: a constant `yes` stream of 83 frames prints a detection on
notification 22 and the next on notification 83, 61 notifications later. -/
theorem detection_spacing_witness :
    (events Aggregator.init (List.replicate 83 0)).getD 21 none ≠ none
    ∧ (events Aggregator.init (List.replicate 83 0)).getD 82 none ≠ none
    ∧ 21 + (FILL_SILENCE_MAX_CNT + DETECTING_CONS_RESULT_CNT + 1) ≤ 82 :=
  ⟨by decide, by decide,
    (detection_spacing (List.replicate 83 0) (by decide)).2 21 82 (by decide) (by decide)
      (by decide)⟩

/-! ## Access safety of the aggregator -/

theorem getElem?_of_lt (l : List Nat) (i : Nat) (h : i < l.length) :
    l[i]? = some (l.getD i 0) := by
  rw [List.getD_eq_getElem?_getD, List.getElem?_eq_getElem h]
  rfl

theorem inv_count_le (s : Aggregator) (h : Inv s) (c : Nat) :
    s.result_count.getD c 0 ≤ 40 := by
  by_cases hc : c < 12
  · rw [h.count_eq c hc]
    have := List.count_le_length c s.result_window
    have hl : s.result_window.length = 40 := h.window_length
    omega
  · rw [List.getD_eq_default _ _ (by have := h.count_length; omega)]
    omega

theorem inv_slot_lt (s : Aggregator) (h : Inv s) :
    s.result_window.getD s.window_idx 0 < 12 :=
  h.window_lt _ (getD_mem _ _ (by
    have h40 : s.result_window.length = 40 := h.window_length
    have hi : s.window_idx < 40 := h.idx_lt
    omega))

theorem inv_count_pos (s : Aggregator) (h : Inv s) :
    1 ≤ s.result_count.getD (s.result_window.getD s.window_idx 0) 0 := by
  rw [h.count_eq _ (inv_slot_lt s h)]
  exact List.count_pos_iff.mpr (getD_mem _ _ (by
    have h40 : s.result_window.length = 40 := h.window_length
    have hi : s.window_idx < 40 := h.idx_lt
    omega))

theorem getD_of_getElem? (l : List Nat) (i v : Nat) (h : l[i]? = some v) :
    l.getD i 0 = v := by
  rw [List.getD_eq_getElem?_getD, h]
  rfl

theorem windowUpdateChecked_eq (s : Aggregator) (r : Nat) (h : Inv s) (hr : r < 12) :
    windowUpdateChecked s r = some (windowUpdate s r) := by
  have hw : s.result_window.length = 40 := h.window_length
  have hc : s.result_count.length = 12 := h.count_length
  have hi : s.window_idx < 40 := h.idx_lt
  have hold := inv_slot_lt s h
  have hpos := inv_count_pos s h
  have hle := inv_count_le s h
  have hI := windowUpdate_inv s r h hr
  have hnew : (windowUpdate s r).result_window.getD s.window_idx 0 < 12 :=
    hI.window_lt _ (getD_mem _ _ (by
      have h40 : (windowUpdate s r).result_window.length = 40 := hI.window_length
      omega))
  unfold windowUpdateChecked
  split
  · rename_i he
    rw [getElem?_of_lt _ _ (by omega)] at he
    cases he
  · rename_i old he
    have hold2 := getD_of_getElem? _ _ _ he
    subst hold2
    split
    · rename_i he2
      rw [getElem?_of_lt _ _ (by omega)] at he2
      cases he2
    · rename_i c he2
      have hc2 := getD_of_getElem? _ _ _ he2
      subst hc2
      rw [if_neg (by omega)]
      simp only []
      split
      · rename_i he3
        exfalso
        rw [List.getElem?_eq_none_iff] at he3
        split_ifs at he3 <;> simp only [List.length_set] at he3 <;> omega
      · rename_i new he3
        have hn := getD_of_getElem? _ _ _ he3
        have hn2 : new = (windowUpdate s r).result_window.getD s.window_idx 0 := hn.symm
        split
        · rename_i he4
          exfalso
          rw [List.getElem?_eq_none_iff, List.length_set] at he4
          omega
        · rename_i c2 he4
          have hc4 := getD_of_getElem? _ _ _ he4
          have hc2le : c2 ≤ 40 := by
            rw [← hc4, getD_set_eq _ _ _ _ (by omega)]
            split_ifs
            · have := hle (s.result_window.getD s.window_idx 0); omega
            · exact hle new
          rw [if_neg (by omega)]
          unfold windowUpdate
          simp only [Option.some.injEq]
          have e1 : (s.result_count.getD (s.result_window.getD s.window_idx 0) 0 + 255) % 256
              = s.result_count.getD (s.result_window.getD s.window_idx 0) 0 - 1 := by
            have := hle (s.result_window.getD s.window_idx 0); omega
          rw [e1, hn, hc4, Nat.mod_eq_of_lt (by omega)]


theorem maxResultLoopChecked_eq (cnt : List Nat) (hc : cnt.length = 12) :
    ∀ k acc, maxResultLoopChecked cnt k acc = some (maxResultLoop cnt k acc) := by
  intro k
  induction k with
  | zero => intro acc; rfl
  | succ k ih =>
    intro acc
    rw [maxResultLoopChecked, maxResultLoop, getElem?_of_lt cnt (12 - (k + 1)) (by omega)]
    simp only []
    split_ifs
    · exact ih _
    · exact ih _

theorem scanLoopChecked_eq (w : List Nat) (cur : sys_state) (hw : w.length = 40) :
    ∀ fuel (v : Scan), v.start_idx < 40 →
      scanLoopChecked w cur fuel v = some (scanLoop w cur fuel v) := by
  intro fuel
  induction fuel with
  | zero => intro v _; rfl
  | succ fuel ih =>
    intro v hv
    rw [scanLoopChecked, scanLoop, getElem?_of_lt w v.start_idx (by omega)]
    simp only []
    split_ifs with h1 h2 h3
    · rfl
    · exact ih _ (by simp only; omega)
    · exact ih _ (by have h40 : ¬ (v.start_idx + 1 = 40) := h3; simp only; omega)
    · rfl
    · exact ih _ (by simp only; omega)
    · rename_i h4
      exact ih _ (by have h40 : ¬ (v.start_idx + 1 = 40) := h4; simp only; omega)

theorem getD_lt (w : List Nat) (hw : ∀ x ∈ w, x < 12) (i : Nat) : w.getD i 0 < 12 := by
  by_cases h : i < w.length
  · exact hw _ (getD_mem w i h)
  · rw [List.getD_eq_default _ _ (by omega)]
    omega

theorem scanLoop_result_lt (w : List Nat) (cur : sys_state) (hw : ∀ x ∈ w, x < 12) :
    ∀ fuel (v : Scan), v.consecutive_result < 12 →
      (scanLoop w cur fuel v).consecutive_result < 12 := by
  intro fuel
  induction fuel with
  | zero => intro v hv; exact hv
  | succ fuel ih =>
    intro v hv
    have hs := getD_lt w hw v.start_idx
    rw [scanLoop]
    simp only []
    split_ifs with h1 h2 h3
    · exact hv
    · exact ih _ hv
    · exact ih _ hv
    · exact hs
    · exact ih _ hs
    · exact ih _ hs

theorem consensusScan_result_lt (s : Aggregator) (h : Inv s) :
    (consensusScan s).consecutive_result < 12 :=
  scanLoop_result_lt _ _ h.window_lt _ _ (getD_lt _ h.window_lt _)

theorem consensusScanChecked_eq (s : Aggregator) (h : Inv s) :
    consensusScanChecked s = some (consensusScan s) := by
  have hw : s.result_window.length = 40 := h.window_length
  have hi : s.window_idx < 40 := h.idx_lt
  rw [consensusScanChecked, getElem?_of_lt _ _ (by omega)]
  exact scanLoopChecked_eq _ _ hw _ _ hi

theorem label_getElem? (c : Nat) (hc : c < 12) : label[c]? = some (label.getD c "") := by
  interval_cases c <;> rfl

theorem emissionSwitchChecked_eq (cur : sys_state) (fill_silence_cnt print_flag : Nat)
    (result_count : List Nat) (consecutive_result : Nat) (hl : result_count.length = 12)
    (hc : consecutive_result < 12) :
    emissionSwitchChecked cur fill_silence_cnt print_flag result_count consecutive_result
      = some (emissionSwitch cur fill_silence_cnt print_flag result_count consecutive_result) := by
  cases cur with
  | detecting =>
    simp only [emissionSwitchChecked, emissionSwitch]
    by_cases hp : print_flag ≠ 0
    · rw [if_pos hp, if_pos hp, if_neg (by omega), label_getElem? _ hc]
    · rw [if_neg hp, if_neg hp]
  | fill_silence => rfl

theorem stepChecked_eq (s : Aggregator) (r : Nat) (h : Inv s) (hr : r < 12) :
    stepChecked s r = some (step s r) := by
  have hI := windowUpdate_inv s r h hr
  rw [stepChecked, windowUpdateChecked_eq s r h hr]
  simp only []
  rw [maxResultLoopChecked_eq _ hI.count_length]
  simp only []
  rw [consensusScanChecked_eq _ hI]
  simp only []
  rw [emissionSwitchChecked_eq _ _ _ _ _ hI.count_length (consensusScan_result_lt _ hI)]
  rfl


theorem stepChecked_detects_underflow :
    stepChecked { Aggregator.init with result_count := List.replicate 12 0 } 10 = none := by
  decide

/-- C21. Index and underflow safety of the aggregator: in every state reached
from the initial state by notifications with codes in `0..11`, every window
entry is in `0..11`, the write index is below `WINDOW_SIZE`, the window has
`WINDOW_SIZE` slots, `result_count` and `label` have 12 entries, and for every
class `c` the count `result_count[c]` is the number of window slots holding
`c`; hence the counter that line 174 decrements is at least 1, no count exceeds
`WINDOW_SIZE`, and the next notification, run with every access to
`result_window`, `result_count` and `label` checked against the array bounds
and the two counter updates checked against the range of `u8`, passes every
check and does what the unchecked code does. -/
theorem aggregator_index_safety (codes : List Nat) (h : ∀ c ∈ codes, c < 12) :
    (∀ x ∈ (run Aggregator.init codes).result_window, x < 12)
    ∧ (run Aggregator.init codes).window_idx < WINDOW_SIZE
    ∧ (run Aggregator.init codes).result_window.length = WINDOW_SIZE
    ∧ (run Aggregator.init codes).result_count.length = 12
    ∧ label.length = 12
    ∧ (∀ c, c < 12 →
        (run Aggregator.init codes).result_count.getD c 0
          = (run Aggregator.init codes).result_window.count c)
    ∧ 1 ≤ (run Aggregator.init codes).result_count.getD
        ((run Aggregator.init codes).result_window.getD
          (run Aggregator.init codes).window_idx 0) 0
    ∧ (∀ c, (run Aggregator.init codes).result_count.getD c 0 ≤ WINDOW_SIZE)
    ∧ (∀ r, r < 12 →
        stepChecked (run Aggregator.init codes) r = some (step (run Aggregator.init codes) r)) := by
  have hI := run_inv codes Aggregator.init init_inv h
  exact ⟨hI.window_lt, hI.idx_lt, hI.window_length, hI.count_length, rfl, hI.count_eq,
    inv_count_pos _ hI, inv_count_le _ hI, fun r hr => stepChecked_eq _ r hI hr⟩

/-- Witness for C21: the stream `right right up up`, then `up`. -/
theorem aggregator_index_safety_witness :
    (∀ c ∈ [5, 5, 2, 2], c < 12)
    ∧ stepChecked (run Aggregator.init [5, 5, 2, 2]) 2
        = some (step (run Aggregator.init [5, 5, 2, 2]) 2)
    ∧ (step (run Aggregator.init [5, 5, 2, 2]) 2).1.result_count
        = [0, 0, 2, 0, 0, 1, 0, 0, 0, 0, 37, 0] :=
  ⟨by decide, (aggregator_index_safety [5, 5, 2, 2] (by decide)).2.2.2.2.2.2.2.2 2 (by decide),
    by decide⟩

/-! ## Weight lines and address tokens -/

theorem hexDigit_none (c : Char) (h : hexDigit c = none) :
    c ≠ '0' ∧ ∀ d, digitValue c = some d → ¬ d < 16 := by
  constructor
  · rintro rfl
    revert h
    decide
  · intro d hd
    unfold hexDigit at h
    unfold digitValue at hd
    split_ifs at h hd with h1 h2 h3 h4 h5 <;>
      (simp only [Option.some.injEq] at hd; omega)

theorem cstring_cons (c : Char) (cs : List Char) :
    cstring (c :: cs) = if c = NUL then [] else c :: cstring cs := by
  unfold cstring
  rw [List.takeWhile_cons]
  by_cases h : c = NUL <;> simp [h]

theorem isspace_NUL : isspace NUL = false := by decide

theorem dropWhile_cstring (l : List Char) :
    (cstring l).dropWhile isspace = cstring (l.dropWhile isspace) := by
  induction l with
  | nil => rfl
  | cons c cs ih =>
    by_cases hc : c = NUL
    · subst hc
      rw [cstring_cons, if_pos rfl, List.dropWhile_cons_of_neg (by simp [isspace_NUL]),
        cstring_cons, if_pos rfl]
      rfl
    · rw [cstring_cons, if_neg hc]
      by_cases hs : isspace c = true
      · rw [List.dropWhile_cons_of_pos hs, List.dropWhile_cons_of_pos hs, ih]
      · rw [List.dropWhile_cons_of_neg hs, List.dropWhile_cons_of_neg hs, cstring_cons, if_neg hc]

theorem cstring_head (s : List Char) (c : Char) (hc : c ≠ NUL) :
    (cstring s).head? = some c ↔ s.head? = some c := by
  cases s with
  | nil => simp [cstring]
  | cons x xs =>
    rw [cstring_cons]
    by_cases hx : x = NUL
    · subst hx
      simp only [if_pos, List.head?_nil, List.head?_cons, Option.some.injEq]
      constructor
      · intro h; cases h
      · intro h; exact absurd h.symm hc
    · simp [hx]

theorem NUL_ne_sign : ('-' : Char) ≠ NUL ∧ ('+' : Char) ≠ NUL := by decide

theorem cstring_tail (s : List Char) (h : s.head? ≠ some NUL) :
    (cstring s).tail = cstring s.tail := by
  cases s with
  | nil => rfl
  | cons x xs =>
    have hx : x ≠ NUL := by
      intro e; apply h; rw [e]; rfl
    rw [cstring_cons, if_neg hx]
    rfl

theorem strtoulDigits_none (s : List Char)
    (h : match s with | [] => True | c :: _ => hexDigit c = none) :
    strtoulDigits 16 (cstring s) 0 false = (0, false) ∧ (cstring s).head? ≠ some '0' := by
  cases s with
  | nil => exact ⟨rfl, by simp [cstring]⟩
  | cons c cs =>
    simp only at h
    obtain ⟨h0, hd⟩ := hexDigit_none c h
    rw [cstring_cons]
    by_cases hc : c = NUL
    · rw [if_pos hc]
      exact ⟨rfl, by simp⟩
    · rw [if_neg hc]
      refine ⟨?_, by simpa using h0⟩
      rw [strtoulDigits]
      cases hv : digitValue c with
      | none => rfl
      | some d => simp only [if_neg (hd d hv)]

theorem strtoul_no_digit (l : List Char) (h : noHexAfterSign l = true) :
    strtoul (cstring l) 16 = 0 := by
  have hcond : (match afterSign l with | [] => True | c :: _ => hexDigit c = none) := by
    unfold noHexAfterSign at h
    cases hs : afterSign l with
    | nil => trivial
    | cons c cs =>
      rw [hs] at h
      simpa using h
  obtain ⟨hdig, h0⟩ := strtoulDigits_none (afterSign l) hcond
  have hsign : (if (cstring (l.dropWhile isspace)).head? = some '-'
        ∨ (cstring (l.dropWhile isspace)).head? = some '+'
      then (cstring (l.dropWhile isspace)).tail else cstring (l.dropWhile isspace))
      = cstring (afterSign l) := by
    have e1 := cstring_head (l.dropWhile isspace) _ NUL_ne_sign.1
    have e2 := cstring_head (l.dropWhile isspace) _ NUL_ne_sign.2
    unfold afterSign
    simp only []
    by_cases hs : (l.dropWhile isspace).head? = some '-' ∨ (l.dropWhile isspace).head? = some '+'
    · rw [if_pos (by rw [e1, e2]; exact hs), if_pos hs]
      apply cstring_tail
      rcases hs with hs | hs <;> rw [hs] <;> decide
    · rw [if_neg (by rw [e1, e2]; exact hs), if_neg hs]
  unfold strtoul
  simp only [dropWhile_cstring, hsign, h0, false_and, and_false, if_false, hdig,
    Bool.false_eq_true]
  split_ifs <;> rfl

/-- C22, counterexample. First, a line that starts with a space, and a line that
starts with a minus sign, have no leading hexadecimal digit, yet `sd_read_hex`
stores `00 00 00 1F` for the first and `FF FF FF FF` for the second. Second, a
file whose first line has 38 hexadecimal digits and whose second line is `AB`,
with capacity 3: the 32-byte line buffer makes `f_gets` return the first line
in two pieces, so the file of two lines takes three element slots and line 1
lands at offset 8, not at offset 4. -/
theorem hex_line_not_zero_or_split :
    leadingHex (" 1F".data ++ [Char.ofNat 10]) = []
    ∧ leadingHex ("-1".data ++ [Char.ofNat 10]) = []
    ∧ sd_read_hex (some [" 1F".data ++ [Char.ofNat 10], "-1".data ++ [Char.ofNat 10]]) []
        (List.replicate 8 9) 2
      = (0, [0, 0, 0, 0x1F, 0xFF, 0xFF, 0xFF, 0xFF])
    ∧ [0, 0, 0, 0x1F] ≠ [0, 0, 0, 0] ∧ [0xFF, 0xFF, 0xFF, 0xFF] ≠ [0, 0, 0, 0]
    ∧ fgetsReturns 32 [List.replicate 37 '0' ++ ['1', Char.ofNat 10], "AB".data ++ [Char.ofNat 10]]
        = [List.replicate 31 '0', List.replicate 6 '0' ++ ['1', Char.ofNat 10],
            "AB".data ++ [Char.ofNat 10]]
    ∧ sd_read_hex
        (some [List.replicate 37 '0' ++ ['1', Char.ofNat 10], "AB".data ++ [Char.ofNat 10]])
        [] (List.replicate 12 9) 3
      = (0, [0, 0, 0, 0, 0, 0, 0, 1, 0, 0, 0, 0xAB])
    ∧ (readHexLoop 3
        (fgetsReturns 32
          [List.replicate 37 '0' ++ ['1', Char.ofNat 10], "AB".data ++ [Char.ofNat 10]])
        [] (List.replicate 12 9) 0).2 = 3
    ∧ min 3 [List.replicate 37 '0' ++ ['1', Char.ofNat 10], "AB".data ++ [Char.ofNat 10]].length
        = 2 := by
  decide

theorem readHexLoop_count (max_lines : Nat) (lines : List (List Char)) :
    ∀ (buf : List Char) (dest : List Nat) (lc : Nat), lc ≤ max_lines →
      (readHexLoop max_lines lines buf dest lc).2 = lc + min (max_lines - lc) lines.length := by
  induction lines with
  | nil => intro buf dest lc _; simp [readHexLoop]
  | cons l ls ih =>
    intro buf dest lc hlc
    rw [readHexLoop]
    by_cases h1 : lc < max_lines
    · rw [if_pos h1, ih _ _ (lc + 1) h1, List.length_cons]
      omega
    · rw [if_neg h1, List.length_cons]
      simp only
      omega

theorem flatten_chunk (post : List Nat) (ws : List (List Nat)) :
    (∀ w ∈ ws, w.length = 4) →
      ∀ j, j < ws.length → ((ws.flatten ++ post).drop (4 * j)).take 4 = ws.getD j [] := by
  induction ws with
  | nil => intro _ j hj; simp at hj
  | cons w ws ih =>
    intro hw j hj
    have h4 : w.length = 4 := hw w (List.mem_cons_self _ _)
    rw [List.flatten_cons, List.append_assoc]
    cases j with
    | zero =>
      rw [Nat.mul_zero, List.drop_zero, List.take_left' h4]
      rfl
    | succ j =>
      rw [show 4 * (j + 1) = 4 + 4 * j by omega, ← List.drop_drop, List.drop_left' h4,
        ih (fun x hx => hw x (List.mem_cons_of_mem _ hx)) j (by simpa using hj)]
      simp [List.getD_cons_succ]

theorem hexWords_getD (max_lines : Nat) (lines : List (List Char)) (j : Nat)
    (hj : j < min max_lines lines.length) :
    ((lines.take max_lines).map (fun l => bigEndian4 (hexWord l))).getD j []
      = bigEndian4 (hexWord (lines.getD j [])) := by
  have h1 : j < max_lines := by omega
  have h2 : j < lines.length := by omega
  simp only [List.getD_eq_getElem?_getD, List.getElem?_map, List.getElem?_take_of_lt h1,
    List.getElem?_eq_getElem h2, Option.map_some', Option.getD_some]

/-- C22 (amended). Hex lines are never skipped: for every list of lines each of
which fits the 32-byte line buffer (at most 31 characters, its line feed
included and last), every line buffer content and every capacity, `sd_read_hex`
ends with `line_count = min max_lines (number of lines)`; with a destination of
at least `4 * line_count` bytes, line `j` lands at offset `4 * j` for every
`j < line_count` as the big-endian word of `strtoul(line, NULL, 16)`, and the
bytes from offset `4 * line_count` on are untouched; a line in which no
hexadecimal digit follows the leading white space and one optional sign is
stored as `00 00 00 00` and advances `line_count` by one, whereas a line of a
binary-coded region (fitting its 128-byte line buffer) with a character other
than `0` and `1` among its first `bit_len` leaves buffer and count of
`sd_read_binary` as they were. -/
theorem hex_lines_never_skipped (lines : List (List Char)) (line_buf : List Char)
    (dest_buf : List Nat) (max_lines : Nat)
    (hfit : ∀ l ∈ lines, fitsBuffer 32 l = true)
    (hd : 4 * min max_lines lines.length ≤ dest_buf.length) :
    (readHexLoop max_lines (fgetsReturns 32 lines) line_buf dest_buf 0).2
        = min max_lines lines.length
    ∧ (∀ j, j < min max_lines lines.length →
        ((sd_read_hex (some lines) line_buf dest_buf max_lines).2.drop (4 * j)).take 4
            = bigEndian4 (strtoul (cstring (lines.getD j [])) 16 % 2 ^ 32)
        ∧ (noHexAfterSign (lines.getD j []) = true →
            ((sd_read_hex (some lines) line_buf dest_buf max_lines).2.drop (4 * j)).take 4
              = [0, 0, 0, 0]))
    ∧ (sd_read_hex (some lines) line_buf dest_buf max_lines).2.drop
          (4 * min max_lines lines.length)
        = dest_buf.drop (4 * min max_lines lines.length)
    ∧ (∀ l rest buf dest line_count, fitsBuffer 32 l = true → noHexAfterSign l = true →
        line_count < max_lines →
        readHexLoop max_lines (fgetsReturns 32 (l :: rest)) buf dest line_count
          = readHexLoop max_lines (fgetsReturns 32 rest) (f_gets buf l)
              (storeWord dest (line_count * 4) 0) (line_count + 1))
    ∧ (∀ bit_len l rest buf dest line_count, fitsBuffer 128 l = true →
        (∃ i, i < bit_len ∧ l[i]? ≠ some '0' ∧ l[i]? ≠ some '1') →
        readBinaryLoop bit_len max_lines (fgetsReturns 128 (l :: rest)) buf dest line_count
          = readBinaryLoop bit_len max_lines (fgetsReturns 128 rest) buf dest line_count) := by
  have hr := fgetsReturns_fits 32 lines hfit
  have h := readHexLoop_eq max_lines lines line_buf [] dest_buf 0 rfl (Nat.zero_le _)
    (by simpa using hd)
  simp only [List.nil_append, Nat.sub_zero, Nat.zero_add] at h
  have hlen : ((lines.take max_lines).map (fun l => bigEndian4 (hexWord l))).length
      = min max_lines lines.length := by simp
  have hchunk : ∀ j, j < min max_lines lines.length →
      ((sd_read_hex (some lines) line_buf dest_buf max_lines).2.drop (4 * j)).take 4
        = bigEndian4 (strtoul (cstring (lines.getD j [])) 16 % 2 ^ 32) := by
    intro j hj
    simp only [sd_read_hex, hr, h]
    rw [flatten_chunk _ _ (by
      intro w hw
      obtain ⟨l, _, rfl⟩ := List.mem_map.mp hw
      rfl) j (by rw [hlen]; exact hj), hexWords_getD max_lines lines j hj]
    rfl
  refine ⟨by rw [hr, h], fun j hj => ⟨hchunk j hj, fun hz => ?_⟩, ?_, ?_, ?_⟩
  · rw [hchunk j hj, strtoul_no_digit _ hz]
    rfl
  · simp only [sd_read_hex, hr, h]
    rw [List.drop_left' (by
      rw [List.length_flatten, List.map_map]
      have : ((fun l : List Nat => l.length) ∘ fun l => bigEndian4 (hexWord l))
          = fun _ => 4 := by
        funext l; simp [bigEndian4]
      rw [this]
      simp [Nat.mul_comm])]
  · intro l rest buf dest lc hl hz hlc
    rw [fgetsReturns_cons 32 l rest hl, readHexLoop, if_pos hlc, cstring_f_gets,
      strtoul_no_digit l hz]
    rfl
  · intro bit_len l rest buf dest lc hl hm
    rw [fgetsReturns_cons 128 l rest hl]
    have hf : (l :: fgetsReturns 128 rest).filter (accepted bit_len)
        = (fgetsReturns 128 rest).filter (accepted bit_len) := by
      rw [List.filter_cons, if_neg]
      rw [Bool.not_eq_true]
      exact (accepted_false_iff _ _).mpr hm
    rw [readBinaryLoop_filter _ _ (l :: fgetsReturns 128 rest) buf buf dest lc, hf,
      ← readBinaryLoop_filter]

/-- Witness for C22: a weight line, an empty line, a line of text and a line
with a sign only, with capacity 5. -/
theorem hex_lines_never_skipped_witness :
    (∀ l ∈ ["1A".data ++ [Char.ofNat 10], [Char.ofNat 10], "zz".data ++ [Char.ofNat 10],
        " -".data], fitsBuffer 32 l = true)
    ∧ 4 * min 5 ["1A".data ++ [Char.ofNat 10], [Char.ofNat 10], "zz".data ++ [Char.ofNat 10],
        " -".data].length ≤ (List.replicate 20 9).length
    ∧ sd_read_hex (some ["1A".data ++ [Char.ofNat 10], [Char.ofNat 10],
          "zz".data ++ [Char.ofNat 10], " -".data]) [] (List.replicate 20 9) 5
      = (0, [0, 0, 0, 26, 0, 0, 0, 0, 0, 0, 0, 0, 0, 0, 0, 0, 9, 9, 9, 9])
    ∧ (readHexLoop 5 (fgetsReturns 32 ["1A".data ++ [Char.ofNat 10], [Char.ofNat 10],
          "zz".data ++ [Char.ofNat 10], " -".data]) [] (List.replicate 20 9) 0).2 = 4 :=
  ⟨by decide, by decide, by decide,
    (hex_lines_never_skipped ["1A".data ++ [Char.ofNat 10], [Char.ofNat 10],
        "zz".data ++ [Char.ofNat 10], " -".data] [] (List.replicate 20 9) 5 (by decide)
      (by decide)).1.trans (by decide)⟩

theorem addressTokens_sub : ∀ t ∈ addressTokens, t ∈ tokens := by decide

theorem addressTokens_decoded :
    (addressTokens.map decodeToken).Nodup
    ∧ ∀ t ∈ addressTokens, 128 ≤ (decodeToken t).getD 0 0 := by
  decide

theorem addressTokens_words :
    (addressTokens.map binary_str_to_uint32).Nodup
    ∧ ∀ t ∈ addressTokens, 2 ^ 31 ≤ binary_str_to_uint32 t ∧ binary_str_to_uint32 t < 2 ^ 32 := by
  decide

/-- C23. Address Tokens select distinct destinations: whatever the four-byte
array `addr_uint8` holds before, the thirteen 4-byte decodings that
`initial_TMA` computes (`binary_str_to_uint32` followed by the big-endian split)
for the twelve bank address tokens and the inference-enable address token are
pairwise distinct, each is four bytes long and has the most significant bit of
its first byte set (first byte at least `0x80`); the 32-bit words themselves are
pairwise distinct and at least `2 ^ 31`. -/
theorem address_tokens_distinct (addr_uint8 : List Nat) (h4 : addr_uint8.length = 4) :
    addressTokens.length = 13
    ∧ (addressTokens.map (fun t => storeWord addr_uint8 0 (binary_str_to_uint32 t))).Nodup
    ∧ (addressTokens.map binary_str_to_uint32).Nodup
    ∧ ∀ t ∈ addressTokens,
        (storeWord addr_uint8 0 (binary_str_to_uint32 t)).length = 4
        ∧ 0x80 ≤ (storeWord addr_uint8 0 (binary_str_to_uint32 t)).getD 0 0
        ∧ (storeWord addr_uint8 0 (binary_str_to_uint32 t)).getD 0 0 < 256
        ∧ 2 ^ 31 ≤ binary_str_to_uint32 t := by
  have e : addressTokens.map (fun t => storeWord addr_uint8 0 (binary_str_to_uint32 t))
      = addressTokens.map decodeToken := by
    apply List.map_congr_left
    intro t ht
    exact store_token addr_uint8 h4 t (addressTokens_sub t ht)
  refine ⟨rfl, ?_, addressTokens_words.1, ?_⟩
  · rw [e]
    exact addressTokens_decoded.1
  · intro t ht
    rw [store_token addr_uint8 h4 t (addressTokens_sub t ht)]
    refine ⟨decodeToken_length t, addressTokens_decoded.2 t ht, ?_, (addressTokens_words.2 t ht).1⟩
    revert t
    decide

/-- Witness for C23: `addr_uint8` starts as four zero bytes. -/
theorem address_tokens_distinct_witness :
    [0, 0, 0, 0].length = 4
    ∧ (addressTokens.map (fun t => storeWord [0, 0, 0, 0] 0 (binary_str_to_uint32 t))).Nodup :=
  ⟨rfl, (address_tokens_distinct [0, 0, 0, 0] rfl).2.1⟩

end TsetlinKWS
